import Mathlib

/-!
Verification development for the media-stack bootstrap scripts
(`scripts/config_stack.py` and `scripts/vpn_watch.py`).

Python strings are embedded as lists of characters (`Line`), documents as
lists of lines (Python reads the file and immediately calls `splitlines`,
so the line-list is the representation the code itself works with).
Regex-based line tests from the source are embedded as executable
character-list functions whose doc comments state the regex they realize.
-/

/-- A Python string (one line of a config file, a key, a value ...). -/
abbrev Line := List Char

/-- Build a `Line` from a Lean string literal (used for concrete inputs). -/
def lineOf (s : String) : Line := s.data

/-- The characters Python's `str.strip()` removes (ASCII whitespace). -/
def isSpaceChar (c : Char) : Bool :=
  c = ' ' || c = '\t' || c = '\n' || c = '\r' || c = '\x0b' || c = '\x0c'

/-- Python `s.lstrip()` (ASCII part). -/
def stripLeft (l : Line) : Line := l.dropWhile isSpaceChar

/-- Python `s.rstrip()` (ASCII part). -/
def stripRight (l : Line) : Line := (l.reverse.dropWhile isSpaceChar).reverse

/-- Python `s.strip()` (ASCII part). -/
def strip (l : Line) : Line := stripRight (stripLeft l)

/-- Python `s.lower()` (ASCII part, which is all the source compares). -/
def lower (l : Line) : Line := l.map Char.toLower

/-- Python `sub in s` (substring containment), as used for
`"Should be unique" in r.text`. -/
def containsSub (sub l : Line) : Bool :=
  match l with
  | [] => sub.isEmpty
  | _ :: rest => sub.isPrefixOf l || containsSub sub rest

/-- Everything after the first `=` of a line; `[]` when there is no `=`.
Embeds Python `line.split("=", 1)[1]` (the source only evaluates it on
lines that matched a `key =` regex, so an `=` is present there). -/
def dropThroughEq : Line → Line
  | [] => []
  | c :: cs => if c = '=' then cs else dropThroughEq cs

/-- Python `line.split("=", 1)[1].strip()`: the value part of a `key = value`
config line. -/
def valueAfterEq (l : Line) : Line := strip (dropThroughEq l)

/-- Embeds the regex `^\s*KEY\s*=` with `re.I` (as compiled by
`_sab_set_misc_kv`, `ensure_sab_folders.set_kv` and the
`host_whitelist` scan): optional leading whitespace, the key
case-insensitively, optional whitespace, then `=`. -/
def kvMatch (key : Line) (l : Line) : Bool :=
  let t := stripLeft l
  (lower key).isPrefixOf (lower t) &&
    (match stripLeft (t.drop key.length) with
     | '=' :: _ => true
     | _ => false)

/-- Python truthiness of a string (`if not host: ...`). -/
def pyTruthy (l : Line) : Bool := !l.isEmpty

/-! ## vpn_watch.py (claim C10)

`main` begins with

  if not os.getenv("VPN_WATCHDOG_ENABLED", "false").lower() == True:
      quit()

Python parses this as `not (str == True)`.  A `str` is never `==` a `bool`
in Python (`str.__eq__` returns `NotImplemented` for a `bool` argument and
the fallback identity comparison fails), so the condition of the `if` is
always true.  We embed Python dynamic values and their `==`. -/

/-- A Python runtime value, as far as the watchdog guard needs. -/
inductive PyVal where
  | str (s : Line)
  | bool (b : Bool)
deriving DecidableEq

/-- Python `==` on these values: values of different types compare unequal
(neither `str.__eq__` nor `bool.__eq__` accepts the other side, and the
identity fallback fails). -/
def pyEq : PyVal → PyVal → Bool
  | .str a, .str b => a == b
  | .bool a, .bool b => a == b
  | _, _ => false

/-- Abstract first observable effects of `vpn_watch.main`'s loop body. -/
inductive VpnAction where
  | healthCheck
  | mqttPublish
deriving DecidableEq

/-- The guard of `vpn_watch.main`: `not env.lower() == True` where `env` is
the value of `VPN_WATCHDOG_ENABLED` (default "false"). -/
def vpnWatchGuardQuits (envVal : Line) : Bool :=
  !(pyEq (.str (lower envVal)) (.bool true))

/-- `vpn_watch.main`, abstracted to the actions it performs before/instead
of quitting: if the guard fires it calls `quit()` with no actions; otherwise
it enters the polling loop, whose first action is a health check followed by
an MQTT publish. -/
def vpnWatchMainActions (envVal : Line) : List VpnAction :=
  if vpnWatchGuardQuits envVal then []
  else [VpnAction.healthCheck, VpnAction.mqttPublish]

/-! ## Resource reconciler data (claims C1, C2, C9) -/

/-- One entry of an application/indexer listing as far as identity matching
is concerned: `name`, `implementation` and the numeric `id`. -/
structure PApp where
  name : Line
  implementation : Line
  id : Nat
deriving DecidableEq

/-- One entry of a `fields` list: a `"name"`/`"value"` pair. Values are kept
as embedded Python strings; only equality of values matters here. -/
structure PField where
  name : Line
  value : Line
deriving DecidableEq

/-- Last index `i < fs.length` whose field has (truthy) name `n`; embeds the
dict `by_name = {f.get("name"): i for i, f in enumerate(out) if f.get("name")}`
(later entries overwrite earlier ones, falsy names are skipped). -/
def byNameIdx (fs : List PField) (n : Line) : Option Nat :=
  (List.range fs.length).foldl
    (fun acc i =>
      match fs.get? i with
      | some f => if f.name ≠ [] && f.name == n then some i else acc
      | none => acc)
    none

/-- Replace the element at index `i` (no-op when out of range). -/
def modifyAt (l : List PField) (i : Nat) (f : PField → PField) : List PField :=
  match l, i with
  | [], _ => []
  | x :: xs, 0 => f x :: xs
  | x :: xs, n + 1 => x :: modifyAt xs n f

/-- Embeds `_merge_fields(existing, new_fields)`: start from a copy of
`existing`; for each new field with a truthy name, if the name occurs in the
index built from `existing` overwrite that entry's value in place, else
append a fresh `name`/`value` entry. The index is built once, from
`existing` only. -/
def mergeFields (existing newFields : List PField) : List PField :=
  newFields.foldl
    (fun out nf =>
      if nf.name = [] then out
      else
        match byNameIdx existing nf.name with
        | some i => modifyAt out i (fun f => { f with value := nf.value })
        | none => out ++ [⟨nf.name, nf.value⟩])
    existing

/-- Embeds the tag update in the matched branch of
`create_indexer_with_optional_proxy` (config_stack.py:1346):
`obj["tags"] = [tag_id] if tag_id is not None else (obj.get("tags") or [])`. -/
def updateTags (currentTags : List Nat) (tagId : Option Nat) : List Nat :=
  match tagId with
  | some t => [t]
  | none => currentTags

/-! ## Resilient transport (claim C3)

`http_put_with_retries` / `post_with_retries` loop `for i in range(tries)`:
the request either yields a response (returned immediately, whatever its
status) or raises; only `ConnectionError` and `ReadTimeout` are caught, and
on the last attempt the caught exception is re-raised.  Other exceptions
propagate at once.  The attempt outcomes are supplied by an oracle. -/

/-- Outcome of one underlying `requests.put`/`requests.post` call: a received
response (status, body, parsed json id) or one of the exception kinds. -/
inductive ReqAttempt where
  | resp (status : Nat) (body : Line) (jsonId : Option Nat)
  | connError
  | readTimeout
  | otherExc
deriving DecidableEq

/-- The exception classes caught by the retry wrappers
(`requests.exceptions.ConnectionError`, `requests.exceptions.ReadTimeout`). -/
def isTransient : ReqAttempt → Bool
  | .connError => true
  | .readTimeout => true
  | _ => false

/-- How a retry wrapper finishes: a returned response or a raised exception. -/
inductive RetryResult where
  | returned (status : Nat) (body : Line) (jsonId : Option Nat)
  | raised (e : ReqAttempt)
deriving DecidableEq

/-- The common retry loop of `http_put_with_retries` and `post_with_retries`.
`remaining` counts the iterations left of `range(tries)` (so it starts at
`tries` with `i = 0`); `sleeps` records every `time.sleep(delay)` performed.
`none` is Python's implicit `None` when `tries = 0`. -/
def retryLoopAux (attempt : Nat → ReqAttempt) (tries delay : Nat) :
    Nat → Nat → List Nat → Option (RetryResult × List Nat)
  | 0, _, _ => none
  | remaining + 1, i, sleeps =>
    match attempt i with
    | .resp s b j => some (.returned s b j, sleeps)
    | e =>
      if isTransient e then
        if i = tries - 1 then some (.raised e, sleeps)
        else retryLoopAux attempt tries delay remaining (i + 1) (sleeps ++ [delay])
      else some (.raised e, sleeps)

/-- `http_put_with_retries(url, headers, json_obj, tries=5, delay=3, ...)`:
attempts come from the oracle, the result is the wrapper's return/raise plus
the trace of inter-attempt sleeps. -/
def httpPutWithRetries (attempt : Nat → ReqAttempt) (tries delay : Nat) :
    Option (RetryResult × List Nat) :=
  retryLoopAux attempt tries delay tries 0 []

/-- `post_with_retries(url, headers=None, payload=None, tries=4, delay=4, ...)`:
identical retry structure (the `if i == tries - 1: raise` test precedes the
log-and-sleep, exactly as in the PUT wrapper). -/
def postWithRetries (attempt : Nat → ReqAttempt) (tries delay : Nat) :
    Option (RetryResult × List Nat) :=
  retryLoopAux attempt tries delay tries 0 []

/-! ## HTTP readiness prober (claim C8)

`wait_for_http(url, timeout, app_name)` sets `deadline = time.time() + timeout`
and loops `while time.time() < deadline`: one `GET` (own 5s timeout), return
`True` on `status_code < 500`, otherwise (non-2xx/3xx/4xx status or any
exception) `time.sleep(3)` and poll again.  We model wall-clock time as a
natural number starting at 0 (so `deadline = timeout`), each probe taking
`dur` seconds. -/

/-- One poll observed by `wait_for_http`: a response with a status, or an
exception (connection refused, timeout, ...); `dur` is the time the request
itself consumed. -/
inductive ProbeStep where
  | resp (status : Nat) (dur : Nat)
  | exc (dur : Nat)
deriving DecidableEq

/-- The time one probe step consumes. -/
def probeDur : ProbeStep → Nat
  | .resp _ d => d
  | .exc d => d

/-- `wait_for_http`'s loop: `t` is the current clock, `i` the poll counter.
Returns (ready?, clock value at return). -/
def waitForHttp (probe : Nat → ProbeStep) (deadline : Nat) (t i : Nat) :
    Bool × Nat :=
  if _h : t < deadline then
    match probe i with
    | .resp s d =>
      if s < 500 then (true, t + d)
      else waitForHttp probe deadline (t + d + 3) (i + 1)
    | .exc d => waitForHttp probe deadline (t + d + 3) (i + 1)
  else (false, t)
termination_by deadline - t
decreasing_by all_goals omega

/-! ## add_app and create_indexer_with_optional_proxy flows (claims C2, C9) -/

/-- The first-match scan of `add_app` (config_stack.py:1020):
`next((a for a in apps if a.get("name") == app_name or
a.get("implementation") == app_name), None)` — one pass over the listing,
accepting either identity attribute. -/
def findEitherMatch (apps : List PApp) (nm : Line) : Option PApp :=
  apps.find? (fun a => a.name == nm || a.implementation == nm)

/-- Name-only scan used by `add_app`'s duplicate-name recovery
(config_stack.py:1078). -/
def findByName (apps : List PApp) (nm : Line) : Option PApp :=
  apps.find? (fun a => a.name == nm)

/-- The two-pass scan of `set_app_synclevel_and_sync`
(config_stack.py:1095-1098): exact `implementation` match first, `name`
match only if none. -/
def setAppFind (apps : List PApp) (nm : Line) : Option PApp :=
  match apps.find? (fun a => a.implementation == nm) with
  | some a => some a
  | none => apps.find? (fun a => a.name == nm)

/-- `_canon(s)`: keep alphanumerics, lowercase
(`"".join(ch.lower() for ch in (s or "") if ch.isalnum())`). -/
def canon (l : Line) : Line := (l.filter Char.isAlphanum).map Char.toLower

/-- `_norm(s)`: `re.sub(r'\W+', '', (s or '').lower())` — lowercase, then
drop every character outside `[a-zA-Z0-9_]`. -/
def norml (l : Line) : Line :=
  (lower l).filter (fun c => c.isAlphanum || c = '_')

/-- An indexer schema definition, as far as matching is concerned. -/
structure IdxDef where
  name : Line
  implementationName : Line
deriving DecidableEq

/-- Definition matching in `create_indexer_with_optional_proxy`
(config_stack.py:1319-1327): first pass, canonical equality on `name` or
`implementationName`; fallback, the first definition whose canonical name
contains the wanted string. -/
def findIndexerDef (defs : List IdxDef) (nm : Line) : Option IdxDef :=
  let wanted := canon nm
  match defs.find? (fun d =>
      canon d.name == wanted || canon d.implementationName == wanted) with
  | some d => some d
  | none =>
    match defs.filter (fun d =>
        containsSub wanted (canon d.name) ||
        containsSub wanted (canon d.implementationName)) with
    | [] => none
    | c :: _ => some c

/-- The world `add_app` interacts with: the first listing (`none` = the GET
raised), the final outcome of the creation POST (after its own retries), and
the re-listing performed on a duplicate-name rejection (`none` = it raised). -/
structure AddAppWorld where
  listed : Option (List PApp)
  postRes : ReqAttempt
  relisted : Option (List PApp)

/-- How `add_app` finishes. -/
inductive AddAppResult where
  | updated (id : Nat)
  | created (jsonId : Option Nat)
  | recovered (id : Nat)
  | failed
deriving DecidableEq

/-- `add_app(app_name, ...)`: list (exception → `apps = []`), match either
attribute; matched → update path returning the matched id regardless of the
PUT outcome; unmatched → POST; `200/201` → created; `400` with
"Should be unique" in the body → re-list and return the id of the name
match (`None` when the re-list raises or misses); anything else → `None`. -/
def addApp (w : AddAppWorld) (appName : Line) : AddAppResult :=
  let apps := w.listed.getD []
  match findEitherMatch apps appName with
  | some a => .updated a.id
  | none =>
    match w.postRes with
    | .resp s body jid =>
      if s = 200 || s = 201 then .created jid
      else if s = 400 && containsSub (lineOf "Should be unique") body then
        match w.relisted with
        | none => .failed
        | some apps2 =>
          match findByName apps2 appName with
          | some a => .recovered a.id
          | none => .failed
      else .failed
    | _ => .failed

/-- How `create_indexer_with_optional_proxy` finishes (it returns `None`;
these are the distinct control paths). -/
inductive IdxOutcome where
  | noDefinition
  | updatedExisting (id : Nat)
  | createdNew (jsonId : Option Nat)
  | handled
  | failed
deriving DecidableEq

/-- `create_indexer_with_optional_proxy`, with listings and POST outcomes
supplied by oracles (`li`/`pi` count the listing/POST calls made so far;
`fuel` bounds the source's self-recursion in the duplicate-name branch).
Matched current indexer → update path (PUT on its id).  Unmatched → POST;
`400` + "Should be unique" → re-list, and when the re-list finds the entity
the source recurses on itself, whose own fresh listing leads it into the
matched/update branch; a re-list exception or miss is swallowed
(`except: pass` / no-op). -/
def createIndexerAux (lists : Nat → Option (List PApp))
    (posts : Nat → ReqAttempt) (defs : List IdxDef) :
    Nat → Line → Nat → Nat → IdxOutcome
  | 0, _, _, _ => .failed
  | fuel + 1, nm, li, pi =>
    match findIndexerDef defs nm with
    | none => .noDefinition
    | some m =>
      let intended :=
        if m.name ≠ [] then m.name
        else if m.implementationName ≠ [] then m.implementationName
        else nm
      let existing := (lists li).getD []
      match existing.find? (fun i => norml i.name == norml intended) with
      | some cur => .updatedExisting cur.id
      | none =>
        match posts pi with
        | .resp s body _ =>
          if s = 200 || s = 201 then
            .createdNew (match posts pi with
                         | .resp _ _ j => j
                         | _ => none)
          else if s = 400 && containsSub (lineOf "Should be unique") body then
            match lists (li + 1) with
            | none => .handled
            | some ex =>
              match ex.find? (fun i => norml i.name == norml intended) with
              | some _ =>
                createIndexerAux lists posts defs fuel intended (li + 2) (pi + 1)
              | none => .handled
          else .failed
        | _ => .failed

/-- Entry point of the indexer reconciliation model. -/
def createIndexer (lists : Nat → Option (List PApp))
    (posts : Nat → ReqAttempt) (defs : List IdxDef) (nm : Line)
    (fuel : Nat) : IdxOutcome :=
  createIndexerAux lists posts defs fuel nm 0 0

/-! ## Text block patcher (claims C4, C5, C6, C7)

The SAB config helpers all work on `text.splitlines()`; we embed them on the
line list directly.  The `changed` flag they compute is exactly the
write/backup decision: `if not changed: return False` precedes every
backup+write, so "second run returns `false`" is "no backup, no write". -/

/-- `pre.isPrefixOf l` written as a Boolean helper. -/
def lineStartsWith (p l : Line) : Bool := p.isPrefixOf l

/-- Suffix test via reversed prefix test. -/
def lineEndsWith (p l : Line) : Bool := p.reverse.isPrefixOf l.reverse

/-- The top-level-section test used by every `[misc]`/`[servers]`/
`[categories]` bounds scan: `s.startswith("[") and s.endswith("]") and not
s.startswith("[[")` on the stripped line. -/
def isTopHeader (l : Line) : Bool :=
  let s := strip l
  lineStartsWith (lineOf "[") s && lineEndsWith (lineOf "]") s &&
    !lineStartsWith (lineOf "[[") s

/-- First index in `[s, e)` whose line satisfies `p` (the common
`for j in range(s, e)` scan). -/
def findIdxInRange (p : Line → Bool) (lines : List Line) (s e : Nat) :
    Option Nat :=
  match ((lines.drop s).take (e - s)).findIdx? p with
  | some k => some (s + k)
  | none => none

/-- First index whose stripped, lowered line equals the given header
(`line.strip().lower() == "[misc]"` etc.). -/
def findSectionStart (header : Line) (lines : List Line) : Option Nat :=
  lines.findIdx? (fun l => lower (strip l) == header)

/-- First top-level section header at or after `start`. -/
def findNextSection (lines : List Line) (start : Nat) : Option Nat :=
  findIdxInRange isTopHeader lines start lines.length

/-- Python `lines.insert(n, x)` (for `n` within range, the only use here). -/
def insertAt (lines : List Line) (n : Nat) (x : Line) : List Line :=
  lines.take n ++ [x] ++ lines.drop n

/-- The `f"{key} = {value}"` rendering shared by all kv writers. -/
def mkKvLine (key value : Line) : Line := key ++ lineOf " = " ++ value

/-- `_sab_set_misc_kv(lines, key, value)` (config_stack.py:510-540):
no `[misc]` → append `["", "[misc]", "key = value"]`; else look for the
first `^\s*key\s*=` line inside the section: present with equal value →
untouched, present with different value → rewrite that line, absent →
insert right after the `[misc]` header. -/
def sabSetMiscKv (lines : List Line) (key value : Line) : List Line × Bool :=
  match findSectionStart (lineOf "[misc]") lines with
  | none => (lines ++ [[], lineOf "[misc]", mkKvLine key value], true)
  | some i =>
    let e := (findNextSection lines (i + 1)).getD lines.length
    match findIdxInRange (kvMatch key) lines (i + 1) e with
    | some idx =>
      if valueAfterEq (lines.getD idx []) = value then (lines, false)
      else (lines.set idx (mkKvLine key value), true)
    | none => (insertAt lines (i + 1) (mkKvLine key value), true)

/-- The mutable closure state of `ensure_sab_folders` (`nonlocal changed,
lines, misc_start, next_section`): note `next_section` is computed once and
not refreshed after inserts — the embedding keeps that staleness. -/
structure FoldersState where
  lines : List Line
  changed : Bool
  miscStart : Option Nat
  nextSection : Option Nat
deriving DecidableEq

/-- `ensure_sab_folders.set_kv(name, value)` (config_stack.py:693-713). -/
def foldersSetKv (st : FoldersState) (key value : Line) : FoldersState :=
  match st.miscStart with
  | none =>
    let ls := st.lines ++ [[], lineOf "[misc]", mkKvLine key value]
    { lines := ls, changed := true, miscStart := some (ls.length - 2),
      nextSection := st.nextSection }
  | some m =>
    let e := st.nextSection.getD st.lines.length
    match findIdxInRange (kvMatch key) st.lines (m + 1) e with
    | some idx =>
      if valueAfterEq (st.lines.getD idx []) = value then st
      else { st with lines := st.lines.set idx (mkKvLine key value),
                     changed := true }
    | none =>
      { st with lines := insertAt st.lines (m + 1) (mkKvLine key value),
                changed := true }

/-- `ensure_sab_folders(path, temp_dir, complete_dir)`
(config_stack.py:666-736), on the line list: set `download_dir`,
`complete_dir` and clear `dir_base` in `[misc]`. -/
def ensureSabFolders (lines : List Line) (tempDir completeDir : Line) :
    List Line × Bool :=
  let m := findSectionStart (lineOf "[misc]") lines
  let ns := match m with
            | some i => findNextSection lines (i + 1)
            | none => none
  let st0 : FoldersState := ⟨lines, false, m, ns⟩
  let st1 := foldersSetKv st0 (lineOf "download_dir") tempDir
  let st2 := foldersSetKv st1 (lineOf "complete_dir") completeDir
  let st3 := foldersSetKv st2 (lineOf "dir_base") []
  (st3.lines, st3.changed)

/-- Python `f"{n}"` for the int-typed server settings. -/
def intLine (n : Int) : Line := (toString n).data

/-- `ensure_sab_server.block_for(nm)` (config_stack.py:597-614): the fixed
14-line rendering of a `[[name]]` server block. -/
def serverBlockFor (name host : Line) (port ssl : Int)
    (username password : Line) (connections priority : Int) : List Line :=
  let nm := strip name
  [ lineOf "  [[" ++ nm ++ lineOf "]]",
    lineOf "    host = " ++ host,
    lineOf "    port = " ++ intLine port,
    lineOf "    username = " ++ username,
    lineOf "    password = " ++ password,
    lineOf "    connections = " ++ intLine connections,
    lineOf "    ssl = " ++ intLine ssl,
    lineOf "    enable = 1",
    lineOf "    priority = " ++ intLine priority,
    lineOf "    retention = 0",
    lineOf "    optional = 0",
    lineOf "    send_group = 0",
    lineOf "    fetch_by_msgid = 0",
    lineOf "    server_usenet_only = 1" ]

/-- The open regex `^\s*\[\[\s*NAME\s*\]\]\s*$` (re.I) of
`ensure_sab_server.find_block_indices`.  Faithful for names without leading
or trailing whitespace (idempotence below assumes exactly that). -/
def isBlockHeaderFor (nm l : Line) : Bool :=
  let s := strip l
  lineStartsWith (lineOf "[[") s && lineEndsWith (lineOf "]]") s &&
    lower (strip ((s.drop 2).take (s.length - 4))) == lower nm

/-- The block-terminator test `s.startswith("[[") and s.endswith("]]")`. -/
def isAnyBlockHeader (l : Line) : Bool :=
  let s := strip l
  lineStartsWith (lineOf "[[") s && lineEndsWith (lineOf "]]") s

/-- `ensure_sab_server.find_block_indices(start, end, nm)`
(config_stack.py:617-629): header index of the named sub-block in
`(start, end)`, and the index one past its span (next `[[...]]` header or
`end`). -/
def findBlockIndices (lines : List Line) (start e : Nat) (nm : Line) :
    Option (Nat × Nat) :=
  match findIdxInRange (isBlockHeaderFor nm) lines (start + 1) e with
  | none => none
  | some j =>
    match findIdxInRange isAnyBlockHeader lines (j + 1) e with
    | none => some (j, e)
    | some k => some (j, k)

/-- `ensure_sab_server(path, name, host, port, ssl, username, password,
connections, priority)` (config_stack.py:565-664) on the line list.
Empty host → immediate `False`.  No `[servers]` → append the section and
block at the end.  Block found → replace its whole span iff it differs from
the fresh rendering; block absent → splice the rendering in at the end of
the section. -/
def ensureSabServer (lines : List Line) (name host : Line) (port ssl : Int)
    (username password : Line) (connections priority : Int) :
    List Line × Bool :=
  if host = [] then (lines, false)
  else
    let newBlock := serverBlockFor name host port ssl username password
      connections priority
    match findSectionStart (lineOf "[servers]") lines with
    | none => (lines ++ [[], lineOf "[servers]"] ++ newBlock, true)
    | some i =>
      let e := (findNextSection lines (i + 1)).getD lines.length
      match findBlockIndices lines i e name with
      | none => (lines.take e ++ newBlock ++ lines.drop e, true)
      | some (s, eIdx) =>
        let cur := (lines.drop s).take (eIdx - s)
        if cur = newBlock then (lines, false)
        else (lines.take s ++ newBlock ++ lines.drop eIdx, true)

/-- The sub-block-name extraction of `ensure_sab_categories`
(config_stack.py:771-773): regex `\s*\[\[\s*([^\]]+?)\s*\]\]\s*$` anchored
at the start, returning `group(1).strip().lower()`. -/
def subBlockName? (l : Line) : Option Line :=
  let s := strip l
  if lineStartsWith (lineOf "[[") s && lineEndsWith (lineOf "]]") s then
    let mid := (s.drop 2).take (s.length - 4)
    if mid ≠ [] && !mid.contains ']' then some (lower (strip mid)) else none
  else none

/-- `ensure_sab_categories.cat_block(name)` (config_stack.py:775-784). -/
def catBlock (name : Line) : List Line :=
  [ lineOf "  [[" ++ name ++ lineOf "]]",
    lineOf "    priority = -100",
    lineOf "    pp = 3",
    lineOf "    script = ",
    lineOf "    dir = " ++ name,
    lineOf "    newzbin = " ]

/-- The sub-block names present between indices `s` and `e`. -/
def existingCatNames (lines : List Line) (s e : Nat) : List Line :=
  ((lines.drop s).take (e - s)).filterMap subBlockName?

/-- `ensure_sab_categories(path, categories)` (config_stack.py:738-818) on
the line list: create the `[categories]` section with all blocks, or append
blocks for the categories whose lowered name is not yet present. -/
def ensureSabCategories (lines : List Line) (categories : List Line) :
    List Line × Bool :=
  match findSectionStart (lineOf "[categories]") lines with
  | none =>
    (lines ++ [[], lineOf "[categories]"] ++ (categories.map catBlock).flatten,
     true)
  | some i =>
    let e := (findNextSection lines (i + 1)).getD lines.length
    let existing := existingCatNames lines (i + 1) e
    let missing := categories.filter (fun c => !existing.contains (lower c))
    if missing = [] then (lines, false)
    else (lines.take e ++ (missing.map catBlock).flatten ++ lines.drop e, true)

/-- The locate loop of `ensure_sab_whitelist` (config_stack.py:838-848):
walks the lines once; a `[misc]` header (re)starts the section, the next
bracketed line while inside it stops the scan, and `wl` remembers the last
`host_whitelist` line seen inside. -/
def wlScanAux : List Line → Nat → Bool → Option Nat → Option Nat →
    Option Nat × Option Nat
  | [], _, _, ms, wl => (ms, wl)
  | l :: rest, i, inMisc, ms, wl =>
    let s := strip l
    if lower s == lineOf "[misc]" then
      wlScanAux rest (i + 1) true (some i) wl
    else if inMisc &&
        (lineStartsWith (lineOf "[") s && lineEndsWith (lineOf "]") s) then
      (ms, wl)
    else if inMisc && kvMatch (lineOf "host_whitelist") l then
      wlScanAux rest (i + 1) inMisc ms (some i)
    else
      wlScanAux rest (i + 1) inMisc ms wl

/-- Locate `[misc]` and the (last) `host_whitelist` line inside it. -/
def wlScan (lines : List Line) : Option Nat × Option Nat :=
  wlScanAux lines 0 false none none

/-- `list(dict.fromkeys(l))`: order-preserving de-duplication. -/
def dedupAux : List Line → List Line → List Line
  | [], _ => []
  | x :: xs, seen =>
    if seen.contains x then dedupAux xs seen
    else x :: dedupAux xs (x :: seen)

/-- Order-preserving de-duplication (`dict.fromkeys`). -/
def pyDedup (l : List Line) : List Line := dedupAux l []

/-- A separator of `re.split(r"[, \t]+", v)`. -/
def isHostSep (c : Char) : Bool := c = ',' || c = ' ' || c = '\t'

/-- Split on every separator character (empties appear between adjacent
separators and at the edges, like `re.split` with a character class). -/
def splitHostsAux : Line → Line → List Line
  | [], acc => [acc.reverse]
  | c :: cs, acc =>
    if isHostSep c then acc.reverse :: splitHostsAux cs []
    else splitHostsAux cs (c :: acc)

/-- `[h for h in re.split(r"[, \t]+", v) if h]`. -/
def splitHosts (v : Line) : List Line :=
  (splitHostsAux v []).filter (fun h => h ≠ [])

/-- `join_hosts(hosts)`: `",".join(dict.fromkeys([h for h in hosts if h]))`. -/
def joinHosts (hosts : List Line) : Line :=
  List.intercalate (lineOf ",") (pyDedup (hosts.filter (fun h => h ≠ [])))

/-- `ensure_sab_whitelist(path, wanted_hosts)` (config_stack.py:820-900) on
the line list.  `defaultWl` is the module global `SAB_WHITELIST`: the
no-`[misc]` branch writes `join_hosts(SAB_WHITELIST)` — not the wanted
hosts (config_stack.py:859).  With a whitelist line present the new value
is `dict.fromkeys(current + wanted)` and a write happens iff that list
differs from the parsed current one. -/
def ensureSabWhitelist (lines : List Line) (wantedHosts defaultWl : List Line) :
    List Line × Bool :=
  match wlScan lines with
  | (none, _) =>
    (lines ++ [[], lineOf "[misc]",
               lineOf "host_whitelist = " ++ joinHosts defaultWl], true)
  | (some m, wlIdx) =>
    match wlIdx with
    | some idx =>
      let currentVal := valueAfterEq (lines.getD idx [])
      let currentHosts := splitHosts currentVal
      let merged := pyDedup (currentHosts ++ wantedHosts)
      if merged ≠ currentHosts then
        (lines.set idx (lineOf "host_whitelist = " ++ joinHosts merged), true)
      else (lines, false)
    | none =>
      (insertAt lines (m + 1)
        (lineOf "host_whitelist = " ++ joinHosts wantedHosts), true)

/-- Analysis helper (not part of the embedding): the whitelist locate loop
with its intermediate state exposed, to reason about scans of documents
that share a prefix. -/
inductive WlScanRes where
  | stopped (ms wl : Option Nat)
  | running (i : Nat) (inMisc : Bool) (ms wl : Option Nat)
deriving DecidableEq

/-- Analysis helper: `wlScanAux` steps, returning the live state when the
input is exhausted without a stop. -/
def wlScanAuxP : List Line → Nat → Bool → Option Nat → Option Nat →
    WlScanRes
  | [], i, inMisc, ms, wl => .running i inMisc ms wl
  | l :: rest, i, inMisc, ms, wl =>
    let s := strip l
    if lower s == lineOf "[misc]" then
      wlScanAuxP rest (i + 1) true (some i) wl
    else if inMisc &&
        (lineStartsWith (lineOf "[") s && lineEndsWith (lineOf "]") s) then
      .stopped ms wl
    else if inMisc && kvMatch (lineOf "host_whitelist") l then
      wlScanAuxP rest (i + 1) inMisc ms (some i)
    else
      wlScanAuxP rest (i + 1) inMisc ms wl

/-- Analysis helper (not part of the embedding): the canonical shape of a
document whose `[misc]` section starts at `m` and runs up to `e` (the first
top-level header after it, or the end of the document).  This is exactly
what `findSectionStart` and `findNextSection` compute. -/
def MiscShape (lines : List Line) (m e : Nat) : Prop :=
  m < lines.length ∧
  (lower (strip (lines.getD m [])) == lineOf "[misc]") = true ∧
  (∀ j, j < m → (lower (strip (lines.getD j [])) == lineOf "[misc]") = false) ∧
  m < e ∧ e ≤ lines.length ∧
  (∀ j, m + 1 ≤ j → j < e → isTopHeader (lines.getD j []) = false) ∧
  (e = lines.length ∨ (e < lines.length ∧ isTopHeader (lines.getD e []) = true))

/-- Analysis helper (not part of the embedding): the first line in the
section body `(m, e)` that matches `key` carries exactly the value `v`.
This is what makes a second `set_kv` run take the no-change branch. -/
def KeyAt (lines : List Line) (m e : Nat) (key v : Line) : Prop :=
  ∃ idx, m + 1 ≤ idx ∧ idx < e ∧ idx < lines.length ∧
    kvMatch key (lines.getD idx []) = true ∧
    valueAfterEq (lines.getD idx []) = v ∧
    ∀ j, m + 1 ≤ j → j < idx → kvMatch key (lines.getD j []) = false

/-! ## Theorems -/

/-! ### C10: the VPN watchdog guard -/

/-- C10: for every value of the environment variable `VPN_WATCHDOG_ENABLED`
(including "true"), `vpn_watch.main` quits immediately without checking
health or publishing an MQTT message: the guard compares the lowercased
string against the boolean `True`, and a Python `str` is never `==` a
`bool`, so the `quit()` branch is always taken. -/
theorem c10_watchdog_always_quits (envVal : Line) :
    vpnWatchGuardQuits envVal = true ∧ vpnWatchMainActions envVal = [] := by
  refine ⟨rfl, ?_⟩
  simp [vpnWatchMainActions, vpnWatchGuardQuits, pyEq]

/-! ### C1: tag handling in the matched-indexer update branch -/

/-- C1 as stated is false on the code: with remote tags `[1, 2]` and a
resolved desired tag `3`, the update branch of
`create_indexer_with_optional_proxy` sets `obj["tags"] = [tag_id]`,
producing `[3]` — the remote tags 1 and 2 are erased, not unioned into
`[1, 2, 3]`. -/
theorem c1_tags_counterexample :
    updateTags [1, 2] (some 3) = [3] ∧
    updateTags [1, 2] (some 3) ≠ [1, 2, 3] ∧
    1 ∉ updateTags [1, 2] (some 3) := by decide

/-- Helper: `byNameIdx` only produces indices inside the list. -/
theorem byNameIdx_aux_lt (fs : List PField) (n : Line) (r : List Nat)
    (acc : Option Nat) (h : ∀ j, acc = some j → j < fs.length) :
    ∀ i, (r.foldl (fun a k =>
        match fs.get? k with
        | some f => if f.name ≠ [] && f.name == n then some k else a
        | none => a) acc) = some i → i < fs.length := by
  induction r generalizing acc with
  | nil => exact h
  | cons x xs ih =>
    intro i hi
    rw [List.foldl_cons] at hi
    refine ih _ ?_ i hi
    intro j hj
    simp only at hj
    rcases hget : fs.get? x with _ | f <;> simp only [hget] at hj
    · exact h j hj
    · split at hj
      · cases hj
        rcases List.get?_eq_some.mp hget with ⟨hlt, _⟩
        exact hlt
      · exact h j hj

/-- Helper: an index delivered by `byNameIdx` is in range. -/
theorem byNameIdx_lt (fs : List PField) (n : Line) (i : Nat)
    (h : byNameIdx fs n = some i) : i < fs.length := by
  exact byNameIdx_aux_lt fs n (List.range fs.length) none (by intro j hj; cases hj) i h

/-- Helper: `modifyAt` inside the left part of an append. -/
theorem modifyAt_append_left (l1 l2 : List PField) (i : Nat)
    (f : PField → PField) (h : i < l1.length) :
    modifyAt (l1 ++ l2) i f = modifyAt l1 i f ++ l2 := by
  induction l1 generalizing i with
  | nil => cases h
  | cons x xs ih =>
    cases i with
    | zero => rfl
    | succ k =>
      have : k < xs.length := Nat.lt_of_succ_lt_succ h
      simp [modifyAt, ih k this]

/-- Helper: a name-preserving `modifyAt` preserves the name list. -/
theorem modifyAt_map_name (l : List PField) (i : Nat) (f : PField → PField)
    (hf : ∀ x, (f x).name = x.name) :
    (modifyAt l i f).map PField.name = l.map PField.name := by
  induction l generalizing i with
  | nil => rfl
  | cons x xs ih =>
    cases i with
    | zero => simp [modifyAt, hf x]
    | succ k => simp [modifyAt, ih k]

/-- C1, amended to what the code does: in the matched-indexer branch the
tag list is *replaced* by exactly the resolved tag when one exists, and
kept only when no tag id was resolved; the `fields` list, by contrast,
really is merged by name — the result is the existing field list (same
names, in place, desired values overwriting) plus appended entries drawn
from the desired fields. -/
theorem c1_tags_replaced_fields_merged :
    (∀ (tags : List Nat) (t : Nat), updateTags tags (some t) = [t]) ∧
    (∀ tags : List Nat, updateTags tags none = tags) ∧
    (∀ existing newFields : List PField,
      ∃ upd app : List PField,
        mergeFields existing newFields = upd ++ app ∧
        upd.map PField.name = existing.map PField.name ∧
        ∀ f ∈ app, ∃ nf ∈ newFields, f = ⟨nf.name, nf.value⟩) := by
  refine ⟨fun _ _ => rfl, fun _ => rfl, fun existing newFields => ?_⟩
  unfold mergeFields
  suffices h : ∀ (out upd app : List PField), out = upd ++ app →
      upd.map PField.name = existing.map PField.name →
      (∀ f ∈ app, ∃ nf ∈ newFields, f = ⟨nf.name, nf.value⟩) →
      ∀ sub : List PField, (∀ nf ∈ sub, nf ∈ newFields) →
      ∃ upd2 app2,
        sub.foldl (fun out nf =>
          if nf.name = [] then out
          else
            match byNameIdx existing nf.name with
            | some i => modifyAt out i (fun f => { f with value := nf.value })
            | none => out ++ [⟨nf.name, nf.value⟩]) out = upd2 ++ app2 ∧
        upd2.map PField.name = existing.map PField.name ∧
        ∀ f ∈ app2, ∃ nf ∈ newFields, f = ⟨nf.name, nf.value⟩ by
    exact h existing existing [] (by simp) rfl (by simp) newFields
      (fun _ hm => hm)
  intro out upd app hout hupd happ sub
  induction sub generalizing out upd app with
  | nil => exact fun _ => ⟨upd, app, by simpa using hout, hupd, happ⟩
  | cons nf rest ih =>
    intro hsub
    have hnf : nf ∈ newFields := hsub nf (by simp)
    have hrest : ∀ x ∈ rest, x ∈ newFields := fun x hx => hsub x (by simp [hx])
    by_cases hname : nf.name = []
    · simp only [List.foldl_cons, if_pos hname]
      exact ih out upd app hout hupd happ hrest
    · simp only [List.foldl_cons, if_neg hname]
      rcases hidx : byNameIdx existing nf.name with _ | i
      · exact ih (out ++ [⟨nf.name, nf.value⟩]) upd (app ++ [⟨nf.name, nf.value⟩])
          (by simp [hout]) hupd
          (by
            intro f hf
            rcases List.mem_append.mp hf with hf | hf
            · exact happ f hf
            · simp at hf
              exact ⟨nf, hnf, hf⟩)
          hrest
      · have hilt : i < existing.length := byNameIdx_lt existing nf.name i hidx
        have hiupd : i < upd.length := by
          have := congrArg List.length hupd
          simp at this
          omega
        refine ih (modifyAt out i (fun f => { f with value := nf.value }))
          (modifyAt upd i (fun f => { f with value := nf.value })) app ?_ ?_ happ hrest
        · rw [hout, modifyAt_append_left _ _ _ _ hiupd]
        · rw [modifyAt_map_name upd i
            (fun f => { f with value := nf.value }) (fun _ => rfl)]
          exact hupd

/-! ### C3: retry policy of the transport wrappers -/

/-- Helper: a transient attempt is not a response. -/
theorem isTransient_ne_resp (e : ReqAttempt) (h : isTransient e = true) :
    ∀ s b j, e ≠ .resp s b j := by
  cases e <;> simp_all [isTransient]

/-- Helper: any received response ends the loop at once, with one fixed
delay slept per failed attempt before it. -/
theorem retryLoopAux_resp (attempt : Nat → ReqAttempt) (tries delay : Nat)
    (s : Nat) (b : Line) (jid : Option Nat) :
    ∀ remaining i sleeps k, i + remaining = tries → k < remaining →
    (∀ j, j < k → isTransient (attempt (i + j)) = true) →
    attempt (i + k) = .resp s b jid →
    retryLoopAux attempt tries delay remaining i sleeps =
      some (.returned s b jid, sleeps ++ List.replicate k delay) := by
  intro remaining
  induction remaining with
  | zero => intro i sleeps k _ hk; omega
  | succ r ih =>
    intro i sleeps k hinv hk hpre hresp
    cases k with
    | zero =>
      simp only [Nat.add_zero] at hresp
      simp [retryLoopAux, hresp]
    | succ k' =>
      have htr : isTransient (attempt i) = true := by
        have := hpre 0 (Nat.succ_pos k')
        simpa using this
      have hne : i ≠ tries - 1 := by
        have hk' : k' < r := Nat.lt_of_succ_lt_succ hk
        omega
      have hstep :
          retryLoopAux attempt tries delay (r + 1) i sleeps =
            retryLoopAux attempt tries delay r (i + 1) (sleeps ++ [delay]) := by
        rcases e : attempt i with s' | _ | _ | _
        · rw [e] at htr; simp [isTransient] at htr
        · simp [retryLoopAux, e, isTransient, hne]
        · simp [retryLoopAux, e, isTransient, hne]
        · rw [e] at htr; simp [isTransient] at htr
      rw [hstep]
      have := ih (i + 1) (sleeps ++ [delay]) k' (by omega)
        (Nat.lt_of_succ_lt_succ hk)
        (fun j hj => by
          have := hpre (j + 1) (Nat.succ_lt_succ hj)
          simpa [Nat.add_assoc, Nat.add_comm 1 j] using this)
        (by
          have : i + 1 + k' = i + (k' + 1) := by omega
          rw [this]; exact hresp)
      rw [this]
      simp [List.append_assoc, List.replicate_succ]

/-- Helper: when every attempt fails transiently, the loop re-raises the
last attempt's exception after `tries - 1` fixed sleeps. -/
theorem retryLoopAux_exhaust (attempt : Nat → ReqAttempt) (tries delay : Nat) :
    ∀ remaining i sleeps, i + remaining = tries → 1 ≤ remaining →
    (∀ j, j < remaining → isTransient (attempt (i + j)) = true) →
    retryLoopAux attempt tries delay remaining i sleeps =
      some (.raised (attempt (tries - 1)),
            sleeps ++ List.replicate (remaining - 1) delay) := by
  intro remaining
  induction remaining with
  | zero => intro i sleeps _ h1; omega
  | succ r ih =>
    intro i sleeps hinv _ hall
    have htr : isTransient (attempt i) = true := by
      have := hall 0 (Nat.succ_pos r)
      simpa using this
    rcases hr : r with _ | r'
    · subst hr
      have hieq : i = tries - 1 := by omega
      subst hieq
      rcases e : attempt (tries - 1) with s' | _ | _ | _
      · rw [e] at htr; simp [isTransient] at htr
      · simp [retryLoopAux, e, isTransient]
      · simp [retryLoopAux, e, isTransient]
      · rw [e] at htr; simp [isTransient] at htr
    · subst hr
      have hne : i ≠ tries - 1 := by omega
      have hstep :
          retryLoopAux attempt tries delay (r' + 1 + 1) i sleeps =
            retryLoopAux attempt tries delay (r' + 1) (i + 1)
              (sleeps ++ [delay]) := by
        rcases e : attempt i with s' | _ | _ | _
        · rw [e] at htr; simp [isTransient] at htr
        · simp [retryLoopAux, e, isTransient, hne]
        · simp [retryLoopAux, e, isTransient, hne]
        · rw [e] at htr; simp [isTransient] at htr
      rw [hstep]
      have hih := ih (i + 1) (sleeps ++ [delay]) (by omega) (by omega)
        (fun j hj => by
          have := hall (j + 1) (by omega)
          simpa [Nat.add_assoc, Nat.add_comm 1 j] using this)
      rw [hih]
      simp [List.append_assoc, List.replicate_succ]

/-- Helper: a non-transient exception is re-raised at once. -/
theorem retryLoopAux_other (attempt : Nat → ReqAttempt) (tries delay : Nat) :
    ∀ remaining i sleeps k, i + remaining = tries → k < remaining →
    (∀ j, j < k → isTransient (attempt (i + j)) = true) →
    attempt (i + k) = .otherExc →
    retryLoopAux attempt tries delay remaining i sleeps =
      some (.raised .otherExc, sleeps ++ List.replicate k delay) := by
  intro remaining
  induction remaining with
  | zero => intro i sleeps k _ hk; omega
  | succ r ih =>
    intro i sleeps k hinv hk hpre hother
    cases k with
    | zero =>
      simp only [Nat.add_zero] at hother
      simp [retryLoopAux, hother, isTransient]
    | succ k' =>
      have htr : isTransient (attempt i) = true := by
        have := hpre 0 (Nat.succ_pos k')
        simpa using this
      have hne : i ≠ tries - 1 := by
        have hk' : k' < r := Nat.lt_of_succ_lt_succ hk
        omega
      have hstep :
          retryLoopAux attempt tries delay (r + 1) i sleeps =
            retryLoopAux attempt tries delay r (i + 1) (sleeps ++ [delay]) := by
        rcases e : attempt i with s' | _ | _ | _
        · rw [e] at htr; simp [isTransient] at htr
        · simp [retryLoopAux, e, isTransient, hne]
        · simp [retryLoopAux, e, isTransient, hne]
        · rw [e] at htr; simp [isTransient] at htr
      rw [hstep]
      have := ih (i + 1) (sleeps ++ [delay]) k' (by omega)
        (Nat.lt_of_succ_lt_succ hk)
        (fun j hj => by
          have := hpre (j + 1) (Nat.succ_lt_succ hj)
          simpa [Nat.add_assoc, Nat.add_comm 1 j] using this)
        (by
          have : i + 1 + k' = i + (k' + 1) := by omega
          rw [this]; exact hother)
      rw [this]
      simp [List.append_assoc, List.replicate_succ]

/-- C3: the transport wrappers retry only on connection errors / read
timeouts, with one fixed `delay` slept between attempts; every received
response — 5xx included — is returned immediately with no further attempt;
after exhausting all attempts the last transport exception is re-raised;
and any other exception propagates at once. -/
theorem c3_transport_retry_policy (attempt : Nat → ReqAttempt)
    (tries delay k s : Nat) (b : Line) (jid : Option Nat) :
    (k < tries → (∀ j, j < k → isTransient (attempt j) = true) →
      attempt k = .resp s b jid →
      httpPutWithRetries attempt tries delay =
        some (.returned s b jid, List.replicate k delay) ∧
      postWithRetries attempt tries delay =
        some (.returned s b jid, List.replicate k delay)) ∧
    (1 ≤ tries → (∀ j, j < tries → isTransient (attempt j) = true) →
      httpPutWithRetries attempt tries delay =
        some (.raised (attempt (tries - 1)),
              List.replicate (tries - 1) delay) ∧
      postWithRetries attempt tries delay =
        some (.raised (attempt (tries - 1)),
              List.replicate (tries - 1) delay)) ∧
    (k < tries → (∀ j, j < k → isTransient (attempt j) = true) →
      attempt k = .otherExc →
      httpPutWithRetries attempt tries delay =
        some (.raised .otherExc, List.replicate k delay) ∧
      postWithRetries attempt tries delay =
        some (.raised .otherExc, List.replicate k delay)) := by
  refine ⟨fun hk hpre hresp => ?_, fun h1 hall => ?_, fun hk hpre hother => ?_⟩
  · have := retryLoopAux_resp attempt tries delay s b jid tries 0 [] k
      (by omega) hk (by simpa using hpre) (by simpa using hresp)
    exact ⟨by simpa [httpPutWithRetries] using this,
           by simpa [postWithRetries] using this⟩
  · have := retryLoopAux_exhaust attempt tries delay tries 0 []
      (by omega) h1 (by simpa using hall)
    exact ⟨by simpa [httpPutWithRetries] using this,
           by simpa [postWithRetries] using this⟩
  · have := retryLoopAux_other attempt tries delay tries 0 [] k
      (by omega) hk (by simpa using hpre) (by simpa using hother)
    exact ⟨by simpa [httpPutWithRetries] using this,
           by simpa [postWithRetries] using this⟩

/-- Witness for C3 at concrete oracles: two connection errors then a 503
response → the 503 is returned after exactly two 3s sleeps; four transient
failures with `tries = 4` → the last exception is re-raised after three 4s
sleeps. -/
theorem c3_transport_retry_policy_witness :
    httpPutWithRetries
        (fun i => if i < 2 then .connError else .resp 503 [] none) 5 3 =
      some (.returned 503 [] none, List.replicate 2 3) ∧
    postWithRetries (fun i => if i % 2 = 0 then .connError else .readTimeout)
        4 4 =
      some (.raised .readTimeout, List.replicate 3 4) := by
  constructor
  · exact (c3_transport_retry_policy
      (fun i => if i < 2 then .connError else .resp 503 [] none)
      5 3 2 503 [] none).1 (by decide) (by decide) (by decide) |>.1
  · have := (c3_transport_retry_policy
      (fun i => if i % 2 = 0 then .connError else .readTimeout)
      4 4 0 0 [] none).2.1 (by decide) (by decide) |>.2
    simpa using this

/-! ### C8: the HTTP readiness wait -/

/-- Helper: when no probe ever yields a sub-500 status, the loop returns
`false` with a final clock at or past the deadline — for every starting
clock and poll counter. -/
theorem waitForHttp_never_ready (probe : Nat → ProbeStep) (deadline : Nat)
    (hnever : ∀ i s d, probe i = .resp s d → 500 ≤ s) :
    ∀ n t i, deadline - t ≤ n →
      (waitForHttp probe deadline t i).1 = false ∧
      deadline ≤ (waitForHttp probe deadline t i).2 := by
  intro n
  induction n with
  | zero =>
    intro t i hn
    have ht : ¬ t < deadline := by omega
    rw [waitForHttp]
    simp [ht]
    omega
  | succ m ih =>
    intro t i hn
    by_cases ht : t < deadline
    · rw [waitForHttp]
      rcases e : probe i with ⟨s, d⟩ | ⟨d⟩
      · have h5 : ¬ s < 500 := by
          have := hnever i s d e
          omega
        simp only [ht, dif_pos, e, h5, if_neg, Bool.false_eq_true]
        exact ih (t + d + 3) (i + 1) (by omega)
      · simp only [ht, dif_pos, e]
        exact ih (t + d + 3) (i + 1) (by omega)
    · rw [waitForHttp]
      simp [ht]
      omega

/-- Helper: with probe durations bounded by the 5s request timeout, the
final clock overshoots the deadline by less than one request plus one poll
period. -/
theorem waitForHttp_overshoot (probe : Nat → ProbeStep) (deadline : Nat)
    (hdur : ∀ i, probeDur (probe i) ≤ 5) :
    ∀ n t i, deadline - t ≤ n → t ≤ deadline + 8 →
      (waitForHttp probe deadline t i).2 ≤ deadline + 8 := by
  intro n
  induction n with
  | zero =>
    intro t i hn ht
    have ht' : ¬ t < deadline := by omega
    rw [waitForHttp]
    simp [ht']
    omega
  | succ m ih =>
    intro t i hn ht
    by_cases htd : t < deadline
    · rw [waitForHttp]
      rcases e : probe i with ⟨s, d⟩ | ⟨d⟩
      · have hd : d ≤ 5 := by
          have := hdur i
          rw [e] at this
          simpa [probeDur] using this
        by_cases h5 : s < 500
        · simp only [htd, dif_pos, e, h5, if_pos]
          omega
        · simp only [htd, dif_pos, e, h5, if_neg, Bool.false_eq_true]
          exact ih (t + d + 3) (i + 1) (by omega) (by omega)
      · have hd : d ≤ 5 := by
          have := hdur i
          rw [e] at this
          simpa [probeDur] using this
        simp only [htd, dif_pos, e]
        exact ih (t + d + 3) (i + 1) (by omega) (by omega)
    · rw [waitForHttp]
      simp [htd]
      omega

/-- C8: `wait_for_http` polls with a `GET` on a fixed 3s period, returns
`true` as soon as a sub-500 response is observed, and against a target that
never yields a sub-500 response it returns `false` with a final clock at or
immediately after the deadline (within one 5s-bounded request plus one 3s
sleep) instead of looping forever. -/
theorem c8_wait_for_http (probe : Nat → ProbeStep) (deadline : Nat) :
    ((∀ i s d, probe i = .resp s d → 500 ≤ s) →
      (waitForHttp probe deadline 0 0).1 = false ∧
      deadline ≤ (waitForHttp probe deadline 0 0).2 ∧
      ((∀ i, probeDur (probe i) ≤ 5) →
        (waitForHttp probe deadline 0 0).2 ≤ deadline + 8)) ∧
    (∀ s d, probe 0 = .resp s d → s < 500 → 0 < deadline →
      waitForHttp probe deadline 0 0 = (true, d)) := by
  constructor
  · intro hnever
    refine ⟨(waitForHttp_never_ready probe deadline hnever deadline 0 0
        (by omega)).1,
      (waitForHttp_never_ready probe deadline hnever deadline 0 0
        (by omega)).2, ?_⟩
    intro hdur
    exact waitForHttp_overshoot probe deadline hdur deadline 0 0 (by omega)
      (by omega)
  · intro s d he h5 hd
    rw [waitForHttp]
    simp [hd, he, h5]

/-- Witness for C8: a target that always times out (5s per attempt) against
a 10s deadline is reported not-ready with a final clock in `[10, 18]`; a
target answering 200 in 2s on the first poll is reported ready at clock 2. -/
theorem c8_wait_for_http_witness :
    (waitForHttp (fun _ => .exc 5) 10 0 0).1 = false ∧
    10 ≤ (waitForHttp (fun _ => .exc 5) 10 0 0).2 ∧
    (waitForHttp (fun _ => .exc 5) 10 0 0).2 ≤ 18 ∧
    waitForHttp (fun _ => .resp 200 2) 10 0 0 = (true, 2) := by
  refine ⟨?_, ?_, ?_, ?_⟩
  · exact ((c8_wait_for_http (fun _ => .exc 5) 10).1
      (by intro i s d h; cases h)).1
  · exact ((c8_wait_for_http (fun _ => .exc 5) 10).1
      (by intro i s d h; cases h)).2.1
  · exact ((c8_wait_for_http (fun _ => .exc 5) 10).1
      (by intro i s d h; cases h)).2.2 (by intro i; simp [probeDur])
  · exact (c8_wait_for_http (fun _ => .resp 200 2) 10).2 200 2 rfl
      (by omega) (by omega)

/-! ### C2: duplicate-name conflict recovery -/

/-- C2: a create whose POST is rejected with `400` + "Should be unique"
re-lists the collection and treats the entity as now existing.  For
`add_app` (no prior match, duplicate rejection, re-list finds the name
match) the call returns the existing entity's id — a success, not an
error.  For `create_indexer_with_optional_proxy` (definition matched by
its own name, no prior match, duplicate rejection, both re-lists find the
entity) the call re-enters itself and lands in the matched/update branch,
issuing the update PUT against the existing id. -/
theorem c2_duplicate_name_recovery (w : AddAppWorld) (nm : Line)
    (apps apps2 : List PApp) (body : Line) (a : PApp)
    (lists : Nat → Option (List PApp)) (posts : Nat → ReqAttempt)
    (defs : List IdxDef) (m : IdxDef) (l0 l1 l2 : List PApp)
    (c2entity : PApp) (jid : Option Nat) (fuel : Nat) :
    (w.listed = some apps → findEitherMatch apps nm = none →
      w.postRes = .resp 400 body jid →
      containsSub (lineOf "Should be unique") body = true →
      w.relisted = some apps2 → findByName apps2 nm = some a →
      addApp w nm = .recovered a.id) ∧
    (findIndexerDef defs nm = some m → m.name = nm → nm ≠ [] →
      lists 0 = some l0 →
      l0.find? (fun i => norml i.name == norml nm) = none →
      posts 0 = .resp 400 body jid →
      containsSub (lineOf "Should be unique") body = true →
      lists 1 = some l1 →
      (∃ c1, l1.find? (fun i => norml i.name == norml nm) = some c1) →
      lists 2 = some l2 →
      l2.find? (fun i => norml i.name == norml nm) = some c2entity →
      createIndexer lists posts defs nm (fuel + 2) =
        .updatedExisting c2entity.id) := by
  constructor
  · intro hl hmatch hpost hbody hrl hfound
    unfold addApp
    rw [hl]
    simp only [Option.getD_some, hmatch, hpost, hrl, hfound]
    simp [hbody]
  · intro hdef hname hnm hl0 hmiss hpost hbody hl1 hc1 hl2 hc2
    rcases hc1 with ⟨c1, hc1⟩
    have hint : (if m.name ≠ [] then m.name
        else if m.implementationName ≠ [] then m.implementationName
        else nm) = nm := by
      rw [hname]
      simp [hnm]
    unfold createIndexer
    show createIndexerAux lists posts defs (fuel + 1 + 1) nm 0 0 =
      IdxOutcome.updatedExisting c2entity.id
    unfold createIndexerAux
    rw [hdef]
    simp only [hint, hl0, Option.getD_some, hmiss, hpost]
    have h400 : ¬ ((400 : Nat) = 200 ∨ (400 : Nat) = 201) := by omega
    simp only [show ((400 : Nat) == 200 || (400 : Nat) == 201) = false by decide,
      Bool.false_eq_true, if_neg, hbody,
      show ((400 : Nat) == 400) = true by decide, Bool.true_and, if_pos,
      hl1, hc1]
    unfold createIndexerAux
    rw [hdef]
    simp only [hint, hl2, Option.getD_some, hc2]
    simp

/-- Witness for C2: a concrete duplicate-name race.  `add_app` with an
empty first listing, a `400 Should be unique` POST rejection and a re-list
containing `Sonarr` (id 7) returns 7; the indexer path with the analogous
world ends in the update branch against the re-listed id 5. -/
theorem c2_duplicate_name_recovery_witness :
    addApp ⟨some [], .resp 400 (lineOf "xx Should be unique yy") none,
            some [⟨lineOf "Sonarr", lineOf "Sonarr", 7⟩]⟩ (lineOf "Sonarr") =
      .recovered 7 ∧
    createIndexer
        (fun n => if n = 0 then some [] else
          some [⟨lineOf "EZTV", lineOf "z", 5⟩])
        (fun _ => .resp 400 (lineOf "Should be unique") none)
        [⟨lineOf "EZTV", lineOf "EZTV"⟩] (lineOf "EZTV") 3 =
      .updatedExisting 5 := by
  constructor
  · exact (c2_duplicate_name_recovery
      ⟨some [], .resp 400 (lineOf "xx Should be unique yy") none,
       some [⟨lineOf "Sonarr", lineOf "Sonarr", 7⟩]⟩
      (lineOf "Sonarr") [] [⟨lineOf "Sonarr", lineOf "Sonarr", 7⟩]
      (lineOf "xx Should be unique yy") ⟨lineOf "Sonarr", lineOf "Sonarr", 7⟩
      (fun _ => none) (fun _ => .otherExc) [] ⟨[], []⟩ [] [] []
      ⟨[], [], 0⟩ none 0).1
      rfl (by decide) rfl (by decide) rfl (by decide)
  · exact (c2_duplicate_name_recovery
      ⟨none, .otherExc, none⟩ (lineOf "EZTV") [] [] (lineOf "Should be unique")
      ⟨[], [], 0⟩
      (fun n => if n = 0 then some [] else
        some [⟨lineOf "EZTV", lineOf "z", 5⟩])
      (fun _ => .resp 400 (lineOf "Should be unique") none)
      [⟨lineOf "EZTV", lineOf "EZTV"⟩] ⟨lineOf "EZTV", lineOf "EZTV"⟩
      [] [⟨lineOf "EZTV", lineOf "z", 5⟩] [⟨lineOf "EZTV", lineOf "z", 5⟩]
      ⟨lineOf "EZTV", lineOf "z", 5⟩ none 1).2
      (by decide) rfl (by decide) rfl rfl rfl (by decide) rfl
      ⟨⟨lineOf "EZTV", lineOf "z", 5⟩, by decide⟩ rfl (by decide)

/-! ### C9: identity-matching order -/

/-- Helper: `find?` returns the entry of minimal index satisfying the
predicate. -/
theorem find?_first {α : Type} (p : α → Bool) (l : List α) (a : α)
    (h : l.find? p = some a) :
    ∃ i, l.get? i = some a ∧ p a = true ∧
      ∀ j, j < i → ∀ b, l.get? j = some b → p b = false := by
  induction l with
  | nil => cases h
  | cons x xs ih =>
    rcases hpx : p x with _ | _
    · simp only [List.find?, hpx] at h
      rcases ih h with ⟨i, hget, hpa, hmin⟩
      refine ⟨i + 1, by simpa using hget, hpa, ?_⟩
      intro j hj b hb
      cases j with
      | zero =>
        simp at hb
        rw [← hb]
        exact hpx
      | succ j' =>
        exact hmin j' (by omega) b (by simpa using hb)
    · simp only [List.find?, hpx] at h
      cases h
      exact ⟨0, rfl, hpx, by omega⟩

/-- C9 fails on the code: in `add_app`'s single-pass scan an earlier
implementation-only match shadows a later exact name match (the listing
`[(name X, impl Sonarr, id 1), (name Sonarr, impl Y, id 2)]` yields id 1,
whose name is not "Sonarr" even though an exact name match exists); and
`set_app_synclevel_and_sync` prefers an implementation match over an
*earlier* exact name match — the reverse of name-first. -/
theorem c9_name_first_counterexample :
    (findEitherMatch
        [⟨lineOf "X", lineOf "Sonarr", 1⟩, ⟨lineOf "Sonarr", lineOf "Y", 2⟩]
        (lineOf "Sonarr")) =
      some ⟨lineOf "X", lineOf "Sonarr", 1⟩ ∧
    (⟨lineOf "X", lineOf "Sonarr", 1⟩ : PApp).name ≠ lineOf "Sonarr" ∧
    (∃ b ∈ [(⟨lineOf "X", lineOf "Sonarr", 1⟩ : PApp),
            ⟨lineOf "Sonarr", lineOf "Y", 2⟩], b.name = lineOf "Sonarr") ∧
    (setAppFind
        [⟨lineOf "Sonarr", lineOf "Y", 1⟩, ⟨lineOf "X", lineOf "Sonarr", 2⟩]
        (lineOf "Sonarr")) =
      some ⟨lineOf "X", lineOf "Sonarr", 2⟩ := by decide

/-- C9, amended to the code's actual matching order: `add_app` (and the
definition scan of `create_indexer_with_optional_proxy`) select the
*first entity in listing order* that matches either the name or the
implementation attribute, with no priority between the two; while
`set_app_synclevel_and_sync` gives priority to the implementation
attribute and falls back to the name only when no implementation match
exists anywhere in the listing. -/
theorem c9_matching_order_amended :
    (∀ (apps : List PApp) (nm : Line) (a : PApp),
      findEitherMatch apps nm = some a →
      ∃ i, apps.get? i = some a ∧
        (a.name = nm ∨ a.implementation = nm) ∧
        ∀ j, j < i → ∀ b, apps.get? j = some b →
          b.name ≠ nm ∧ b.implementation ≠ nm) ∧
    (∀ (apps : List PApp) (nm : Line) (a : PApp),
      setAppFind apps nm = some a →
      (∃ i, apps.get? i = some a ∧ a.implementation = nm ∧
        ∀ j, j < i → ∀ b, apps.get? j = some b → b.implementation ≠ nm) ∨
      ((∀ b ∈ apps, b.implementation ≠ nm) ∧
       ∃ i, apps.get? i = some a ∧ a.name = nm ∧
        ∀ j, j < i → ∀ b, apps.get? j = some b → b.name ≠ nm)) := by
  constructor
  · intro apps nm a h
    rcases find?_first _ apps a h with ⟨i, hget, hpa, hmin⟩
    refine ⟨i, hget, ?_, ?_⟩
    · simpa using hpa
    · intro j hj b hb
      have := hmin j hj b hb
      simpa using this
  · intro apps nm a h
    unfold setAppFind at h
    rcases himpl : apps.find? (fun a => a.implementation == nm) with _ | c
    · rw [himpl] at h
      right
      refine ⟨?_, ?_⟩
      · intro b hb
        have := List.find?_eq_none.mp himpl b hb
        simpa using this
      · rcases find?_first _ apps a h with ⟨i, hget, hpa, hmin⟩
        refine ⟨i, hget, by simpa using hpa, ?_⟩
        intro j hj b hb
        have := hmin j hj b hb
        simpa using this
    · rw [himpl] at h
      cases h
      left
      rcases find?_first _ apps a himpl with ⟨i, hget, hpa, hmin⟩
      refine ⟨i, hget, by simpa using hpa, ?_⟩
      intro j hj b hb
      have := hmin j hj b hb
      simpa using this

/-- Witness for C9 (amended): concrete applications of both matching
characterizations. -/
theorem c9_matching_order_amended_witness :
    (∃ i, ([(⟨lineOf "A", lineOf "Sonarr", 3⟩ : PApp)].get? i) =
        some ⟨lineOf "A", lineOf "Sonarr", 3⟩ ∧
      ((⟨lineOf "A", lineOf "Sonarr", 3⟩ : PApp).name = lineOf "Sonarr" ∨
       (⟨lineOf "A", lineOf "Sonarr", 3⟩ : PApp).implementation =
         lineOf "Sonarr") ∧
      ∀ j, j < i → ∀ b,
        ([(⟨lineOf "A", lineOf "Sonarr", 3⟩ : PApp)].get? j) = some b →
        b.name ≠ lineOf "Sonarr" ∧ b.implementation ≠ lineOf "Sonarr") ∧
    ((∃ i, ([(⟨lineOf "Sonarr", lineOf "Y", 1⟩ : PApp),
             ⟨lineOf "X", lineOf "Sonarr", 2⟩].get? i) =
        some ⟨lineOf "X", lineOf "Sonarr", 2⟩ ∧
      (⟨lineOf "X", lineOf "Sonarr", 2⟩ : PApp).implementation =
        lineOf "Sonarr" ∧
      ∀ j, j < i → ∀ b,
        ([(⟨lineOf "Sonarr", lineOf "Y", 1⟩ : PApp),
          ⟨lineOf "X", lineOf "Sonarr", 2⟩].get? j) = some b →
        b.implementation ≠ lineOf "Sonarr") ∨
     ((∀ b ∈ [(⟨lineOf "Sonarr", lineOf "Y", 1⟩ : PApp),
              ⟨lineOf "X", lineOf "Sonarr", 2⟩],
         b.implementation ≠ lineOf "Sonarr") ∧
      ∃ i, ([(⟨lineOf "Sonarr", lineOf "Y", 1⟩ : PApp),
             ⟨lineOf "X", lineOf "Sonarr", 2⟩].get? i) =
        some ⟨lineOf "X", lineOf "Sonarr", 2⟩ ∧
      (⟨lineOf "X", lineOf "Sonarr", 2⟩ : PApp).name = lineOf "Sonarr" ∧
      ∀ j, j < i → ∀ b,
        ([(⟨lineOf "Sonarr", lineOf "Y", 1⟩ : PApp),
          ⟨lineOf "X", lineOf "Sonarr", 2⟩].get? j) = some b →
        b.name ≠ lineOf "Sonarr")) := by
  constructor
  · exact c9_matching_order_amended.1 [⟨lineOf "A", lineOf "Sonarr", 3⟩]
      (lineOf "Sonarr") ⟨lineOf "A", lineOf "Sonarr", 3⟩ (by decide)
  · exact c9_matching_order_amended.2
      [⟨lineOf "Sonarr", lineOf "Y", 1⟩, ⟨lineOf "X", lineOf "Sonarr", 2⟩]
      (lineOf "Sonarr") ⟨lineOf "X", lineOf "Sonarr", 2⟩ (by decide)

/-! ### C7: whitelist merge semantics -/

/-- C7 fails on the code: an existing `host_whitelist = a,a` with *no*
wanted hosts at all is rewritten to `host_whitelist = a` and reported
changed — `dict.fromkeys` also de-duplicates the existing list, so a write
can occur although no genuinely new entry was appended, and the result
does not start with the existing entries in their original order. -/
theorem c7_whitelist_counterexample :
    ensureSabWhitelist [lineOf "[misc]", lineOf "host_whitelist = a,a"]
        [] [lineOf "sabnzbd"] =
      ([lineOf "[misc]", lineOf "host_whitelist = a"], true) := by decide

/-- Helper: `dedupAux` walks an already-duplicate-free block unchanged. -/
theorem dedupAux_append (xs ys seen : List Line) (h1 : xs.Nodup)
    (h2 : ∀ x ∈ xs, x ∉ seen) :
    dedupAux (xs ++ ys) seen = xs ++ dedupAux ys (xs.reverse ++ seen) := by
  induction xs generalizing seen with
  | nil => simp
  | cons x xs ih =>
    have hx : seen.contains x = false := by
      simpa using h2 x (by simp)
    have hrest : ∀ y ∈ xs, y ∉ x :: seen := by
      intro y hy
      simp only [List.mem_cons]
      rintro (rfl | hmem)
      · exact (List.nodup_cons.mp h1).1 hy
      · exact h2 y (by simp [hy]) hmem
    simp only [List.cons_append, dedupAux, hx, Bool.false_eq_true, if_false,
      List.append_eq]
    rw [ih (x :: seen) (List.Nodup.of_cons h1) hrest]
    simp

/-- Helper: entries produced by `dedupAux` come from its input and avoid
the seen set. -/
theorem mem_dedupAux (ys seen : List Line) (h : Line)
    (hh : h ∈ dedupAux ys seen) : h ∈ ys ∧ h ∉ seen := by
  induction ys generalizing seen with
  | nil => cases hh
  | cons y ys ih =>
    by_cases hy : seen.contains y = true
    · simp only [dedupAux, hy, if_pos] at hh
      rcases ih seen hh with ⟨h1, h2⟩
      exact ⟨by simp [h1], h2⟩
    · simp only [dedupAux, hy, if_neg] at hh
      rcases List.mem_cons.mp hh with rfl | hh'
      · refine ⟨by simp, ?_⟩
        intro hmem
        exact hy (by simpa using hmem)
      · rcases ih (y :: seen) hh' with ⟨h1, h2⟩
        exact ⟨by simp [h1], fun hmem => h2 (by simp [hmem])⟩

/-- C7, amended: with a duplicate-free existing host list, the merged value
really is the existing entries in order followed by only the genuinely new
wanted entries, and a write occurs exactly when at least one such entry
exists; de-duplication of an existing list that contains duplicates also
counts as a change (the counterexample), so the duplicate-free hypothesis
is necessary. -/
theorem c7_whitelist_merge_amended (lines : List Line)
    (wanted defWl : List Line) (m idx : Nat)
    (hscan : wlScan lines = (some m, some idx))
    (hnodup : (splitHosts (valueAfterEq (lines.getD idx []))).Nodup) :
    ∃ newEntries : List Line,
      (∀ h ∈ newEntries,
        h ∈ wanted ∧ h ∉ splitHosts (valueAfterEq (lines.getD idx []))) ∧
      pyDedup (splitHosts (valueAfterEq (lines.getD idx [])) ++ wanted) =
        splitHosts (valueAfterEq (lines.getD idx [])) ++ newEntries ∧
      ensureSabWhitelist lines wanted defWl =
        (if newEntries = [] then (lines, false)
         else (lines.set idx (lineOf "host_whitelist = " ++
           joinHosts (pyDedup (splitHosts (valueAfterEq (lines.getD idx []))
             ++ wanted))), true)) := by
  set current := splitHosts (valueAfterEq (lines.getD idx [])) with hcur
  refine ⟨dedupAux wanted current.reverse, ?_, ?_, ?_⟩
  · intro h hh
    rcases mem_dedupAux wanted current.reverse h hh with ⟨h1, h2⟩
    exact ⟨h1, fun hmem => h2 (List.mem_reverse.mpr hmem)⟩
  · unfold pyDedup
    rw [dedupAux_append current wanted [] hnodup (by simp)]
    simp
  · have hmerge : pyDedup (current ++ wanted) =
        current ++ dedupAux wanted current.reverse := by
      unfold pyDedup
      rw [dedupAux_append current wanted [] hnodup (by simp)]
      simp
    unfold ensureSabWhitelist
    rw [hscan]
    simp only [← hcur, hmerge]
    by_cases hnew : dedupAux wanted current.reverse = []
    · simp [hnew]
    · have hne : current ++ dedupAux wanted current.reverse ≠ current := by
        intro heq
        have := congrArg List.length heq
        simp at this
        exact hnew this
      simp [hne, hnew, hmerge]

/-- Witness for C7 (amended): existing `a,b` and wanted `b,c` merge to
`a,b,c` with `c` the only appended entry, a change. -/
theorem c7_whitelist_merge_amended_witness :
    ∃ newEntries : List Line,
      (∀ h ∈ newEntries,
        h ∈ [lineOf "b", lineOf "c"] ∧
        h ∉ splitHosts (valueAfterEq
          (([lineOf "[misc]", lineOf "host_whitelist = a,b"]).getD 1 []))) ∧
      pyDedup (splitHosts (valueAfterEq
          (([lineOf "[misc]", lineOf "host_whitelist = a,b"]).getD 1 [])) ++
          [lineOf "b", lineOf "c"]) =
        splitHosts (valueAfterEq
          (([lineOf "[misc]", lineOf "host_whitelist = a,b"]).getD 1 [])) ++
          newEntries ∧
      ensureSabWhitelist [lineOf "[misc]", lineOf "host_whitelist = a,b"]
          [lineOf "b", lineOf "c"] [lineOf "d"] =
        (if newEntries = [] then
          ([lineOf "[misc]", lineOf "host_whitelist = a,b"], false)
         else ([lineOf "[misc]", lineOf "host_whitelist = a,b"].set 1
           (lineOf "host_whitelist = " ++
            joinHosts (pyDedup (splitHosts (valueAfterEq
              (([lineOf "[misc]", lineOf "host_whitelist = a,b"]).getD 1 []))
              ++ [lineOf "b", lineOf "c"]))), true)) :=
  c7_whitelist_merge_amended
    [lineOf "[misc]", lineOf "host_whitelist = a,b"]
    [lineOf "b", lineOf "c"] [lineOf "d"] 0 1 (by decide) (by decide)

/-! ### Machinery: locating and splicing line ranges

The patcher functions all work through `findIdx?`-style scans plus
`take`/`drop`/`set` surgery; these lemmas characterize those scans on
documents decomposed as `prefix ++ header :: body ++ suffix`. -/

/-- A successful `findIdx?` splits the list at the first hit. -/
theorem findIdx?_decomp {α : Type} (p : α → Bool) (l : List α) (k : Nat)
    (h : l.findIdx? p = some k) :
    ∃ pre x suf, l = pre ++ x :: suf ∧ pre.length = k ∧ p x = true ∧
      ∀ y ∈ pre, p y = false := by
  induction l generalizing k with
  | nil => cases h
  | cons a as ih =>
    rw [List.findIdx?_cons] at h
    by_cases hpa : p a = true
    · rw [if_pos hpa] at h
      cases h
      exact ⟨[], a, as, rfl, rfl, hpa, by simp⟩
    · rw [if_neg hpa, List.findIdx?_succ] at h
      rcases hk : as.findIdx? p with _ | k'
      · rw [hk] at h; cases h
      · rw [hk] at h
        simp only [Option.map_some'] at h
        rcases ih k' hk with ⟨pre, x, suf, hdec, hlen, hpx, hpre⟩
        cases h
        refine ⟨a :: pre, x, suf, by simp [hdec], by simp [hlen], hpx, ?_⟩
        intro y hy
        rcases List.mem_cons.mp hy with rfl | hy'
        · simpa using hpa
        · exact hpre y hy'

/-- Conversely, the first hit of an explicitly split list. -/
theorem findIdx?_of_decomp {α : Type} (p : α → Bool) (pre : List α) (x : α)
    (suf : List α) (hpre : ∀ y ∈ pre, p y = false) (hx : p x = true) :
    (pre ++ x :: suf).findIdx? p = some pre.length := by
  rw [List.findIdx?_append, List.findIdx?_eq_none_iff.mpr hpre,
    List.findIdx?_cons, if_pos hx]
  simp [Option.or]

/-- A found index is inside the list. -/
theorem findIdx?_lt_length {α : Type} (p : α → Bool) (l : List α) (k : Nat)
    (h : l.findIdx? p = some k) : k < l.length := by
  rcases findIdx?_decomp p l k h with ⟨pre, x, suf, hdec, hlen, _, _⟩
  rw [hdec, ← hlen]
  simp

/-- Bounds of a successful range scan. -/
theorem findIdxInRange_bounds (p : Line → Bool) (l : List Line) (s e idx : Nat)
    (h : findIdxInRange p l s e = some idx) :
    s ≤ idx ∧ idx < e ∧ idx < l.length := by
  unfold findIdxInRange at h
  rcases hk : ((l.drop s).take (e - s)).findIdx? p with _ | k
  · rw [hk] at h; cases h
  · rw [hk] at h
    cases h
    have hlt := findIdx?_lt_length _ _ _ hk
    rw [List.length_take, List.length_drop] at hlt
    omega

/-- A range scan over an exactly-fitting middle segment. -/
theorem findIdxInRange_decomp (p : Line → Bool) (pre body post : List Line) :
    findIdxInRange p (pre ++ body ++ post) pre.length
        (pre.length + body.length) =
      (body.findIdx? p).map (fun k => pre.length + k) := by
  unfold findIdxInRange
  rw [List.append_assoc, List.drop_left, Nat.add_sub_cancel_left]
  rw [List.take_left]
  rcases hk : body.findIdx? p with _ | k <;> simp [hk]

/-- Recompose a list from a slice `[s, e)` and its surroundings. -/
theorem slice_recomp (l : List Line) (s e : Nat) (hse : s ≤ e)
    (_he : e ≤ l.length) :
    l = l.take s ++ (l.drop s).take (e - s) ++ l.drop e := by
  conv_lhs => rw [← List.take_append_drop s l]
  rw [List.append_assoc]
  congr 1
  conv_lhs => rw [← List.take_append_drop (e - s) (l.drop s)]
  congr 1
  rw [List.drop_drop]
  congr 1
  omega

/-- `set` inside a slice `[s, e)` touches only the slice. -/
theorem set_slice (l : List Line) (s e idx : Nat) (v : Line) (h1 : s ≤ idx)
    (h2 : idx < e) (h3 : e ≤ l.length) :
    l.set idx v =
      l.take s ++ ((l.drop s).take (e - s)).set (idx - s) v ++ l.drop e := by
  conv_lhs => rw [slice_recomp l s e (by omega) h3]
  have hlen1 : (l.take s).length = s := by
    rw [List.length_take]
    omega
  have hlen2 : ((l.drop s).take (e - s)).length = e - s := by
    rw [List.length_take, List.length_drop]
    omega
  rw [List.append_assoc, List.set_append, if_neg (by omega), hlen1,
    List.set_append, if_pos (by omega), ← List.append_assoc]

/-- `set` at position `pre.length + k` inside the middle segment. -/
theorem set_decomp (pre body post : List Line) (k : Nat) (v : Line)
    (hk : k < body.length) :
    (pre ++ body ++ post).set (pre.length + k) v =
      pre ++ body.set k v ++ post := by
  rw [List.append_assoc, List.set_append, if_neg (by omega),
    Nat.add_sub_cancel_left, List.set_append, if_pos hk, ← List.append_assoc]

/-- `insertAt` at the junction between the prefix and the rest. -/
theorem insertAt_decomp (pre rest : List Line) (x : Line) :
    insertAt (pre ++ rest) pre.length x = pre ++ x :: rest := by
  unfold insertAt
  rw [List.take_left, List.drop_left]
  simp

/-- `getD` inside the middle segment. -/
theorem getD_decomp (pre body post : List Line) (k : Nat) (hk : k < body.length) :
    (pre ++ body ++ post).getD (pre.length + k) [] = body.getD k [] := by
  rw [List.append_assoc, List.getD_eq_getElem?_getD,
    List.getElem?_append_right (by omega), Nat.add_sub_cancel_left,
    List.getElem?_append, if_pos hk, ← List.getD_eq_getElem?_getD]

/-- Bounds of the section-end computation. -/
theorem nextSection_bounds (lines : List Line) (s : Nat)
    (hs : s ≤ lines.length) :
    s ≤ (findNextSection lines s).getD lines.length ∧
    (findNextSection lines s).getD lines.length ≤ lines.length := by
  rcases hj : findNextSection lines s with _ | j
  · simp [hs]
  · unfold findNextSection at hj
    have := findIdxInRange_bounds _ _ _ _ _ hj
    simp only [Option.getD_some]
    omega

/-- Splitting the tail of a list at an absolute index `e`. -/
theorem drop_slice (l : List Line) (s e : Nat) (hse : s ≤ e)
    (_he : e ≤ l.length) :
    l.drop s = (l.drop s).take (e - s) ++ l.drop e := by
  conv_lhs => rw [← List.take_append_drop (e - s) (l.drop s)]
  rw [List.drop_drop]
  congr 2
  omega

/-- Branch evaluation: no `[misc]` section. -/
theorem sabSetMiscKv_none_eval (lines : List Line) (key value : Line)
    (hm : findSectionStart (lineOf "[misc]") lines = none) :
    sabSetMiscKv lines key value =
      (lines ++ [[], lineOf "[misc]", mkKvLine key value], true) := by
  unfold sabSetMiscKv
  rw [hm]

/-- Branch evaluation: section found, key absent → insert after header. -/
theorem sabSetMiscKv_insert_eval (lines : List Line) (key value : Line)
    (i : Nat) (hm : findSectionStart (lineOf "[misc]") lines = some i)
    (hfind : findIdxInRange (kvMatch key) lines (i + 1)
      ((findNextSection lines (i + 1)).getD lines.length) = none) :
    sabSetMiscKv lines key value =
      (insertAt lines (i + 1) (mkKvLine key value), true) := by
  unfold sabSetMiscKv
  rw [hm]
  dsimp only
  rw [hfind]

/-- Branch evaluation: section found, key present with the right value. -/
theorem sabSetMiscKv_found_eq_eval (lines : List Line) (key value : Line)
    (i idx : Nat) (hm : findSectionStart (lineOf "[misc]") lines = some i)
    (hfind : findIdxInRange (kvMatch key) lines (i + 1)
      ((findNextSection lines (i + 1)).getD lines.length) = some idx)
    (hval : valueAfterEq (lines.getD idx []) = value) :
    sabSetMiscKv lines key value = (lines, false) := by
  unfold sabSetMiscKv
  rw [hm]
  dsimp only
  rw [hfind]
  dsimp only
  rw [if_pos hval]

/-- Branch evaluation: section found, key present with a different value. -/
theorem sabSetMiscKv_found_ne_eval (lines : List Line) (key value : Line)
    (i idx : Nat) (hm : findSectionStart (lineOf "[misc]") lines = some i)
    (hfind : findIdxInRange (kvMatch key) lines (i + 1)
      ((findNextSection lines (i + 1)).getD lines.length) = some idx)
    (hval : ¬ valueAfterEq (lines.getD idx []) = value) :
    sabSetMiscKv lines key value =
      (lines.set idx (mkKvLine key value), true) := by
  unfold sabSetMiscKv
  rw [hm]
  dsimp only
  rw [hfind]
  dsimp only
  rw [if_neg hval]

/-- Branch evaluation of `foldersSetKv`: no section yet. -/
theorem foldersSetKv_none_eval (st : FoldersState) (key v : Line)
    (hm : st.miscStart = none) :
    foldersSetKv st key v =
      ⟨st.lines ++ [[], lineOf "[misc]", mkKvLine key v], true,
       some ((st.lines ++ [[], lineOf "[misc]", mkKvLine key v]).length - 2),
       st.nextSection⟩ := by
  unfold foldersSetKv
  rw [hm]

/-- Branch evaluation of `foldersSetKv`: key absent → insert after header. -/
theorem foldersSetKv_insert_eval (st : FoldersState) (key v : Line) (m : Nat)
    (hm : st.miscStart = some m)
    (hfind : findIdxInRange (kvMatch key) st.lines (m + 1)
      (st.nextSection.getD st.lines.length) = none) :
    foldersSetKv st key v =
      { st with lines := insertAt st.lines (m + 1) (mkKvLine key v),
                changed := true } := by
  unfold foldersSetKv
  rw [hm]
  dsimp only
  rw [hfind]

/-- Branch evaluation of `foldersSetKv`: key present, value already right. -/
theorem foldersSetKv_found_eq_eval (st : FoldersState) (key v : Line)
    (m idx : Nat) (hm : st.miscStart = some m)
    (hfind : findIdxInRange (kvMatch key) st.lines (m + 1)
      (st.nextSection.getD st.lines.length) = some idx)
    (hval : valueAfterEq (st.lines.getD idx []) = v) :
    foldersSetKv st key v = st := by
  unfold foldersSetKv
  rw [hm]
  dsimp only
  rw [hfind]
  dsimp only
  rw [if_pos hval]

/-- Branch evaluation of `foldersSetKv`: key present, value differs. -/
theorem foldersSetKv_found_ne_eval (st : FoldersState) (key v : Line)
    (m idx : Nat) (hm : st.miscStart = some m)
    (hfind : findIdxInRange (kvMatch key) st.lines (m + 1)
      (st.nextSection.getD st.lines.length) = some idx)
    (hval : ¬ valueAfterEq (st.lines.getD idx []) = v) :
    foldersSetKv st key v =
      { st with lines := st.lines.set idx (mkKvLine key v),
                changed := true } := by
  unfold foldersSetKv
  rw [hm]
  dsimp only
  rw [hfind]
  dsimp only
  rw [if_neg hval]

/-- The three-step pipeline of `ensure_sab_folders`, named for reuse. -/
theorem ensureSabFolders_pipeline (lines : List Line)
    (tempDir completeDir : Line) :
    ensureSabFolders lines tempDir completeDir =
      (let m := findSectionStart (lineOf "[misc]") lines
       let ns := match m with
                 | some i => findNextSection lines (i + 1)
                 | none => none
       let st3 := foldersSetKv (foldersSetKv (foldersSetKv ⟨lines, false, m, ns⟩
         (lineOf "download_dir") tempDir) (lineOf "complete_dir") completeDir)
         (lineOf "dir_base") []
       (st3.lines, st3.changed)) := rfl

/-- Frame property of `_sab_set_misc_kv` when `[misc]` exists: everything
before (and including) the header, and everything from the next section
header on, is untouched. -/
theorem sabSetMiscKv_frame (lines : List Line) (key value : Line) (i : Nat)
    (hm : findSectionStart (lineOf "[misc]") lines = some i) :
    ∃ mid, (sabSetMiscKv lines key value).1 =
      lines.take (i + 1) ++ mid ++
        lines.drop ((findNextSection lines (i + 1)).getD lines.length) := by
  have hi : i < lines.length := findIdx?_lt_length _ _ _ hm
  have hbounds := nextSection_bounds lines (i + 1) (by omega)
  rcases hfind : findIdxInRange (kvMatch key) lines (i + 1)
      ((findNextSection lines (i + 1)).getD lines.length) with _ | idx
  · rw [sabSetMiscKv_insert_eval lines key value i hm hfind]
    refine ⟨mkKvLine key value :: (lines.drop (i + 1)).take
      (((findNextSection lines (i + 1)).getD lines.length) - (i + 1)), ?_⟩
    show insertAt lines (i + 1) (mkKvLine key value) = _
    unfold insertAt
    conv_lhs => rw [drop_slice lines (i + 1)
      ((findNextSection lines (i + 1)).getD lines.length) hbounds.1 hbounds.2]
    simp
  · rcases findIdxInRange_bounds _ _ _ _ _ hfind with ⟨h1, h2, h3⟩
    by_cases hval : valueAfterEq (lines.getD idx []) = value
    · rw [sabSetMiscKv_found_eq_eval lines key value i idx hm hfind hval]
      exact ⟨(lines.drop (i + 1)).take
          (((findNextSection lines (i + 1)).getD lines.length) - (i + 1)),
        slice_recomp lines (i + 1) _ hbounds.1 hbounds.2⟩
    · rw [sabSetMiscKv_found_ne_eval lines key value i idx hm hfind hval]
      exact ⟨((lines.drop (i + 1)).take
          (((findNextSection lines (i + 1)).getD lines.length) - (i + 1))).set
          (idx - (i + 1)) (mkKvLine key value),
        set_slice lines (i + 1) _ idx _ h1 h2 hbounds.2⟩

/-- Frame property of one `ensure_sab_folders.set_kv` step with the section
located: the prefix through the header and the suffix beyond the frozen
bound survive unchanged, and the bookkeeping fields are preserved. -/
theorem foldersSetKv_frame (st : FoldersState) (key v : Line) (i : Nat)
    (P mid S : List Line)
    (hm : st.miscStart = some i)
    (hP : P.length = i + 1)
    (hlines : st.lines = P ++ mid ++ S)
    (hbound : st.nextSection.getD st.lines.length ≤ i + 1 + mid.length) :
    ∃ mid2, (foldersSetKv st key v).lines = P ++ mid2 ++ S ∧
      mid.length ≤ mid2.length ∧
      (foldersSetKv st key v).miscStart = some i ∧
      (foldersSetKv st key v).nextSection = st.nextSection := by
  rcases hfind : findIdxInRange (kvMatch key) st.lines (i + 1)
      (st.nextSection.getD st.lines.length) with _ | idx
  · rw [foldersSetKv_insert_eval st key v i hm hfind]
    refine ⟨mkKvLine key v :: mid, ?_, by simp, hm, rfl⟩
    show insertAt st.lines (i + 1) (mkKvLine key v) = _
    rw [hlines, ← hP, List.append_assoc, insertAt_decomp]
    simp
  · rcases findIdxInRange_bounds _ _ _ _ _ hfind with ⟨h1, h2, h3⟩
    by_cases hval : valueAfterEq (st.lines.getD idx []) = v
    · rw [foldersSetKv_found_eq_eval st key v i idx hm hfind hval]
      exact ⟨mid, hlines, le_refl _, hm, rfl⟩
    · rw [foldersSetKv_found_ne_eval st key v i idx hm hfind hval]
      refine ⟨mid.set (idx - (i + 1)) (mkKvLine key v), ?_, by simp, hm, rfl⟩
      show st.lines.set idx (mkKvLine key v) = _
      have hset := set_decomp P mid S (idx - (i + 1)) (mkKvLine key v)
        (by omega)
      have hidx2 : P.length + (idx - (i + 1)) = idx := by omega
      rw [hidx2] at hset
      rw [hlines]
      exact hset

/-- Frame property of the whole `ensure_sab_folders` pipeline when `[misc]`
exists. -/
theorem ensureSabFolders_frame (lines : List Line) (tempDir completeDir : Line)
    (i : Nat) (hm : findSectionStart (lineOf "[misc]") lines = some i) :
    ∃ mid, (ensureSabFolders lines tempDir completeDir).1 =
      lines.take (i + 1) ++ mid ++
        lines.drop ((findNextSection lines (i + 1)).getD lines.length) := by
  have hi : i < lines.length := findIdx?_lt_length _ _ _ hm
  have hbounds := nextSection_bounds lines (i + 1) (by omega)
  rw [ensureSabFolders_pipeline, hm]
  dsimp only
  set ns := findNextSection lines (i + 1) with hns
  set e := ns.getD lines.length with he
  set P := lines.take (i + 1) with hPdef
  set mid0 := (lines.drop (i + 1)).take (e - (i + 1)) with hmid0
  set S := lines.drop e with hSdef
  have hP : P.length = i + 1 := by
    rw [hPdef, List.length_take]
    omega
  have hm0len : mid0.length = e - (i + 1) := by
    rw [hmid0, List.length_take, List.length_drop]
    omega
  have hSlen : S.length = lines.length - e := by
    rw [hSdef, List.length_drop]
  have hlines0 : lines = P ++ mid0 ++ S :=
    slice_recomp lines (i + 1) e hbounds.1 hbounds.2
  have hkey : ∀ mid : List Line, mid0.length ≤ mid.length →
      ns.getD (P ++ mid ++ S).length ≤ i + 1 + mid.length := by
    intro mid hlen
    rcases hnsv : ns with _ | j
    · rw [hnsv] at he
      simp only [Option.getD_none] at he
      simp only [Option.getD_none, List.length_append]
      have hS0 : S.length = 0 := by omega
      omega
    · simp only [Option.getD_some]
      rw [hnsv] at he
      simp only [Option.getD_some] at he
      omega
  rcases foldersSetKv_frame ⟨lines, false, some i, ns⟩ (lineOf "download_dir")
      tempDir i P mid0 S rfl hP hlines0
      (by simpa [← hlines0, ← he] using hkey mid0 (le_refl _)) with
    ⟨mid1, hl1, hlen1, hm1, hns1⟩
  rcases foldersSetKv_frame _ (lineOf "complete_dir") completeDir i P mid1 S
      hm1 hP hl1 (by
        rw [hns1, hl1]
        exact hkey mid1 (by omega)) with
    ⟨mid2, hl2, hlen2, hm2, hns2⟩
  rcases foldersSetKv_frame _ (lineOf "dir_base") [] i P mid2 S
      hm2 hP hl2 (by
        rw [hns2, hns1, hl2]
        exact hkey mid2 (by omega)) with
    ⟨mid3, hl3, hlen3, hm3, hns3⟩
  exact ⟨mid3, hl3⟩

/-- Frame property of `ensure_sab_folders` when `[misc]` is absent: the
original document is preserved verbatim and lines are only appended. -/
theorem ensureSabFolders_frame_none (lines : List Line)
    (tempDir completeDir : Line)
    (hm : findSectionStart (lineOf "[misc]") lines = none) :
    ∃ tail, (ensureSabFolders lines tempDir completeDir).1 = lines ++ tail := by
  rw [ensureSabFolders_pipeline, hm]
  dsimp only
  rw [foldersSetKv_none_eval ⟨lines, false, none, none⟩
    (lineOf "download_dir") tempDir rfl]
  set kv1 := mkKvLine (lineOf "download_dir") tempDir with hkv1
  set lines1 := lines ++ [[], lineOf "[misc]", kv1] with hl1def
  have hlen1 : lines1.length = lines.length + 3 := by
    rw [hl1def]
    simp
  set P := lines ++ [[], lineOf "[misc]"] with hPdef
  have hP : P.length = (lines.length + 1) + 1 := by
    rw [hPdef]
    simp
  have hm1 : (some (lines1.length - 2) : Option Nat) =
      some (lines.length + 1) := by
    have h2 : lines1.length - 2 = lines.length + 1 := by omega
    rw [h2]
  have hlines1 : lines1 = P ++ [kv1] ++ [] := by
    rw [hl1def, hPdef]
    simp
  rcases foldersSetKv_frame ⟨lines1, true, some (lines1.length - 2), none⟩
      (lineOf "complete_dir") completeDir (lines.length + 1) P [kv1] []
      hm1 hP hlines1 (by
        dsimp only
        simp only [Option.getD_none, List.length_singleton]
        omega) with
    ⟨mid2, hl2, hlen2, hm2, hns2⟩
  rcases foldersSetKv_frame _ (lineOf "dir_base") [] (lines.length + 1) P mid2 []
      hm2 hP hl2 (by
        rw [hns2, hl2]
        dsimp only
        simp only [Option.getD_none, List.length_append, List.length_nil,
          List.length_singleton]
        omega) with
    ⟨mid3, hl3, hlen3, hm3, hns3⟩
  refine ⟨[[], lineOf "[misc]"] ++ mid3, ?_⟩
  rw [hl3, hPdef]
  simp

/-! ### C5: key/value patching alters nothing outside the section -/

/-- C5: patching a key/value inside the `[misc]` section (via
`_sab_set_misc_kv` or `ensure_sab_folders`'s `set_kv`) alters no line
outside that section's span: with the section header at index `i` and the
span ending at the next top-level section header (or end-of-file), the
output is the untouched prefix through the header, some replacement
middle, and the untouched suffix from the next section on — so every line
of every other section is byte-identical.  Without a `[misc]` section the
whole document survives and lines are only appended. -/
theorem c5_patch_outside_section_frame (lines : List Line)
    (key value tempDir completeDir : Line) :
    (∀ i, findSectionStart (lineOf "[misc]") lines = some i →
      (∃ mid, (sabSetMiscKv lines key value).1 =
        lines.take (i + 1) ++ mid ++
          lines.drop ((findNextSection lines (i + 1)).getD lines.length)) ∧
      (∃ mid2, (ensureSabFolders lines tempDir completeDir).1 =
        lines.take (i + 1) ++ mid2 ++
          lines.drop ((findNextSection lines (i + 1)).getD lines.length))) ∧
    (findSectionStart (lineOf "[misc]") lines = none →
      (∃ tail, (sabSetMiscKv lines key value).1 = lines ++ tail) ∧
      (∃ tail2, (ensureSabFolders lines tempDir completeDir).1 =
        lines ++ tail2)) := by
  constructor
  · intro i hm
    exact ⟨sabSetMiscKv_frame lines key value i hm,
           ensureSabFolders_frame lines tempDir completeDir i hm⟩
  · intro hm
    refine ⟨⟨[[], lineOf "[misc]", mkKvLine key value], ?_⟩,
            ensureSabFolders_frame_none lines tempDir completeDir hm⟩
    rw [sabSetMiscKv_none_eval lines key value hm]

/-- Witness for C5: a document with unrelated sections `[foo]` and `[bar]`
around `[misc]`; patching `language` inside `[misc]` leaves every `[foo]`
and `[bar]` line byte-identical. -/
theorem c5_patch_outside_section_frame_witness :
    (∃ mid, (sabSetMiscKv
        [lineOf "[foo]", lineOf "x = 1", lineOf "[misc]", lineOf "language = de",
         lineOf "[bar]", lineOf "y = 2"] (lineOf "language") (lineOf "en")).1 =
      ([lineOf "[foo]", lineOf "x = 1", lineOf "[misc]", lineOf "language = de",
        lineOf "[bar]", lineOf "y = 2"]).take 3 ++ mid ++
      ([lineOf "[foo]", lineOf "x = 1", lineOf "[misc]", lineOf "language = de",
        lineOf "[bar]", lineOf "y = 2"]).drop
        ((findNextSection
          [lineOf "[foo]", lineOf "x = 1", lineOf "[misc]", lineOf "language = de",
           lineOf "[bar]", lineOf "y = 2"] 3).getD 6)) ∧
    (∃ mid2, (ensureSabFolders
        [lineOf "[foo]", lineOf "x = 1", lineOf "[misc]", lineOf "language = de",
         lineOf "[bar]", lineOf "y = 2"] (lineOf "/t") (lineOf "/c")).1 =
      ([lineOf "[foo]", lineOf "x = 1", lineOf "[misc]", lineOf "language = de",
        lineOf "[bar]", lineOf "y = 2"]).take 3 ++ mid2 ++
      ([lineOf "[foo]", lineOf "x = 1", lineOf "[misc]", lineOf "language = de",
        lineOf "[bar]", lineOf "y = 2"]).drop
        ((findNextSection
          [lineOf "[foo]", lineOf "x = 1", lineOf "[misc]", lineOf "language = de",
           lineOf "[bar]", lineOf "y = 2"] 3).getD 6)) := by
  have h := (c5_patch_outside_section_frame
    [lineOf "[foo]", lineOf "x = 1", lineOf "[misc]", lineOf "language = de",
     lineOf "[bar]", lineOf "y = 2"]
    (lineOf "language") (lineOf "en") (lineOf "/t") (lineOf "/c")).1 2
    (by decide)
  simpa using h

/-! ### C6: whole-span replacement of a `[[name]]` server block -/

/-- `getD` through the slice `[s, e)`. -/
theorem getD_range (l : List Line) (s e k : Nat)
    (hk : k < ((l.drop s).take (e - s)).length) :
    ((l.drop s).take (e - s)).getD k [] = l.getD (s + k) [] := by
  rw [List.length_take, List.length_drop] at hk
  rw [List.getD_eq_getElem?_getD, List.getElem?_take, if_pos (by omega),
    List.getElem?_drop, List.getD_eq_getElem?_getD]

/-- A successful range scan: the found line satisfies the predicate and
every line of the range before it does not. -/
theorem findIdxInRange_some_char (p : Line → Bool) (l : List Line)
    (s e idx : Nat) (h : findIdxInRange p l s e = some idx) :
    p (l.getD idx []) = true ∧
      ∀ j, s ≤ j → j < idx → p (l.getD j []) = false := by
  unfold findIdxInRange at h
  rcases hk : ((l.drop s).take (e - s)).findIdx? p with _ | k
  · rw [hk] at h; cases h
  · rw [hk] at h
    cases h
    have hklen := findIdx?_lt_length _ _ _ hk
    rcases findIdx?_decomp p _ k hk with ⟨pre, x, suf, hdec, hlen, hpx, hpre⟩
    constructor
    · rw [← getD_range l s e k hklen, hdec, List.getD_eq_getElem?_getD,
        List.getElem?_append_right (by omega)]
      rw [hlen]
      simp [hpx]
    · intro j hj1 hj2
      have hjk : j - s < k := by omega
      have hjlen : j - s < ((l.drop s).take (e - s)).length := by omega
      have hgd : ((l.drop s).take (e - s)).getD (j - s) [] = l.getD j [] := by
        have := getD_range l s e (j - s) hjlen
        rw [this]
        congr 1
        omega
      rw [← hgd, hdec, List.getD_eq_getElem?_getD,
        List.getElem?_append, if_pos (by omega)]
      have hmem : pre[j - s]?.getD [] ∈ pre := by
        rcases hsome : pre[j - s]? with _ | y
        · rw [List.getElem?_eq_none_iff] at hsome
          omega
        · simp only [Option.getD_some]
          exact List.getElem?_mem hsome
      exact hpre _ hmem

/-- A failed range scan: every line of the range fails the predicate. -/
theorem findIdxInRange_none_char (p : Line → Bool) (l : List Line)
    (s e : Nat) (h : findIdxInRange p l s e = none) :
    ∀ j, s ≤ j → j < e → j < l.length → p (l.getD j []) = false := by
  unfold findIdxInRange at h
  rcases hk : ((l.drop s).take (e - s)).findIdx? p with _ | k
  · intro j hj1 hj2 hj3
    have hall := List.findIdx?_eq_none_iff.mp hk
    have hjlen : j - s < ((l.drop s).take (e - s)).length := by
      rw [List.length_take, List.length_drop]
      omega
    have hgd : ((l.drop s).take (e - s)).getD (j - s) [] = l.getD j [] := by
      have := getD_range l s e (j - s) hjlen
      rw [this]
      congr 1
      omega
    rw [← hgd]
    refine hall _ ?_
    rcases hsome : ((l.drop s).take (e - s))[j - s]? with _ | y
    · rw [List.getElem?_eq_none_iff] at hsome
      omega
    · rw [List.getD_eq_getElem?_getD, hsome]
      simp only [Option.getD_some]
      exact List.getElem?_mem hsome
  · rw [hk] at h; cases h

/-- Branch evaluation of `ensure_sab_server`: no `[servers]` section. -/
theorem ensureSabServer_none_eval (lines : List Line) (name host : Line)
    (port ssl : Int) (username password : Line) (connections priority : Int)
    (hhost : ¬ host = [])
    (hm : findSectionStart (lineOf "[servers]") lines = none) :
    ensureSabServer lines name host port ssl username password connections
        priority =
      (lines ++ [[], lineOf "[servers]"] ++
        serverBlockFor name host port ssl username password connections
          priority, true) := by
  unfold ensureSabServer
  rw [if_neg hhost]
  dsimp only
  rw [hm]

/-- Branch evaluation of `ensure_sab_server`: section present, named block
absent → splice the fresh block in at the end of the section. -/
theorem ensureSabServer_append_eval (lines : List Line) (name host : Line)
    (port ssl : Int) (username password : Line) (connections priority : Int)
    (i : Nat) (hhost : ¬ host = [])
    (hm : findSectionStart (lineOf "[servers]") lines = some i)
    (hfind : findBlockIndices lines i
      ((findNextSection lines (i + 1)).getD lines.length) name = none) :
    ensureSabServer lines name host port ssl username password connections
        priority =
      (lines.take ((findNextSection lines (i + 1)).getD lines.length) ++
        serverBlockFor name host port ssl username password connections
          priority ++
        lines.drop ((findNextSection lines (i + 1)).getD lines.length),
       true) := by
  unfold ensureSabServer
  rw [if_neg hhost]
  dsimp only
  rw [hm]
  dsimp only
  rw [hfind]

/-- Branch evaluation of `ensure_sab_server`: named block found → replace
its whole span iff it differs from the fresh rendering. -/
theorem ensureSabServer_replace_eval (lines : List Line) (name host : Line)
    (port ssl : Int) (username password : Line) (connections priority : Int)
    (i s eIdx : Nat) (hhost : ¬ host = [])
    (hm : findSectionStart (lineOf "[servers]") lines = some i)
    (hfind : findBlockIndices lines i
      ((findNextSection lines (i + 1)).getD lines.length) name =
        some (s, eIdx)) :
    ensureSabServer lines name host port ssl username password connections
        priority =
      (if (lines.drop s).take (eIdx - s) =
          serverBlockFor name host port ssl username password connections
            priority
       then (lines, false)
       else (lines.take s ++
         serverBlockFor name host port ssl username password connections
           priority ++ lines.drop eIdx, true)) := by
  unfold ensureSabServer
  rw [if_neg hhost]
  dsimp only
  rw [hm]
  dsimp only
  rw [hfind]

/-- Characterization of `find_block_indices`: the returned span starts at
the first matching `[[name]]` header after the section header and ends at
the next `[[...]]` header, or at the section boundary when none follows. -/
theorem findBlockIndices_char (lines : List Line) (start e : Nat) (nm : Line)
    (s eIdx : Nat) (h : findBlockIndices lines start e nm = some (s, eIdx)) :
    start + 1 ≤ s ∧ s < e ∧ s < lines.length ∧ s < eIdx ∧ eIdx ≤ e ∧
    isBlockHeaderFor nm (lines.getD s []) = true ∧
    (∀ j, start + 1 ≤ j → j < s →
      isBlockHeaderFor nm (lines.getD j []) = false) ∧
    (eIdx = e ∨ (eIdx < lines.length ∧
      isAnyBlockHeader (lines.getD eIdx []) = true)) ∧
    (∀ j, s + 1 ≤ j → j < eIdx → j < lines.length →
      isAnyBlockHeader (lines.getD j []) = false) := by
  unfold findBlockIndices at h
  rcases h1 : findIdxInRange (isBlockHeaderFor nm) lines (start + 1) e with
    _ | j
  · rw [h1] at h; cases h
  · rw [h1] at h
    dsimp only at h
    have hb1 := findIdxInRange_bounds _ _ _ _ _ h1
    have hc1 := findIdxInRange_some_char _ _ _ _ _ h1
    rcases h2 : findIdxInRange isAnyBlockHeader lines (j + 1) e with _ | k
    · rw [h2] at h
      cases h
      refine ⟨hb1.1, hb1.2.1, hb1.2.2, by omega, le_refl _, hc1.1, ?_, ?_, ?_⟩
      · intro j' hj1 hj2
        exact hc1.2 j' hj1 hj2
      · left; rfl
      · intro j' hj1 hj2 hj3
        exact findIdxInRange_none_char _ _ _ _ h2 j' hj1 hj2 hj3
    · rw [h2] at h
      cases h
      have hb2 := findIdxInRange_bounds _ _ _ _ _ h2
      have hc2 := findIdxInRange_some_char _ _ _ _ _ h2
      refine ⟨hb1.1, hb1.2.1, hb1.2.2, by omega, by omega, hc1.1, ?_, ?_, ?_⟩
      · intro j' hj1 hj2
        exact hc1.2 j' hj1 hj2
      · right
        exact ⟨hb2.2.2, hc2.1⟩
      · intro j' hj1 hj2 hj3
        exact hc2.2 j' hj1 hj2

/-- C6: `ensure_sab_server` treats a `[[name]]` sub-block as one owned
span.  If `[servers]` is absent, a new section plus the freshly rendered
block are appended at the end of the document.  If the section exists but
the named block does not, the fresh rendering is spliced in at the end of
the section.  If the block exists, its span — from its header line up to
the next `[[...]]` header or the section boundary, as characterized — is
replaced verbatim by the fresh rendering whenever any line differs, and
left alone (no write) when the span already equals the rendering. -/
theorem c6_server_block_replacement (lines : List Line) (name host : Line)
    (port ssl : Int) (username password : Line) (connections priority : Int)
    (hhost : host ≠ []) :
    (findSectionStart (lineOf "[servers]") lines = none →
      ensureSabServer lines name host port ssl username password connections
          priority =
        (lines ++ [[], lineOf "[servers]"] ++
          serverBlockFor name host port ssl username password connections
            priority, true)) ∧
    (∀ i, findSectionStart (lineOf "[servers]") lines = some i →
      (findBlockIndices lines i
          ((findNextSection lines (i + 1)).getD lines.length) name = none →
        ensureSabServer lines name host port ssl username password connections
            priority =
          (lines.take ((findNextSection lines (i + 1)).getD lines.length) ++
            serverBlockFor name host port ssl username password connections
              priority ++
            lines.drop ((findNextSection lines (i + 1)).getD lines.length),
           true)) ∧
      (∀ s eIdx, findBlockIndices lines i
          ((findNextSection lines (i + 1)).getD lines.length) name =
            some (s, eIdx) →
        (i + 1 ≤ s ∧ s < eIdx ∧
         eIdx ≤ (findNextSection lines (i + 1)).getD lines.length ∧
         isBlockHeaderFor name (lines.getD s []) = true ∧
         (∀ j, i + 1 ≤ j → j < s →
           isBlockHeaderFor name (lines.getD j []) = false) ∧
         (eIdx = (findNextSection lines (i + 1)).getD lines.length ∨
          (eIdx < lines.length ∧
           isAnyBlockHeader (lines.getD eIdx []) = true)) ∧
         (∀ j, s + 1 ≤ j → j < eIdx → j < lines.length →
           isAnyBlockHeader (lines.getD j []) = false)) ∧
        ensureSabServer lines name host port ssl username password connections
            priority =
          (if (lines.drop s).take (eIdx - s) =
              serverBlockFor name host port ssl username password connections
                priority
           then (lines, false)
           else (lines.take s ++
             serverBlockFor name host port ssl username password connections
               priority ++ lines.drop eIdx, true)))) := by
  constructor
  · intro hm
    exact ensureSabServer_none_eval lines name host port ssl username password
      connections priority hhost hm
  · intro i hm
    constructor
    · intro hfind
      exact ensureSabServer_append_eval lines name host port ssl username
        password connections priority i hhost hm hfind
    · intro s eIdx hfind
      have hchar := findBlockIndices_char lines i _ name s eIdx hfind
      refine ⟨⟨hchar.1, hchar.2.2.2.1, hchar.2.2.2.2.1, hchar.2.2.2.2.2.1,
        hchar.2.2.2.2.2.2.1, hchar.2.2.2.2.2.2.2.1,
        hchar.2.2.2.2.2.2.2.2⟩, ?_⟩
      exact ensureSabServer_replace_eval lines name host port ssl username
        password connections priority i s eIdx hhost hm hfind

/-- Witness for C6: a `[[provider]]` block spanning lines 1-2 of a concrete
document is fully replaced by the 14-line fresh rendering (not partially
edited), leaving `[misc]` untouched. -/
theorem c6_server_block_replacement_witness :
    ensureSabServer [lineOf "[servers]", lineOf "  [[provider]]",
        lineOf "    host = old", lineOf "[misc]", lineOf "x = 1"]
        (lineOf "provider") (lineOf "h") 563 1 (lineOf "u") (lineOf "p")
        20 0 =
      ([lineOf "[servers]"] ++
        serverBlockFor (lineOf "provider") (lineOf "h") 563 1 (lineOf "u")
          (lineOf "p") 20 0 ++ [lineOf "[misc]", lineOf "x = 1"], true) := by
  have h := ((c6_server_block_replacement
    [lineOf "[servers]", lineOf "  [[provider]]", lineOf "    host = old",
     lineOf "[misc]", lineOf "x = 1"]
    (lineOf "provider") (lineOf "h") 563 1 (lineOf "u") (lineOf "p") 20 0
    (by decide)).2 0 (by decide)).2 1 3 (by decide)
  rw [h.2]
  decide

/-! ### Machinery: line-shape lemmas for the rendered config lines -/

/-- `stripLeft` keeps a line whose head is not whitespace. -/
theorem stripLeft_cons_nonws (c : Char) (cs : Line)
    (hc : isSpaceChar c = false) : stripLeft (c :: cs) = c :: cs := by
  simp [stripLeft, List.dropWhile_cons, hc]

/-- `stripRight` keeps a line whose last character is not whitespace. -/
theorem stripRight_concat_nonws (l : Line) (a : Char)
    (ha : isSpaceChar a = false) : stripRight (l ++ [a]) = l ++ [a] := by
  unfold stripRight
  rw [List.reverse_append]
  simp [List.dropWhile_cons, ha]

/-- `stripRight` of a line with a non-whitespace head keeps that head. -/
theorem stripRight_cons_head (c : Char) (cs : Line)
    (hc : isSpaceChar c = false) :
    ∃ cs2, stripRight (c :: cs) = c :: cs2 := by
  unfold stripRight
  rw [show (c :: cs).reverse = cs.reverse ++ [c] by simp,
    List.dropWhile_append]
  by_cases he : (cs.reverse.dropWhile isSpaceChar).isEmpty = true
  · rw [if_pos he]
    exact ⟨[], by simp [List.dropWhile_cons, hc]⟩
  · rw [if_neg he]
    exact ⟨(cs.reverse.dropWhile isSpaceChar).reverse, by simp⟩

/-- `strip` of a line with a non-whitespace head keeps that head. -/
theorem strip_head_nonws (c : Char) (cs : Line)
    (hc : isSpaceChar c = false) :
    ∃ cs2, strip (c :: cs) = c :: cs2 := by
  unfold strip
  rw [stripLeft_cons_nonws c cs hc]
  exact stripRight_cons_head c cs hc

/-- `stripLeft` through a run of whitespace. -/
theorem stripLeft_spaces (pre : Line) (c : Char) (rest : Line)
    (hpre : ∀ a ∈ pre, isSpaceChar a = true) (hc : isSpaceChar c = false) :
    stripLeft (pre ++ c :: rest) = c :: rest := by
  unfold stripLeft
  rw [List.dropWhile_append]
  have h1 : pre.dropWhile isSpaceChar = [] := by
    rw [List.dropWhile_eq_nil_iff]
    exact hpre
  rw [h1]
  simp [List.dropWhile_cons, hc]

/-- `strip` of whitespace, then a non-whitespace character, keeps that
character as the head. -/
theorem strip_spaces_head (pre : Line) (c : Char) (rest : Line)
    (hpre : ∀ a ∈ pre, isSpaceChar a = true) (hc : isSpaceChar c = false) :
    ∃ cs2, strip (pre ++ c :: rest) = c :: cs2 := by
  unfold strip
  rw [stripLeft_spaces pre c rest hpre hc]
  exact stripRight_cons_head c rest hc

/-- A list is a prefix of itself extended. -/
theorem isPrefixOf_append_self (l t : Line) : l.isPrefixOf (l ++ t) = true := by
  induction l with
  | nil => cases t <;> rfl
  | cons a as ih =>
    show ((a == a) && as.isPrefixOf (as ++ t)) = true
    rw [ih]
    simp

/-- A prefix test on two cons cells with distinct heads fails. -/
theorem isPrefixOf_cons_false (a c : Char) (pre cs : Line) (h : a ≠ c) :
    (a :: pre).isPrefixOf (c :: cs) = false := by
  show ((a == c) && pre.isPrefixOf cs) = false
  have hb : (a == c) = false := by simpa using h
  rw [hb, Bool.false_and]

/-- A list equality test on two cons cells with distinct heads fails. -/
theorem list_beq_cons_false (a c : Char) (l1 l2 : Line) (h : a ≠ c) :
    ((a :: l1) == (c :: l2)) = false := by
  show ((a == c) && (l1 == l2)) = false
  have hb : (a == c) = false := by simpa using h
  rw [hb, Bool.false_and]

/-- Characters under a prefix agree. -/
theorem isPrefixOf_getD (a b : Line) (h : a.isPrefixOf b = true) (k : Nat)
    (hk : k < a.length) (d : Char) : b.getD k d = a.getD k d := by
  induction a generalizing b k with
  | nil => cases hk
  | cons a0 as ih =>
    cases b with
    | nil => simp [List.isPrefixOf] at h
    | cons b0 bs =>
      have h' : (a0 == b0) = true ∧ as.isPrefixOf bs = true := by
        have := h
        simp only [List.isPrefixOf, Bool.and_eq_true] at this
        exact this
      have h0' : a0 = b0 := by simpa using h'.1
      cases k with
      | zero => simp [h0']
      | succ k' =>
        simp only [List.getD_cons_succ]
        exact ih bs h'.2 k' (Nat.lt_of_succ_lt_succ hk)

/-- `getD` on the left part of an append. -/
theorem getD_append_left (a rest : Line) (k : Nat) (hk : k < a.length)
    (d : Char) : (a ++ rest).getD k d = a.getD k d := by
  rw [List.getD_eq_getElem?_getD, List.getElem?_append, if_pos hk,
    ← List.getD_eq_getElem?_getD]

/-- A prefix test fails as soon as one character inside both strings
disagrees. -/
theorem isPrefixOf_false_early (a b rest : Line) (k : Nat)
    (hka : k < a.length) (hkb : k < b.length)
    (hne : a.getD k ' ' ≠ b.getD k ' ') :
    a.isPrefixOf (b ++ rest) = false := by
  rcases hp : a.isPrefixOf (b ++ rest) with _ | _
  · rfl
  · have h1 := isPrefixOf_getD a (b ++ rest) hp k hka ' '
    rw [getD_append_left b rest k hkb ' '] at h1
    exact absurd h1.symm hne

/-- The rendered `key = value` line matches its own key's regex. -/
theorem kvMatch_mkKv_self (c : Char) (ks v : Line)
    (hc : isSpaceChar c = false) :
    kvMatch (c :: ks) (mkKvLine (c :: ks) v) = true := by
  unfold kvMatch mkKvLine
  dsimp only
  rw [List.append_assoc, List.cons_append,
    stripLeft_cons_nonws c (ks ++ (lineOf " = " ++ v)) hc]
  have h1 : (lower (c :: ks)).isPrefixOf
      (lower (c :: (ks ++ (lineOf " = " ++ v)))) = true := by
    rw [show (c :: (ks ++ (lineOf " = " ++ v))) =
      (c :: ks) ++ (lineOf " = " ++ v) by simp]
    unfold lower
    rw [List.map_append]
    exact isPrefixOf_append_self _ _
  rw [h1]
  have h2 : (c :: (ks ++ (lineOf " = " ++ v))).drop (c :: ks).length =
      lineOf " = " ++ v := by
    rw [show (c :: (ks ++ (lineOf " = " ++ v))) =
      (c :: ks) ++ (lineOf " = " ++ v) by simp]
    exact List.drop_left _ _
  rw [h2]
  have h3 : stripLeft (lineOf " = " ++ v) = '=' :: (' ' :: v) := by
    have h4 : lineOf " = " ++ v = [' '] ++ '=' :: (' ' :: v) := rfl
    rw [h4]
    exact stripLeft_spaces [' '] '=' (' ' :: v) (by decide) (by decide)
  rw [h3]
  rfl

/-- The rendered `key2 = value` line does not match a key that disagrees
with `key2` inside their common length. -/
theorem kvMatch_mkKv_ne (key1 : Line) (c : Char) (ks v : Line)
    (hc : isSpaceChar c = false) (k : Nat) (hk1 : k < key1.length)
    (hk2 : k < (c :: ks).length)
    (hne : (lower key1).getD k ' ' ≠ (lower (c :: ks)).getD k ' ') :
    kvMatch key1 (mkKvLine (c :: ks) v) = false := by
  unfold kvMatch mkKvLine
  dsimp only
  rw [List.append_assoc, List.cons_append,
    stripLeft_cons_nonws c (ks ++ (lineOf " = " ++ v)) hc]
  have h1 : (lower key1).isPrefixOf
      (lower (c :: (ks ++ (lineOf " = " ++ v)))) = false := by
    rw [show (c :: (ks ++ (lineOf " = " ++ v))) =
      (c :: ks) ++ (lineOf " = " ++ v) by simp]
    unfold lower
    rw [List.map_append]
    exact isPrefixOf_false_early _ _ _ k (by simpa [lower] using hk1)
      (by simpa [lower] using hk2) hne
  rw [h1, Bool.false_and]

/-- Two keys that disagree inside their common length can never match the
same line. -/
theorem kvMatch_exclusive (k1 k2 l : Line) (k : Nat) (hk1 : k < k1.length)
    (hk2 : k < k2.length)
    (hne : (lower k1).getD k ' ' ≠ (lower k2).getD k ' ')
    (h1 : kvMatch k1 l = true) : kvMatch k2 l = false := by
  rcases hp : kvMatch k2 l with _ | _
  · rfl
  · unfold kvMatch at h1 hp
    simp only [Bool.and_eq_true] at h1 hp
    have g1 := isPrefixOf_getD _ _ h1.1 k (by simpa [lower] using hk1) ' '
    have g2 := isPrefixOf_getD _ _ hp.1 k (by simpa [lower] using hk2) ' '
    rw [g1] at g2
    exact absurd g2 hne

/-- The standard header/section tests all fail on a line made of optional
whitespace followed by a non-bracket character. -/
theorem lineTests_nonbracket (pre : Line) (c : Char) (rest : Line) (hd : Line)
    (hpre : ∀ a ∈ pre, isSpaceChar a = true) (hc : isSpaceChar c = false)
    (htl : Char.toLower c ≠ '[') :
    isTopHeader (pre ++ c :: rest) = false ∧
    isAnyBlockHeader (pre ++ c :: rest) = false ∧
    (lower (strip (pre ++ c :: rest)) == ('[' :: hd)) = false := by
  have hbr : c ≠ '[' := by
    intro h
    exact htl (by rw [h]; rfl)
  rcases strip_spaces_head pre c rest hpre hc with ⟨cs2, hs⟩
  have hstart : lineStartsWith (lineOf "[") (c :: cs2) = false := by
    show (('[' :: []) : Line).isPrefixOf (c :: cs2) = false
    exact isPrefixOf_cons_false '[' c [] cs2 (fun h => hbr h.symm)
  have hstart2 : lineStartsWith (lineOf "[[") (c :: cs2) = false := by
    show (('[' :: ['[']) : Line).isPrefixOf (c :: cs2) = false
    exact isPrefixOf_cons_false '[' c ['['] cs2 (fun h => hbr h.symm)
  refine ⟨?_, ?_, ?_⟩
  · unfold isTopHeader
    dsimp only
    rw [hs, hstart, Bool.false_and, Bool.false_and]
  · unfold isAnyBlockHeader
    dsimp only
    rw [hs, hstart2, Bool.false_and]
  · rw [hs]
    show ((Char.toLower c :: lower cs2) == ('[' :: hd)) = false
    exact list_beq_cons_false _ _ _ _ htl

/-- `stripLeft` is the identity on whitespace-free lines. -/
theorem stripLeft_of_wsfree (l : Line)
    (h : ∀ c ∈ l, isSpaceChar c = false) : stripLeft l = l := by
  cases l with
  | nil => rfl
  | cons c cs => exact stripLeft_cons_nonws c cs (h c (by simp))

/-- `stripRight` is the identity on whitespace-free lines. -/
theorem stripRight_of_wsfree (l : Line)
    (h : ∀ c ∈ l, isSpaceChar c = false) : stripRight l = l := by
  unfold stripRight
  have hrev : l.reverse.dropWhile isSpaceChar = l.reverse := by
    cases hr : l.reverse with
    | nil => rfl
    | cons a rest =>
      have hmem : a ∈ l := by
        rw [← List.mem_reverse, hr]
        simp
      rw [List.dropWhile_cons, h a hmem]
      simp
  rw [hrev, List.reverse_reverse]

/-- `strip` is the identity on whitespace-free lines. -/
theorem strip_of_wsfree (l : Line) (h : ∀ c ∈ l, isSpaceChar c = false) :
    strip l = l := by
  unfold strip
  rw [stripLeft_of_wsfree l h, stripRight_of_wsfree l h]

/-- `dropThroughEq` skips an `=`-free key. -/
theorem dropThroughEq_append (key rest : Line) (h : '=' ∉ key) :
    dropThroughEq (key ++ rest) = dropThroughEq rest := by
  induction key with
  | nil => rfl
  | cons c cs ih =>
    have hc : c ≠ '=' := by
      intro hcontra
      exact h (by simp [hcontra])
    rw [List.cons_append, dropThroughEq, if_neg hc]
    exact ih (fun hmem => h (by simp [hmem]))

/-- The value read back from a freshly rendered `key = value` line. -/
theorem valueAfterEq_mkKv (key v : Line) (h : '=' ∉ key) :
    valueAfterEq (mkKvLine key v) = strip v := by
  unfold valueAfterEq mkKvLine
  rw [List.append_assoc, dropThroughEq_append _ _ h]
  have h2 : dropThroughEq (lineOf " = " ++ v) = ' ' :: v := by
    show dropThroughEq (' ' :: ('=' :: (' ' :: v))) = ' ' :: v
    rw [dropThroughEq, if_neg (by decide), dropThroughEq, if_pos rfl]
  rw [h2]
  unfold strip
  rw [show stripLeft (' ' :: v) = stripLeft v from by
    unfold stripLeft
    rw [List.dropWhile_cons, if_pos (show isSpaceChar ' ' = true by decide)]]

/-! ### Machinery: index characterizations of the scans -/

/-- Reading inside the bounds with `getD` yields a member. -/
theorem getD_mem (l : List Line) (j : Nat) (h : j < l.length) :
    l.getD j [] ∈ l := by
  rcases hx : l[j]? with _ | y
  · rw [List.getElem?_eq_none_iff] at hx
    omega
  · rw [List.getD_eq_getElem?_getD, hx]
    simp only [Option.getD_some]
    exact List.getElem?_mem hx

/-- Conversely, a member sits at some index. -/
theorem mem_idx (l : List Line) (w : Line) (h : w ∈ l) :
    ∃ k, k < l.length ∧ l.getD k [] = w := by
  rcases List.getElem_of_mem h with ⟨n, hn, heq⟩
  exact ⟨n, hn, by
    rw [List.getD_eq_getElem?_getD, List.getElem?_eq_getElem hn,
      Option.getD_some, heq]⟩

/-- Reading an appended pair of line lists on the left part. -/
theorem getDL_left (A B : List Line) (j : Nat) (h : j < A.length) :
    (A ++ B).getD j [] = A.getD j [] := by
  rw [List.getD_eq_getElem?_getD, List.getElem?_append, if_pos h,
    ← List.getD_eq_getElem?_getD]

/-- Reading an appended pair of line lists on the right part. -/
theorem getDL_right (A B : List Line) (k : Nat) :
    (A ++ B).getD (A.length + k) [] = B.getD k [] := by
  rw [List.getD_eq_getElem?_getD, List.getElem?_append_right (by omega),
    Nat.add_sub_cancel_left, ← List.getD_eq_getElem?_getD]

/-- Reading through `take`. -/
theorem getD_take (l : List Line) (n j : Nat) (h : j < n) :
    (l.take n).getD j [] = l.getD j [] := by
  rw [List.getD_eq_getElem?_getD, List.getElem?_take, if_pos h,
    ← List.getD_eq_getElem?_getD]

/-- Reading through `drop`. -/
theorem getD_drop (l : List Line) (n k : Nat) :
    (l.drop n).getD k [] = l.getD (n + k) [] := by
  rw [List.getD_eq_getElem?_getD, List.getElem?_drop,
    ← List.getD_eq_getElem?_getD]

/-- Reading past the end yields the default. -/
theorem getD_past (l : List Line) (n : Nat) (h : l.length ≤ n) :
    l.getD n [] = [] := by
  rw [List.getD_eq_getElem?_getD, List.getElem?_eq_none (by omega)]
  rfl

/-- Reading a `set` position back. -/
theorem getD_set_self (l : List Line) (i : Nat) (v : Line)
    (h : i < l.length) : (l.set i v).getD i [] = v := by
  rw [List.getD_eq_getElem?_getD, List.getElem?_set_self (by omega)]
  rfl

/-- Reading around a `set` position. -/
theorem getD_set_ne (l : List Line) (i j : Nat) (v : Line) (h : i ≠ j) :
    (l.set i v).getD j [] = l.getD j [] := by
  rw [List.getD_eq_getElem?_getD, List.getElem?_set_ne h,
    ← List.getD_eq_getElem?_getD]

/-- Index-form introduction rule for `findIdx?`. -/
theorem findIdx?_intro_char (p : Line → Bool) (l : List Line) (k : Nat)
    (hk : k < l.length) (hp : p (l.getD k []) = true)
    (hpre : ∀ j, j < k → p (l.getD j []) = false) :
    l.findIdx? p = some k := by
  induction l generalizing k with
  | nil => simp at hk
  | cons a as ih =>
    rw [List.findIdx?_cons]
    cases k with
    | zero =>
      simp only [List.getD_cons_zero] at hp
      rw [if_pos hp]
    | succ k' =>
      have h0 : p a = false := by
        have := hpre 0 (Nat.succ_pos k')
        simpa using this
      rw [if_neg (by rw [h0]; exact Bool.false_ne_true), List.findIdx?_succ]
      have hk' : k' < as.length := by
        simp only [List.length_cons] at hk
        omega
      have hp' : p (as.getD k' []) = true := by
        simpa using hp
      have hpre' : ∀ j, j < k' → p (as.getD j []) = false := by
        intro j hj
        have := hpre (j + 1) (by omega)
        simpa using this
      rw [ih k' hk' hp' hpre']
      rfl

/-- Index-form facts of a successful `findIdx?`. -/
theorem findIdx?_some_char (p : Line → Bool) (l : List Line) (k : Nat)
    (h : l.findIdx? p = some k) :
    k < l.length ∧ p (l.getD k []) = true ∧
      ∀ j, j < k → p (l.getD j []) = false := by
  rcases findIdx?_decomp p l k h with ⟨pre, x, suf, hdec, hlen, hpx, hpre⟩
  subst hdec
  refine ⟨by rw [← hlen]; simp, ?_, ?_⟩
  · have hr := getDL_right pre (x :: suf) 0
    rw [Nat.add_zero] at hr
    rw [← hlen, hr]
    simpa using hpx
  · intro j hj
    rw [← hlen] at hj
    rw [getDL_left pre (x :: suf) j hj]
    exact hpre _ (getD_mem pre j hj)

/-- Index-form introduction rule for a successful range scan. -/
theorem findIdxInRange_some_intro (p : Line → Bool) (l : List Line)
    (s e idx : Nat) (h1 : s ≤ idx) (h2 : idx < e) (h3 : idx < l.length)
    (hp : p (l.getD idx []) = true)
    (hpre : ∀ j, s ≤ j → j < idx → p (l.getD j []) = false) :
    findIdxInRange p l s e = some idx := by
  unfold findIdxInRange
  have hlen1 : idx - s < ((l.drop s).take (e - s)).length := by
    rw [List.length_take, List.length_drop]
    omega
  have hseg : ((l.drop s).take (e - s)).findIdx? p = some (idx - s) := by
    apply findIdx?_intro_char
    · exact hlen1
    · rw [getD_range l s e (idx - s) hlen1,
        show s + (idx - s) = idx by omega]
      exact hp
    · intro j hj
      have hjlen : j < ((l.drop s).take (e - s)).length := by omega
      rw [getD_range l s e j hjlen]
      exact hpre (s + j) (by omega) (by omega)
  rw [hseg]
  dsimp only
  rw [show s + (idx - s) = idx by omega]

/-- Introduction rule for a failing range scan. -/
theorem findIdxInRange_none_intro (p : Line → Bool) (l : List Line)
    (s e : Nat)
    (h : ∀ j, s ≤ j → j < e → j < l.length → p (l.getD j []) = false) :
    findIdxInRange p l s e = none := by
  rcases hr : findIdxInRange p l s e with _ | idx
  · rfl
  · have hb := findIdxInRange_bounds _ _ _ _ _ hr
    have hc := findIdxInRange_some_char _ _ _ _ _ hr
    have hf := h idx hb.1 hb.2.1 hb.2.2
    rw [hc.1] at hf
    cases hf

/-- Slice membership from an index in the range. -/
theorem mem_slice_of_idx (l : List Line) (s e j : Nat) (h1 : s ≤ j)
    (h2 : j < e) (h3 : j < l.length) :
    l.getD j [] ∈ (l.drop s).take (e - s) := by
  have hlen : j - s < ((l.drop s).take (e - s)).length := by
    rw [List.length_take, List.length_drop]
    omega
  have hg := getD_range l s e (j - s) hlen
  rw [show s + (j - s) = j by omega] at hg
  rw [← hg]
  exact getD_mem _ _ hlen

/-- Index extraction from slice membership. -/
theorem idx_of_mem_slice (l : List Line) (s e : Nat) (w : Line)
    (h : w ∈ (l.drop s).take (e - s)) :
    ∃ j, s ≤ j ∧ j < e ∧ j < l.length ∧ l.getD j [] = w := by
  rcases mem_idx _ w h with ⟨k, hk, hget⟩
  have hlen : k < e - s ∧ k < l.length - s := by
    rw [List.length_take, List.length_drop] at hk
    omega
  refine ⟨s + k, by omega, by omega, by omega, ?_⟩
  rw [← getD_range l s e k hk]
  exact hget

/-- Splice reading: left of the replaced region. -/
theorem splice_getD_left (lines mid : List Line) (x y j : Nat)
    (hx : x ≤ lines.length) (hj : j < x) :
    (lines.take x ++ mid ++ lines.drop y).getD j [] = lines.getD j [] := by
  have hA : (lines.take x).length = x := by
    rw [List.length_take]
    omega
  rw [List.append_assoc, getDL_left _ _ j (by rw [hA]; omega),
    getD_take lines x j hj]

/-- Splice reading: inside the replaced region. -/
theorem splice_getD_mid (lines mid : List Line) (x y k : Nat)
    (hx : x ≤ lines.length) (hk : k < mid.length) :
    (lines.take x ++ mid ++ lines.drop y).getD (x + k) [] =
      mid.getD k [] := by
  have hA : (lines.take x).length = x := by
    rw [List.length_take]
    omega
  have hr := getDL_right (lines.take x) (mid ++ lines.drop y) k
  rw [hA] at hr
  rw [List.append_assoc, hr, getDL_left _ _ k hk]

/-- Splice reading: right of the replaced region. -/
theorem splice_getD_right (lines mid : List Line) (x y k : Nat)
    (hx : x ≤ lines.length) :
    (lines.take x ++ mid ++ lines.drop y).getD (x + mid.length + k) [] =
      lines.getD (y + k) [] := by
  have hA : (lines.take x).length = x := by
    rw [List.length_take]
    omega
  have hr := getDL_right (lines.take x) (mid ++ lines.drop y)
    (mid.length + k)
  rw [hA] at hr
  rw [List.append_assoc, show x + mid.length + k = x + (mid.length + k)
      by omega, hr, getDL_right mid (lines.drop y) k, getD_drop]

/-- Length of a splice. -/
theorem splice_length (lines mid : List Line) (x y : Nat)
    (hx : x ≤ lines.length) :
    (lines.take x ++ mid ++ lines.drop y).length =
      x + mid.length + (lines.length - y) := by
  simp only [List.length_append, List.length_take, List.length_drop]
  omega

/-- Reading an `insertAt` result. -/
theorem insertAt_facts (l : List Line) (n : Nat) (x : Line)
    (hn : n ≤ l.length) :
    (insertAt l n x).length = l.length + 1 ∧
    (∀ j, j < n → (insertAt l n x).getD j [] = l.getD j []) ∧
    (insertAt l n x).getD n [] = x ∧
    (∀ j, n < j → (insertAt l n x).getD j [] = l.getD (j - 1) []) := by
  have hA : (l.take n).length = n := by
    rw [List.length_take]
    omega
  unfold insertAt
  refine ⟨?_, ?_, ?_, ?_⟩
  · simp only [List.length_append, List.length_take, List.length_drop,
      List.length_cons, List.length_nil]
    omega
  · intro j hj
    rw [List.append_assoc, getDL_left _ _ j (by rw [hA]; omega),
      getD_take l n j hj]
  · have hr := getDL_right (l.take n) ([x] ++ l.drop n) 0
    rw [hA, Nat.add_zero] at hr
    rw [List.append_assoc, hr]
    rfl
  · intro j hj
    have hr := getDL_right (l.take n) ([x] ++ l.drop n) (j - n)
    rw [hA] at hr
    have hr2 := getDL_right [x] (l.drop n) (j - n - 1)
    rw [show ([x] : List Line).length = 1 from rfl] at hr2
    rw [List.append_assoc, show j = n + (j - n) by omega, hr,
      show j - n = 1 + (j - n - 1) by omega, hr2, getD_drop]
    congr 1
    omega

/-- Introduction rule for `findSectionStart`. -/
theorem findSectionStart_intro (header : Line) (lines : List Line) (i : Nat)
    (hi : i < lines.length)
    (ht : (lower (strip (lines.getD i [])) == header) = true)
    (hpre : ∀ j, j < i →
      (lower (strip (lines.getD j [])) == header) = false) :
    findSectionStart header lines = some i := by
  unfold findSectionStart
  exact findIdx?_intro_char _ _ i hi ht hpre

/-- Computation of the section-end bound from index facts. -/
theorem findNextSection_getD_intro (lines : List Line) (s e : Nat)
    (hs : s ≤ e) (he : e ≤ lines.length)
    (hbody : ∀ j, s ≤ j → j < e → isTopHeader (lines.getD j []) = false)
    (hstop : e = lines.length ∨
      (e < lines.length ∧ isTopHeader (lines.getD e []) = true)) :
    (findNextSection lines s).getD lines.length = e := by
  unfold findNextSection
  rcases hstop with rfl | ⟨hlt, htop⟩
  · rw [findIdxInRange_none_intro _ _ _ _
      (fun j h1 h2 _ => hbody j h1 h2)]
    rfl
  · rw [findIdxInRange_some_intro _ _ _ _ e hs hlt hlt htop
      (fun j h1 h2 => hbody j h1 h2)]
    rfl

/-- Shape of a section as established by the two scans of the patchers. -/
theorem section_shape_of_scans (header : Line) (lines : List Line)
    (i e : Nat) (hm : findSectionStart header lines = some i)
    (he : (findNextSection lines (i + 1)).getD lines.length = e) :
    i < lines.length ∧
    (lower (strip (lines.getD i [])) == header) = true ∧
    (∀ j, j < i → (lower (strip (lines.getD j [])) == header) = false) ∧
    i < e ∧ e ≤ lines.length ∧
    (∀ j, i + 1 ≤ j → j < e → isTopHeader (lines.getD j []) = false) ∧
    (e = lines.length ∨
      (e < lines.length ∧ isTopHeader (lines.getD e []) = true)) := by
  unfold findSectionStart at hm
  have h1 := findIdx?_some_char _ _ _ hm
  unfold findNextSection at he
  rcases hns : findIdxInRange isTopHeader lines (i + 1) lines.length
    with _ | j
  · rw [hns] at he
    simp only [Option.getD_none] at he
    subst he
    have hall := findIdxInRange_none_char _ _ _ _ hns
    exact ⟨h1.1, h1.2.1, h1.2.2, by omega, le_refl _,
      fun j hj1 hj2 => hall j hj1 hj2 hj2, Or.inl rfl⟩
  · rw [hns] at he
    simp only [Option.getD_some] at he
    subst he
    have hb := findIdxInRange_bounds _ _ _ _ _ hns
    have hc := findIdxInRange_some_char _ _ _ _ _ hns
    exact ⟨h1.1, h1.2.1, h1.2.2, by omega, by omega,
      fun j hj1 hj2 => hc.2 j hj1 hj2, Or.inr ⟨hb.2.2, hc.1⟩⟩

/-! ### Idempotence of `ensure_sab_folders` -/

/-- Tests on a freshly rendered `key = value` line: it is no top-level
header, no `[misc]` header, it matches its own key's regex, and its value
reads back as `strip v`. -/
theorem mkKv_line_tests (key v : Line) (hkeq : '=' ∉ key)
    (c : Char) (ks : Line) (hkc : key = c :: ks)
    (hcs : isSpaceChar c = false) (hcb : Char.toLower c ≠ '[') :
    isTopHeader (mkKvLine key v) = false ∧
    (lower (strip (mkKvLine key v)) == lineOf "[misc]") = false ∧
    kvMatch key (mkKvLine key v) = true ∧
    valueAfterEq (mkKvLine key v) = strip v := by
  subst hkc
  have hnl := lineTests_nonbracket [] c ((ks ++ lineOf " = ") ++ v)
    (lineOf "misc]") (by simp) hcs hcb
  exact ⟨hnl.1, hnl.2.2, kvMatch_mkKv_self c ks v hcs,
    valueAfterEq_mkKv _ v hkeq⟩

/-- Scan results determined by a section shape. -/
theorem MiscShape_scan (lines : List Line) (m e : Nat)
    (h : MiscShape lines m e) :
    findSectionStart (lineOf "[misc]") lines = some m ∧
    (findNextSection lines (m + 1)).getD lines.length = e := by
  obtain ⟨h1, h2, h3, h4, h5, h6, h7⟩ := h
  refine ⟨findSectionStart_intro _ lines m h1 h2 h3, ?_⟩
  exact findNextSection_getD_intro lines (m + 1) e (by omega) h5 h6 h7

/-- Conversely, the scans of a present `[misc]` section give its shape. -/
theorem MiscShape_of_scans (lines : List Line) (m e : Nat)
    (hm : findSectionStart (lineOf "[misc]") lines = some m)
    (he : (findNextSection lines (m + 1)).getD lines.length = e) :
    MiscShape lines m e := by
  have h := section_shape_of_scans _ lines m e hm he
  exact ⟨h.1, h.2.1, h.2.2.1, h.2.2.2.1, h.2.2.2.2.1, h.2.2.2.2.2.1,
    h.2.2.2.2.2.2⟩

/-- Second-run step: when the first matching line of the section already
carries the value, `set_kv` leaves the whole state untouched. -/
theorem foldersSetKv_noop (st : FoldersState) (m e : Nat) (key v : Line)
    (hm : st.miscStart = some m)
    (hns : st.nextSection.getD st.lines.length = e)
    (hk : KeyAt st.lines m e key v) :
    foldersSetKv st key v = st := by
  obtain ⟨idx, hb1, hb2, hb3, hmt, hval, hpre⟩ := hk
  refine foldersSetKv_found_eq_eval st key v m idx hm ?_ hval
  rw [hns]
  exact findIdxInRange_some_intro _ _ _ _ idx hb1 hb2 hb3 hmt hpre

/-- One `set_kv` step of the first run: the section shape survives (its
end moves by at most the one inserted line), the key just written is now
the first match of the section with the right value, and the first-match
fact of any key that disagrees with the written key somewhere inside the
common length also survives. -/
theorem foldersSetKv_preserve (st : FoldersState) (m e : Nat) (key v : Line)
    (hm : st.miscStart = some m)
    (hshape : MiscShape st.lines m e)
    (hstale : st.nextSection.getD st.lines.length ≤ e)
    (hv : strip v = v)
    (hkeq : '=' ∉ key)
    (c : Char) (ks : Line) (hkc : key = c :: ks)
    (hcs : isSpaceChar c = false) (hcb : Char.toLower c ≠ '[') :
    ∃ e', e ≤ e' ∧
      (foldersSetKv st key v).miscStart = some m ∧
      (foldersSetKv st key v).nextSection = st.nextSection ∧
      MiscShape (foldersSetKv st key v).lines m e' ∧
      (foldersSetKv st key v).nextSection.getD
          (foldersSetKv st key v).lines.length ≤ e' ∧
      KeyAt (foldersSetKv st key v).lines m e' key v ∧
      (∀ key2 v2 k, k < key.length → k < key2.length →
        (lower key).getD k ' ' ≠ (lower key2).getD k ' ' →
        KeyAt st.lines m e key2 v2 →
        KeyAt (foldersSetKv st key v).lines m e' key2 v2) := by
  obtain ⟨hs1, hs2, hs3, hs4, hs5, hs6, hs7⟩ := hshape
  have hnl := mkKv_line_tests key v hkeq c ks hkc hcs hcb
  have hnlVal : valueAfterEq (mkKvLine key v) = v := by
    rw [hnl.2.2.2, hv]
  rcases hf : findIdxInRange (kvMatch key) st.lines (m + 1)
      (st.nextSection.getD st.lines.length) with _ | idx
  · -- key absent in the scanned range: insert right after the header
    rw [foldersSetKv_insert_eval st key v m hm hf]
    obtain ⟨hLlen, hLlt, hLat, hLgt⟩ :=
      insertAt_facts st.lines (m + 1) (mkKvLine key v) (by omega)
    refine ⟨e + 1, by omega, hm, rfl, ?_, ?_, ?_, ?_⟩
    · refine ⟨?_, ?_, ?_, by omega, ?_, ?_, ?_⟩
      · simp only [hLlen]
        omega
      · rw [hLlt m (by omega)]
        exact hs2
      · intro j hj
        rw [hLlt j (by omega)]
        exact hs3 j hj
      · simp only [hLlen]
        omega
      · intro j hj1 hj2
        by_cases hje : j = m + 1
        · subst hje
          rw [hLat]
          exact hnl.1
        · rw [hLgt j (by omega)]
          exact hs6 (j - 1) (by omega) (by omega)
      · rcases hs7 with h7 | ⟨h7a, h7b⟩
        · left
          simp only [hLlen]
          omega
        · right
          refine ⟨by simp only [hLlen]; omega, ?_⟩
          rw [hLgt (e + 1) (by omega), Nat.add_sub_cancel]
          exact h7b
    · show st.nextSection.getD (insertAt st.lines (m + 1)
        (mkKvLine key v)).length ≤ e + 1
      rcases hnsv : st.nextSection with _ | j
      · rw [hnsv] at hstale
        simp only [Option.getD_none] at hstale ⊢
        simp only [hLlen]
        omega
      · rw [hnsv] at hstale
        simp only [Option.getD_some] at hstale ⊢
        omega
    · refine ⟨m + 1, le_refl _, by omega, by simp only [hLlen]; omega,
        ?_, ?_, ?_⟩
      · rw [hLat]
        exact hnl.2.2.1
      · rw [hLat]
        exact hnlVal
      · intro j hj1 hj2
        exact absurd hj2 (by omega)
    · intro key2 v2 k hk1 hk2 hkne hk2at
      obtain ⟨idx2, ha1, ha2, ha3, ha4, ha5, ha6⟩ := hk2at
      refine ⟨idx2 + 1, by omega, by omega, by simp only [hLlen]; omega,
        ?_, ?_, ?_⟩
      · rw [hLgt (idx2 + 1) (by omega), Nat.add_sub_cancel]
        exact ha4
      · rw [hLgt (idx2 + 1) (by omega), Nat.add_sub_cancel]
        exact ha5
      · intro j hj1 hj2
        by_cases hje : j = m + 1
        · subst hje
          rw [hLat, hkc]
          rw [hkc] at hk1 hkne
          exact kvMatch_mkKv_ne key2 c ks v hcs k hk2 hk1 (Ne.symm hkne)
        · rw [hLgt j (by omega)]
          exact ha6 (j - 1) (by omega) (by omega)
  · have hbd := findIdxInRange_bounds _ _ _ _ _ hf
    have hch := findIdxInRange_some_char _ _ _ _ _ hf
    have hidx2 : idx < e := by omega
    by_cases hveq : valueAfterEq (st.lines.getD idx []) = v
    · -- value already right: the state is returned untouched
      rw [foldersSetKv_found_eq_eval st key v m idx hm hf hveq]
      refine ⟨e, le_refl e, hm, rfl,
        ⟨hs1, hs2, hs3, hs4, hs5, hs6, hs7⟩, hstale, ?_, ?_⟩
      · exact ⟨idx, hbd.1, hidx2, hbd.2.2, hch.1, hveq,
          fun j h1 h2 => hch.2 j h1 h2⟩
      · intro key2 v2 k hk1 hk2 hkne hk2at
        exact hk2at
    · -- value differs: the found line is rewritten in place
      rw [foldersSetKv_found_ne_eval st key v m idx hm hf hveq]
      have hidx3 : idx < st.lines.length := hbd.2.2
      refine ⟨e, le_refl e, hm, rfl, ?_, ?_, ?_, ?_⟩
      · refine ⟨by rw [List.length_set]; exact hs1, ?_, ?_, hs4,
          by rw [List.length_set]; exact hs5, ?_, ?_⟩
        · rw [getD_set_ne _ _ _ _ (by omega : idx ≠ m)]
          exact hs2
        · intro j hj
          rw [getD_set_ne _ _ _ _ (by omega : idx ≠ j)]
          exact hs3 j hj
        · intro j hj1 hj2
          by_cases hje : j = idx
          · subst hje
            rw [getD_set_self _ _ _ hidx3]
            exact hnl.1
          · rw [getD_set_ne _ _ _ _ (fun hq => hje hq.symm)]
            exact hs6 j hj1 hj2
        · rcases hs7 with h7 | ⟨h7a, h7b⟩
          · left
            rw [List.length_set]
            exact h7
          · right
            refine ⟨by rw [List.length_set]; exact h7a, ?_⟩
            rw [getD_set_ne _ _ _ _ (by omega : idx ≠ e)]
            exact h7b
      · show st.nextSection.getD
          (st.lines.set idx (mkKvLine key v)).length ≤ e
        rw [List.length_set]
        exact hstale
      · refine ⟨idx, hbd.1, hidx2, by rw [List.length_set]; exact hidx3,
          ?_, ?_, ?_⟩
        · rw [getD_set_self _ _ _ hidx3]
          exact hnl.2.2.1
        · rw [getD_set_self _ _ _ hidx3]
          exact hnlVal
        · intro j h1 h2
          rw [getD_set_ne _ _ _ _ (by omega : idx ≠ j)]
          exact hch.2 j h1 h2
      · intro key2 v2 k hk1 hk2 hkne hk2at
        obtain ⟨idx2, ha1, ha2, ha3, ha4, ha5, ha6⟩ := hk2at
        have hne_idx : idx ≠ idx2 := by
          intro hcontra
          have hx := kvMatch_exclusive key2 key (st.lines.getD idx2 []) k
            hk2 hk1 (Ne.symm hkne) ha4
          rw [← hcontra] at hx
          rw [hch.1] at hx
          cases hx
        refine ⟨idx2, ha1, ha2, by rw [List.length_set]; exact ha3,
          ?_, ?_, ?_⟩
        · rw [getD_set_ne _ _ _ _ hne_idx]
          exact ha4
        · rw [getD_set_ne _ _ _ _ hne_idx]
          exact ha5
        · intro j h1 h2
          by_cases hje : j = idx
          · subst hje
            rw [getD_set_self _ _ _ hidx3, hkc]
            rw [hkc] at hk1 hkne
            exact kvMatch_mkKv_ne key2 c ks v hcs k hk2 hk1 (Ne.symm hkne)
          · rw [getD_set_ne _ _ _ _ (fun hq => hje hq.symm)]
            exact ha6 j h1 h2

/-- First `set_kv` step on a document with no `[misc]` section: the fresh
section appended at the end has the canonical shape, with the new key as
its only body line. -/
theorem foldersSetKv_none_shape (st : FoldersState) (key v : Line)
    (hm : st.miscStart = none)
    (hsec : findSectionStart (lineOf "[misc]") st.lines = none)
    (hv : strip v = v) (hkeq : '=' ∉ key)
    (c : Char) (ks : Line) (hkc : key = c :: ks)
    (hcs : isSpaceChar c = false) (hcb : Char.toLower c ≠ '[') :
    (foldersSetKv st key v).miscStart = some (st.lines.length + 1) ∧
    (foldersSetKv st key v).nextSection = st.nextSection ∧
    (foldersSetKv st key v).lines.length = st.lines.length + 3 ∧
    MiscShape (foldersSetKv st key v).lines (st.lines.length + 1)
      (st.lines.length + 3) ∧
    KeyAt (foldersSetKv st key v).lines (st.lines.length + 1)
      (st.lines.length + 3) key v := by
  have hnl := mkKv_line_tests key v hkeq c ks hkc hcs hcb
  have hnlVal : valueAfterEq (mkKvLine key v) = v := by
    rw [hnl.2.2.2, hv]
  have hall : ∀ x ∈ st.lines,
      (lower (strip x) == lineOf "[misc]") = false := by
    unfold findSectionStart at hsec
    exact fun x hx => List.findIdx?_eq_none_iff.mp hsec x hx
  rw [foldersSetKv_none_eval st key v hm]
  dsimp only
  have hlen : (st.lines ++ [[], lineOf "[misc]", mkKvLine key v]).length =
      st.lines.length + 3 := by
    simp
  have hsub : (st.lines ++ [[], lineOf "[misc]", mkKvLine key v]).length - 2 =
      st.lines.length + 1 := by
    rw [hlen]
    omega
  have g0 : (st.lines ++ [[], lineOf "[misc]", mkKvLine key v]).getD
      st.lines.length [] = [] := by
    have hr := getDL_right st.lines [[], lineOf "[misc]", mkKvLine key v] 0
    rw [Nat.add_zero] at hr
    rw [hr]
    rfl
  have g1 : (st.lines ++ [[], lineOf "[misc]", mkKvLine key v]).getD
      (st.lines.length + 1) [] = lineOf "[misc]" := by
    rw [getDL_right st.lines [[], lineOf "[misc]", mkKvLine key v] 1]
    rfl
  have g2 : (st.lines ++ [[], lineOf "[misc]", mkKvLine key v]).getD
      (st.lines.length + 2) [] = mkKvLine key v := by
    rw [getDL_right st.lines [[], lineOf "[misc]", mkKvLine key v] 2]
    rfl
  refine ⟨by rw [hsub], rfl, hlen, ?_, ?_⟩
  · refine ⟨by rw [hlen]; omega, by rw [g1]; decide, ?_, by omega,
      by rw [hlen], ?_, by left; rw [hlen]⟩
    · intro j hj
      by_cases hje : j = st.lines.length
      · subst hje
        rw [g0]
        decide
      · rw [getDL_left st.lines _ j (by omega)]
        exact hall _ (getD_mem st.lines j (by omega))
    · intro j hj1 hj2
      have hje : j = st.lines.length + 2 := by omega
      subst hje
      rw [g2]
      exact hnl.1
  · refine ⟨st.lines.length + 2, by omega, by omega, by rw [hlen]; omega,
      by rw [g2]; exact hnl.2.2.1, by rw [g2]; exact hnlVal, ?_⟩
    intro j hj1 hj2
    exact absurd hj2 (by omega)

/-- Postcondition of the first `ensure_sab_folders` run: the output has a
well-shaped `[misc]` section whose first `download_dir`, `complete_dir`
and `dir_base` matches carry exactly the requested values. -/
theorem ensureSabFolders_post (lines : List Line)
    (tempDir completeDir : Line) (ht : strip tempDir = tempDir)
    (hcd : strip completeDir = completeDir) :
    ∃ m e, MiscShape (ensureSabFolders lines tempDir completeDir).1 m e ∧
      KeyAt (ensureSabFolders lines tempDir completeDir).1 m e
        (lineOf "download_dir") tempDir ∧
      KeyAt (ensureSabFolders lines tempDir completeDir).1 m e
        (lineOf "complete_dir") completeDir ∧
      KeyAt (ensureSabFolders lines tempDir completeDir).1 m e
        (lineOf "dir_base") [] := by
  rcases hm0 : findSectionStart (lineOf "[misc]") lines with _ | i
  · rw [ensureSabFolders_pipeline, hm0]
    dsimp only
    rcases foldersSetKv_none_shape ⟨lines, false, none, none⟩
        (lineOf "download_dir") tempDir rfl hm0 ht (by decide)
        'd' (lineOf "ownload_dir") rfl (by decide) (by decide) with
      ⟨h1m, h1ns, h1len, h1sh, h1k⟩
    have hstale1 : (foldersSetKv ⟨lines, false, none, none⟩
          (lineOf "download_dir") tempDir).nextSection.getD
        (foldersSetKv ⟨lines, false, none, none⟩
          (lineOf "download_dir") tempDir).lines.length ≤
        lines.length + 3 := by
      rw [h1ns]
      show (none : Option Nat).getD _ ≤ lines.length + 3
      simp only [Option.getD_none, h1len]
      exact le_refl _
    rcases foldersSetKv_preserve _ (lines.length + 1) (lines.length + 3)
        (lineOf "complete_dir") completeDir h1m h1sh hstale1 hcd (by decide)
        'c' (lineOf "omplete_dir") rfl (by decide) (by decide) with
      ⟨e2, he2, h2m, h2ns, h2sh, h2stale, h2k, h2pres⟩
    have h2kdl := h2pres (lineOf "download_dir") tempDir 0 (by decide)
      (by decide) (by decide) h1k
    rcases foldersSetKv_preserve _ (lines.length + 1) e2
        (lineOf "dir_base") [] h2m h2sh h2stale rfl (by decide)
        'd' (lineOf "ir_base") rfl (by decide) (by decide) with
      ⟨e3, he3, h3m, h3ns, h3sh, h3stale, h3k, h3pres⟩
    have h3kdl := h3pres (lineOf "download_dir") tempDir 1 (by decide)
      (by decide) (by decide) h2kdl
    have h3kcd := h3pres (lineOf "complete_dir") completeDir 0 (by decide)
      (by decide) (by decide) h2k
    exact ⟨lines.length + 1, e3, h3sh, h3kdl, h3kcd, h3k⟩
  · rw [ensureSabFolders_pipeline, hm0]
    dsimp only
    have h0sh : MiscShape lines i
        ((findNextSection lines (i + 1)).getD lines.length) :=
      MiscShape_of_scans lines i _ hm0 rfl
    rcases foldersSetKv_preserve ⟨lines, false, some i,
        findNextSection lines (i + 1)⟩ i
        ((findNextSection lines (i + 1)).getD lines.length)
        (lineOf "download_dir") tempDir rfl h0sh (le_refl _) ht (by decide)
        'd' (lineOf "ownload_dir") rfl (by decide) (by decide) with
      ⟨e1, he1, h1m, h1ns, h1sh, h1stale, h1k, h1pres⟩
    rcases foldersSetKv_preserve _ i e1
        (lineOf "complete_dir") completeDir h1m h1sh h1stale hcd (by decide)
        'c' (lineOf "omplete_dir") rfl (by decide) (by decide) with
      ⟨e2, he2, h2m, h2ns, h2sh, h2stale, h2k, h2pres⟩
    have h2kdl := h2pres (lineOf "download_dir") tempDir 0 (by decide)
      (by decide) (by decide) h1k
    rcases foldersSetKv_preserve _ i e2
        (lineOf "dir_base") [] h2m h2sh h2stale rfl (by decide)
        'd' (lineOf "ir_base") rfl (by decide) (by decide) with
      ⟨e3, he3, h3m, h3ns, h3sh, h3stale, h3k, h3pres⟩
    have h3kdl := h3pres (lineOf "download_dir") tempDir 1 (by decide)
      (by decide) (by decide) h2kdl
    have h3kcd := h3pres (lineOf "complete_dir") completeDir 0 (by decide)
      (by decide) (by decide) h2k
    exact ⟨i, e3, h3sh, h3kdl, h3kcd, h3k⟩

/-- Second-run evaluation: on a document satisfying the postcondition, all
three `set_kv` steps take the no-change branch and the run reports
`false`. -/
theorem ensureSabFolders_noop (lines1 : List Line) (m e : Nat)
    (t c : Line) (hsh : MiscShape lines1 m e)
    (h1 : KeyAt lines1 m e (lineOf "download_dir") t)
    (h2 : KeyAt lines1 m e (lineOf "complete_dir") c)
    (h3 : KeyAt lines1 m e (lineOf "dir_base") []) :
    ensureSabFolders lines1 t c = (lines1, false) := by
  have hscan := MiscShape_scan lines1 m e hsh
  rw [ensureSabFolders_pipeline, hscan.1]
  dsimp only
  have hst1 := foldersSetKv_noop ⟨lines1, false, some m,
    findNextSection lines1 (m + 1)⟩ m e (lineOf "download_dir") t rfl
    hscan.2 h1
  rw [hst1]
  have hst2 := foldersSetKv_noop ⟨lines1, false, some m,
    findNextSection lines1 (m + 1)⟩ m e (lineOf "complete_dir") c rfl
    hscan.2 h2
  rw [hst2]
  have hst3 := foldersSetKv_noop ⟨lines1, false, some m,
    findNextSection lines1 (m + 1)⟩ m e (lineOf "dir_base") [] rfl
    hscan.2 h3
  rw [hst3]

/-- Idempotence of `ensure_sab_folders` for stripped argument values. -/
theorem foldersIdem (lines : List Line) (tempDir completeDir : Line)
    (ht : strip tempDir = tempDir) (hcd : strip completeDir = completeDir) :
    ensureSabFolders (ensureSabFolders lines tempDir completeDir).1 tempDir
        completeDir =
      ((ensureSabFolders lines tempDir completeDir).1, false) := by
  rcases ensureSabFolders_post lines tempDir completeDir ht hcd with
    ⟨m, e, hsh, hk1, hk2, hk3⟩
  exact ensureSabFolders_noop _ m e tempDir completeDir hsh hk1 hk2 hk3

/-! ### Idempotence of `ensure_sab_server` -/

/-- Strip of a rendered `  [[x]]` header line. -/
theorem strip_bracket2 (x : Line) :
    strip (lineOf "  [[" ++ x ++ lineOf "]]") =
      lineOf "[[" ++ x ++ lineOf "]]" := by
  unfold strip
  have h1 : stripLeft (lineOf "  [[" ++ x ++ lineOf "]]") =
      lineOf "[[" ++ x ++ lineOf "]]" := by
    have he : lineOf "  [[" ++ x ++ lineOf "]]" =
        [' ', ' '] ++ '[' :: ('[' :: (x ++ lineOf "]]")) := rfl
    have he2 : lineOf "[[" ++ x ++ lineOf "]]" =
        '[' :: ('[' :: (x ++ lineOf "]]")) := rfl
    rw [he, he2]
    exact stripLeft_spaces [' ', ' '] '[' _ (by decide) (by decide)
  have h2 : stripRight (lineOf "[[" ++ x ++ lineOf "]]") =
      lineOf "[[" ++ x ++ lineOf "]]" := by
    have he : lineOf "[[" ++ x ++ lineOf "]]" =
        (lineOf "[[" ++ x ++ [']']) ++ [']'] := by
      simp [List.append_assoc]
      rfl
    rw [he]
    exact stripRight_concat_nonws _ ']' (by decide)
  rw [h1, h2]

/-- Bracket tests of a rendered `  [[x]]` header line. -/
theorem bracket2_start_end (x : Line) :
    lineStartsWith (lineOf "[[")
      (strip (lineOf "  [[" ++ x ++ lineOf "]]")) = true ∧
    lineEndsWith (lineOf "]]")
      (strip (lineOf "  [[" ++ x ++ lineOf "]]")) = true := by
  rw [strip_bracket2]
  constructor
  · show (lineOf "[[").isPrefixOf (lineOf "[[" ++ x ++ lineOf "]]") = true
    have he : lineOf "[[" ++ x ++ lineOf "]]" =
        lineOf "[[" ++ (x ++ lineOf "]]") := rfl
    rw [he]
    exact isPrefixOf_append_self _ _
  · show ((lineOf "]]").reverse).isPrefixOf
      ((lineOf "[[" ++ x ++ lineOf "]]").reverse) = true
    rw [List.reverse_append]
    exact isPrefixOf_append_self _ _

/-- A rendered `  [[x]]` header is a sub-block header and never a
top-level section header. -/
theorem bracket2_tests (x : Line) :
    isTopHeader (lineOf "  [[" ++ x ++ lineOf "]]") = false ∧
    isAnyBlockHeader (lineOf "  [[" ++ x ++ lineOf "]]") = true := by
  have hse := bracket2_start_end x
  constructor
  · unfold isTopHeader
    dsimp only
    rw [hse.1]
    simp
  · unfold isAnyBlockHeader
    dsimp only
    rw [hse.1, hse.2]
    rfl

/-- Mid extraction of a rendered `  [[x]]` header. -/
theorem bracket2_mid (x : Line) :
    ((strip (lineOf "  [[" ++ x ++ lineOf "]]")).drop 2).take
      ((strip (lineOf "  [[" ++ x ++ lineOf "]]")).length - 4) = x := by
  rw [strip_bracket2]
  have he : lineOf "[[" ++ x ++ lineOf "]]" =
      '[' :: ('[' :: (x ++ [']', ']'])) := rfl
  rw [he]
  have hlen : (('[' :: ('[' :: (x ++ ([']', ']'] : Line)))) : Line).length - 4 =
      x.length := by
    simp [List.length_append]
  rw [hlen]
  show (x ++ [']', ']']).take x.length = x
  exact List.take_left _ _

/-- Tests of the rendered header line of `ensure_sab_server.block_for`. -/
theorem serverHeader_tests (name : Line) (hname : strip name = name) :
    isTopHeader (lineOf "  [[" ++ strip name ++ lineOf "]]") = false ∧
    isAnyBlockHeader (lineOf "  [[" ++ strip name ++ lineOf "]]") = true ∧
    isBlockHeaderFor name (lineOf "  [[" ++ strip name ++ lineOf "]]") =
      true := by
  rw [hname]
  refine ⟨(bracket2_tests name).1, (bracket2_tests name).2, ?_⟩
  unfold isBlockHeaderFor
  dsimp only
  rw [(bracket2_start_end name).1, (bracket2_start_end name).2,
    bracket2_mid name, hname]
  simp

/-- Tests of a rendered `    key = value` body line. -/
theorem keyline_tests (c : Char) (rest : Line) (hc : isSpaceChar c = false)
    (hbr : Char.toLower c ≠ '[') :
    isTopHeader ([' ', ' ', ' ', ' '] ++ c :: rest) = false ∧
    isAnyBlockHeader ([' ', ' ', ' ', ' '] ++ c :: rest) = false := by
  have h := lineTests_nonbracket [' ', ' ', ' ', ' '] c rest [] (by decide)
    hc hbr
  exact ⟨h.1, h.2.1⟩

/-- Every body line of a rendered server block fails both header tests. -/
theorem serverBody_tests (name host : Line) (port ssl : Int)
    (username password : Line) (connections priority : Int) :
    ∀ k, 1 ≤ k → k < 14 →
      isTopHeader ((serverBlockFor name host port ssl username password
        connections priority).getD k []) = false ∧
      isAnyBlockHeader ((serverBlockFor name host port ssl username password
        connections priority).getD k []) = false := by
  intro k h1 h2
  interval_cases k
  · exact keyline_tests 'h' (lineOf "ost = " ++ host) (by decide) (by decide)
  · exact keyline_tests 'p' (lineOf "ort = " ++ intLine port) (by decide)
      (by decide)
  · exact keyline_tests 'u' (lineOf "sername = " ++ username) (by decide)
      (by decide)
  · exact keyline_tests 'p' (lineOf "assword = " ++ password) (by decide)
      (by decide)
  · exact keyline_tests 'c' (lineOf "onnections = " ++ intLine connections)
      (by decide) (by decide)
  · exact keyline_tests 's' (lineOf "sl = " ++ intLine ssl) (by decide)
      (by decide)
  · exact keyline_tests 'e' (lineOf "nable = 1") (by decide) (by decide)
  · exact keyline_tests 'p' (lineOf "riority = " ++ intLine priority)
      (by decide) (by decide)
  · exact keyline_tests 'r' (lineOf "etention = 0") (by decide) (by decide)
  · exact keyline_tests 'o' (lineOf "ptional = 0") (by decide) (by decide)
  · exact keyline_tests 's' (lineOf "end_group = 0") (by decide) (by decide)
  · exact keyline_tests 'f' (lineOf "etch_by_msgid = 0") (by decide)
      (by decide)
  · exact keyline_tests 's' (lineOf "erver_usenet_only = 1") (by decide)
      (by decide)

/-- A failed block lookup means no matching header in the range. -/
theorem findBlockIndices_none_char (lines : List Line) (start e : Nat)
    (nm : Line) (h : findBlockIndices lines start e nm = none) :
    ∀ j, start + 1 ≤ j → j < e → j < lines.length →
      isBlockHeaderFor nm (lines.getD j []) = false := by
  unfold findBlockIndices at h
  rcases h1 : findIdxInRange (isBlockHeaderFor nm) lines (start + 1) e
    with _ | j
  · exact findIdxInRange_none_char _ _ _ _ h1
  · rw [h1] at h
    dsimp only at h
    rcases h2 : findIdxInRange isAnyBlockHeader lines (j + 1) e with _ | k
    · rw [h2] at h
      cases h
    · rw [h2] at h
      cases h

/-- Introduction rule for the block lookup: a matching header at `s`
followed by 13 non-header lines spans exactly `(s, s + 14)`. -/
theorem findBlockIndices_at (lines1 : List Line) (i s e1 : Nat) (nm : Line)
    (hi : i + 1 ≤ s) (hs : s < lines1.length) (hse : s + 14 ≤ e1)
    (he1 : e1 ≤ lines1.length)
    (hhdr : isBlockHeaderFor nm (lines1.getD s []) = true)
    (hpre : ∀ j, i + 1 ≤ j → j < s →
      isBlockHeaderFor nm (lines1.getD j []) = false)
    (hbody : ∀ j, s + 1 ≤ j → j < s + 14 →
      isAnyBlockHeader (lines1.getD j []) = false)
    (hstop : e1 = s + 14 ∨ (s + 14 < e1 ∧
      isAnyBlockHeader (lines1.getD (s + 14) []) = true)) :
    findBlockIndices lines1 i e1 nm = some (s, s + 14) := by
  unfold findBlockIndices
  rw [findIdxInRange_some_intro _ _ _ _ s hi (by omega) hs hhdr hpre]
  dsimp only
  rcases hstop with heq | ⟨hlt, htop⟩
  · subst heq
    rw [findIdxInRange_none_intro _ _ _ _
      (fun j hj1 hj2 _ => hbody j hj1 hj2)]
  · rw [findIdxInRange_some_intro _ _ _ _ (s + 14) (by omega) hlt
      (by omega) htop (fun j hj1 hj2 => hbody j hj1 hj2)]

/-- Slice extraction at the spliced-in region. -/
theorem splice_slice (lines mid : List Line) (x y : Nat)
    (hx : x ≤ lines.length) :
    ((lines.take x ++ mid ++ lines.drop y).drop x).take mid.length =
      mid := by
  set A := lines.take x
  have hA : A.length = x := by
    rw [List.length_take]
    omega
  rw [List.append_assoc, ← hA, List.drop_left, List.take_left]

/-- Shared second-run evaluation for `ensure_sab_server`: when the fresh
block is found verbatim at `(s, s + 14)`, the run reports `false`. -/
theorem ensureSabServer_noop (lines1 : List Line) (name host : Line)
    (port ssl : Int) (username password : Line)
    (connections priority : Int) (i s e1 : Nat) (hhost : ¬ host = [])
    (hsec : findSectionStart (lineOf "[servers]") lines1 = some i)
    (hnext : (findNextSection lines1 (i + 1)).getD lines1.length = e1)
    (hfb : findBlockIndices lines1 i e1 name = some (s, s + 14))
    (hcur : (lines1.drop s).take (s + 14 - s) =
      serverBlockFor name host port ssl username password connections
        priority) :
    ensureSabServer lines1 name host port ssl username password connections
        priority = (lines1, false) := by
  rw [ensureSabServer_replace_eval lines1 name host port ssl username
    password connections priority i s (s + 14) hhost hsec
    (by rw [hnext]; exact hfb)]
  rw [if_pos hcur]

/-- Second run after the section-creating branch: the freshly appended
`[servers]` section and block are found verbatim, so nothing changes. -/
theorem serverRun2_none (lines : List Line) (name host : Line)
    (port ssl : Int) (username password : Line)
    (connections priority : Int) (hhost : host ≠ [])
    (hname : strip name = name)
    (hm : findSectionStart (lineOf "[servers]") lines = none) :
    ensureSabServer (lines ++ [[], lineOf "[servers]"] ++
        serverBlockFor name host port ssl username password connections
          priority) name host port ssl username password connections
        priority =
      (lines ++ [[], lineOf "[servers]"] ++
        serverBlockFor name host port ssl username password connections
          priority, false) := by
  set sb := serverBlockFor name host port ssl username password connections
    priority with hsbdef
  have hsblen : sb.length = 14 := rfl
  have hsb0 : sb.getD 0 [] = lineOf "  [[" ++ strip name ++ lineOf "]]" :=
    rfl
  set A := lines ++ [[], lineOf "[servers]"] with hAdef
  have hA : A.length = lines.length + 2 := by
    rw [hAdef]
    simp
  have hlen1 : (A ++ sb).length = lines.length + 16 := by
    rw [List.length_append, hA, hsblen]
  have hall : ∀ x ∈ lines,
      (lower (strip x) == lineOf "[servers]") = false := by
    have hm2 := hm
    unfold findSectionStart at hm2
    exact List.findIdx?_eq_none_iff.mp hm2
  have gL : ∀ j, j < lines.length →
      (A ++ sb).getD j [] = lines.getD j [] := by
    intro j hj
    rw [getDL_left A sb j (by omega), hAdef,
      getDL_left lines [[], lineOf "[servers]"] j hj]
  have g0 : (A ++ sb).getD lines.length [] = [] := by
    rw [getDL_left A sb lines.length (by omega), hAdef]
    have hr := getDL_right lines [[], lineOf "[servers]"] 0
    rw [Nat.add_zero] at hr
    rw [hr]
    rfl
  have g1 : (A ++ sb).getD (lines.length + 1) [] = lineOf "[servers]" := by
    rw [getDL_left A sb (lines.length + 1) (by omega), hAdef,
      getDL_right lines [[], lineOf "[servers]"] 1]
    rfl
  have gM : ∀ k, (A ++ sb).getD (lines.length + 2 + k) [] =
      sb.getD k [] := by
    intro k
    have hr := getDL_right A sb k
    rw [hA] at hr
    exact hr
  have hhdrT := serverHeader_tests name hname
  have hbodyT := serverBody_tests name host port ssl username password
    connections priority
  have hsec1 : findSectionStart (lineOf "[servers]") (A ++ sb) =
      some (lines.length + 1) := by
    apply findSectionStart_intro
    · omega
    · rw [g1]
      decide
    · intro j hj
      by_cases hje : j = lines.length
      · subst hje
        rw [g0]
        decide
      · rw [gL j (by omega)]
        exact hall _ (getD_mem lines j (by omega))
  have hnext1 : (findNextSection (A ++ sb) (lines.length + 1 + 1)).getD
      (A ++ sb).length = lines.length + 16 := by
    apply findNextSection_getD_intro
    · omega
    · omega
    · intro j hj1 hj2
      have hk : j - (lines.length + 2) < 14 := by omega
      rw [show j = lines.length + 2 + (j - (lines.length + 2)) by omega, gM]
      by_cases hk0 : j - (lines.length + 2) = 0
      · rw [hk0, hsb0]
        exact hhdrT.1
      · exact (hbodyT _ (by omega) hk).1
    · left
      omega
  have hfb1 : findBlockIndices (A ++ sb) (lines.length + 1)
      (lines.length + 16) name =
      some (lines.length + 2, lines.length + 2 + 14) := by
    apply findBlockIndices_at
    · omega
    · omega
    · omega
    · omega
    · have hr := gM 0
      rw [Nat.add_zero] at hr
      rw [hr, hsb0]
      exact hhdrT.2.2
    · intro j hj1 hj2
      exact absurd hj2 (by omega)
    · intro j hj1 hj2
      have hk : j - (lines.length + 2) < 14 := by omega
      rw [show j = lines.length + 2 + (j - (lines.length + 2)) by omega, gM]
      exact (hbodyT _ (by omega) hk).2
    · left
      omega
  have hcur : ((A ++ sb).drop (lines.length + 2)).take
      (lines.length + 2 + 14 - (lines.length + 2)) = sb := by
    rw [show lines.length + 2 + 14 - (lines.length + 2) = 14 by omega,
      ← hsblen, ← hA, List.drop_left, List.take_length]
  exact ensureSabServer_noop (A ++ sb) name host port ssl username password
    connections priority (lines.length + 1) (lines.length + 2)
    (lines.length + 16) hhost hsec1 hnext1 hfb1 hcur

/-- Second run after the block-appending branch: the block spliced in at
the end of the `[servers]` section is found verbatim, so nothing
changes. -/
theorem serverRun2_append (lines : List Line) (name host : Line)
    (port ssl : Int) (username password : Line)
    (connections priority : Int) (i e0 : Nat) (hhost : host ≠ [])
    (hname : strip name = name)
    (hm : findSectionStart (lineOf "[servers]") lines = some i)
    (he0 : (findNextSection lines (i + 1)).getD lines.length = e0)
    (hfb : findBlockIndices lines i e0 name = none) :
    ensureSabServer (lines.take e0 ++ serverBlockFor name host port ssl
        username password connections priority ++ lines.drop e0) name host
        port ssl username password connections priority =
      (lines.take e0 ++ serverBlockFor name host port ssl username password
        connections priority ++ lines.drop e0, false) := by
  set sb := serverBlockFor name host port ssl username password connections
    priority with hsbdef
  have hsblen : sb.length = 14 := rfl
  have hsb0 : sb.getD 0 [] = lineOf "  [[" ++ strip name ++ lineOf "]]" :=
    rfl
  obtain ⟨hi_len, htest, hpre0, hie0, he0len, hbody0, hstop0⟩ :=
    section_shape_of_scans (lineOf "[servers]") lines i e0 hm he0
  have hnfb := findBlockIndices_none_char lines i e0 name hfb
  have hlen1 : (lines.take e0 ++ sb ++ lines.drop e0).length =
      e0 + 14 + (lines.length - e0) := by
    rw [splice_length lines sb e0 e0 he0len, hsblen]
  have gL : ∀ j, j < e0 →
      (lines.take e0 ++ sb ++ lines.drop e0).getD j [] =
        lines.getD j [] :=
    fun j hj => splice_getD_left lines sb e0 e0 j he0len hj
  have gM : ∀ k, k < 14 →
      (lines.take e0 ++ sb ++ lines.drop e0).getD (e0 + k) [] =
        sb.getD k [] :=
    fun k hk => splice_getD_mid lines sb e0 e0 k he0len (by omega)
  have gR : ∀ k, (lines.take e0 ++ sb ++ lines.drop e0).getD
      (e0 + 14 + k) [] = lines.getD (e0 + k) [] := by
    intro k
    have hr := splice_getD_right lines sb e0 e0 k he0len
    rw [hsblen] at hr
    exact hr
  have hhdrT := serverHeader_tests name hname
  have hbodyT := serverBody_tests name host port ssl username password
    connections priority
  have hsec1 : findSectionStart (lineOf "[servers]")
      (lines.take e0 ++ sb ++ lines.drop e0) = some i := by
    apply findSectionStart_intro
    · omega
    · rw [gL i hie0]
      exact htest
    · intro j hj
      rw [gL j (by omega)]
      exact hpre0 j hj
  have hnext1 : (findNextSection (lines.take e0 ++ sb ++ lines.drop e0)
      (i + 1)).getD (lines.take e0 ++ sb ++ lines.drop e0).length =
      e0 + 14 := by
    apply findNextSection_getD_intro
    · omega
    · omega
    · intro j hj1 hj2
      by_cases hje : j < e0
      · rw [gL j hje]
        exact hbody0 j hj1 hje
      · have hk : j - e0 < 14 := by omega
        rw [show j = e0 + (j - e0) by omega, gM _ hk]
        by_cases hk0 : j - e0 = 0
        · rw [hk0, hsb0]
          exact hhdrT.1
        · exact (hbodyT _ (by omega) hk).1
    · rcases hstop0 with h7 | ⟨h7a, h7b⟩
      · left
        omega
      · right
        refine ⟨by omega, ?_⟩
        have hr := gR 0
        simp only [Nat.add_zero] at hr
        rw [hr]
        exact h7b
  have hfb1 : findBlockIndices (lines.take e0 ++ sb ++ lines.drop e0) i
      (e0 + 14) name = some (e0, e0 + 14) := by
    apply findBlockIndices_at
    · omega
    · omega
    · omega
    · omega
    · have hr := gM 0 (by omega)
      rw [Nat.add_zero] at hr
      rw [hr, hsb0]
      exact hhdrT.2.2
    · intro j hj1 hj2
      rw [gL j hj2]
      exact hnfb j hj1 hj2 (by omega)
    · intro j hj1 hj2
      have hk : j - e0 < 14 := by omega
      rw [show j = e0 + (j - e0) by omega, gM _ hk]
      exact (hbodyT _ (by omega) hk).2
    · left
      rfl
  have hcur : ((lines.take e0 ++ sb ++ lines.drop e0).drop e0).take
      (e0 + 14 - e0) = sb := by
    rw [show e0 + 14 - e0 = 14 by omega, ← hsblen]
    exact splice_slice lines sb e0 e0 he0len
  exact ensureSabServer_noop (lines.take e0 ++ sb ++ lines.drop e0) name
    host port ssl username password connections priority i e0 (e0 + 14)
    hhost hsec1 hnext1 hfb1 hcur

/-- Second run after the block-replacing branch: the block freshly written
over the span `(s, eIdx)` is found verbatim, so nothing changes. -/
theorem serverRun2_replace (lines : List Line) (name host : Line)
    (port ssl : Int) (username password : Line)
    (connections priority : Int) (i e0 s eIdx : Nat) (hhost : host ≠ [])
    (hname : strip name = name)
    (hm : findSectionStart (lineOf "[servers]") lines = some i)
    (he0 : (findNextSection lines (i + 1)).getD lines.length = e0)
    (hfb : findBlockIndices lines i e0 name = some (s, eIdx)) :
    ensureSabServer (lines.take s ++ serverBlockFor name host port ssl
        username password connections priority ++ lines.drop eIdx) name
        host port ssl username password connections priority =
      (lines.take s ++ serverBlockFor name host port ssl username password
        connections priority ++ lines.drop eIdx, false) := by
  set sb := serverBlockFor name host port ssl username password connections
    priority with hsbdef
  have hsblen : sb.length = 14 := rfl
  have hsb0 : sb.getD 0 [] = lineOf "  [[" ++ strip name ++ lineOf "]]" :=
    rfl
  obtain ⟨hi_len, htest, hpre0, hie0, he0len, hbody0, hstop0⟩ :=
    section_shape_of_scans (lineOf "[servers]") lines i e0 hm he0
  obtain ⟨hc1, hc2, hc3, hc4, hc5, hc6, hc7, hc8, hc9⟩ :=
    findBlockIndices_char lines i e0 name s eIdx hfb
  have hsx : s ≤ lines.length := by omega
  have hlen1 : (lines.take s ++ sb ++ lines.drop eIdx).length =
      s + 14 + (lines.length - eIdx) := by
    rw [splice_length lines sb s eIdx hsx, hsblen]
  have gL : ∀ j, j < s →
      (lines.take s ++ sb ++ lines.drop eIdx).getD j [] =
        lines.getD j [] :=
    fun j hj => splice_getD_left lines sb s eIdx j hsx hj
  have gM : ∀ k, k < 14 →
      (lines.take s ++ sb ++ lines.drop eIdx).getD (s + k) [] =
        sb.getD k [] :=
    fun k hk => splice_getD_mid lines sb s eIdx k hsx (by omega)
  have gR : ∀ k, (lines.take s ++ sb ++ lines.drop eIdx).getD
      (s + 14 + k) [] = lines.getD (eIdx + k) [] := by
    intro k
    have hr := splice_getD_right lines sb s eIdx k hsx
    rw [hsblen] at hr
    exact hr
  have hhdrT := serverHeader_tests name hname
  have hbodyT := serverBody_tests name host port ssl username password
    connections priority
  have hsec1 : findSectionStart (lineOf "[servers]")
      (lines.take s ++ sb ++ lines.drop eIdx) = some i := by
    apply findSectionStart_intro
    · omega
    · rw [gL i (by omega)]
      exact htest
    · intro j hj
      rw [gL j (by omega)]
      exact hpre0 j hj
  have hnext1 : (findNextSection (lines.take s ++ sb ++ lines.drop eIdx)
      (i + 1)).getD (lines.take s ++ sb ++ lines.drop eIdx).length =
      s + 14 + (e0 - eIdx) := by
    apply findNextSection_getD_intro
    · omega
    · omega
    · intro j hj1 hj2
      by_cases hje : j < s
      · rw [gL j hje]
        exact hbody0 j hj1 (by omega)
      · by_cases hjm : j < s + 14
        · have hk : j - s < 14 := by omega
          rw [show j = s + (j - s) by omega, gM _ hk]
          by_cases hk0 : j - s = 0
          · rw [hk0, hsb0]
            exact hhdrT.1
          · exact (hbodyT _ (by omega) hk).1
        · have hk : j - (s + 14) < e0 - eIdx := by omega
          rw [show j = s + 14 + (j - (s + 14)) by omega, gR]
          exact hbody0 (eIdx + (j - (s + 14))) (by omega) (by omega)
    · rcases hstop0 with h7 | ⟨h7a, h7b⟩
      · left
        omega
      · right
        refine ⟨by omega, ?_⟩
        have hr := gR (e0 - eIdx)
        rw [hr, show eIdx + (e0 - eIdx) = e0 by omega]
        exact h7b
  have hfb1 : findBlockIndices (lines.take s ++ sb ++ lines.drop eIdx) i
      (s + 14 + (e0 - eIdx)) name = some (s, s + 14) := by
    apply findBlockIndices_at
    · omega
    · omega
    · omega
    · omega
    · have hr := gM 0 (by omega)
      rw [Nat.add_zero] at hr
      rw [hr, hsb0]
      exact hhdrT.2.2
    · intro j hj1 hj2
      rw [gL j hj2]
      exact hc7 j hj1 hj2
    · intro j hj1 hj2
      have hk : j - s < 14 := by omega
      rw [show j = s + (j - s) by omega, gM _ hk]
      exact (hbodyT _ (by omega) hk).2
    · by_cases heq : eIdx = e0
      · left
        omega
      · right
        refine ⟨by omega, ?_⟩
        have hr := gR 0
        simp only [Nat.add_zero] at hr
        rw [hr]
        rcases hc8 with h8 | ⟨h8a, h8b⟩
        · exact absurd h8 heq
        · exact h8b
  have hcur : ((lines.take s ++ sb ++ lines.drop eIdx).drop s).take
      (s + 14 - s) = sb := by
    rw [show s + 14 - s = 14 by omega, ← hsblen]
    exact splice_slice lines sb s eIdx hsx
  exact ensureSabServer_noop (lines.take s ++ sb ++ lines.drop eIdx) name
    host port ssl username password connections priority i s
    (s + 14 + (e0 - eIdx)) hhost hsec1 hnext1 hfb1 hcur

/-- Idempotence of `ensure_sab_server` for a stripped block name. -/
theorem serverIdem (lines : List Line) (name host : Line) (port ssl : Int)
    (username password : Line) (connections priority : Int)
    (hhost : host ≠ []) (hname : strip name = name) :
    ensureSabServer (ensureSabServer lines name host port ssl username
        password connections priority).1 name host port ssl username
        password connections priority =
      ((ensureSabServer lines name host port ssl username password
          connections priority).1, false) := by
  rcases hm : findSectionStart (lineOf "[servers]") lines with _ | i
  · rw [ensureSabServer_none_eval lines name host port ssl username
      password connections priority hhost hm]
    exact serverRun2_none lines name host port ssl username password
      connections priority hhost hname hm
  · rcases hfb : findBlockIndices lines i
        ((findNextSection lines (i + 1)).getD lines.length) name
      with _ | ⟨s, eIdx⟩
    · rw [ensureSabServer_append_eval lines name host port ssl username
        password connections priority i hhost hm hfb]
      exact serverRun2_append lines name host port ssl username password
        connections priority i
        ((findNextSection lines (i + 1)).getD lines.length) hhost hname hm
        rfl hfb
    · rw [ensureSabServer_replace_eval lines name host port ssl username
        password connections priority i s eIdx hhost hm hfb]
      by_cases hcur : (lines.drop s).take (eIdx - s) =
          serverBlockFor name host port ssl username password connections
            priority
      · rw [if_pos hcur]
        dsimp only
        rw [ensureSabServer_replace_eval lines name host port ssl username
          password connections priority i s eIdx hhost hm hfb,
          if_pos hcur]
      · rw [if_neg hcur]
        exact serverRun2_replace lines name host port ssl username password
          connections priority i
          ((findNextSection lines (i + 1)).getD lines.length) s eIdx hhost
          hname hm rfl hfb

/-! ### Idempotence of `ensure_sab_categories` -/

/-- The rendered category header parses back to the category's lowered
name. -/
theorem catHeader_name (c : Line) (h1 : strip c = c) (h2 : c ≠ [])
    (h3 : ']' ∉ c) :
    subBlockName? (lineOf "  [[" ++ c ++ lineOf "]]") = some (lower c) := by
  unfold subBlockName?
  dsimp only
  rw [(bracket2_start_end c).1, (bracket2_start_end c).2, Bool.true_and,
    if_pos rfl, bracket2_mid c, if_pos (by simp [h2, h3]), h1]

/-- Every line of a flattened run of category blocks fails the top-level
header test. -/
theorem catFlatten_top (cs : List Line) :
    ∀ l ∈ (cs.map catBlock).flatten, isTopHeader l = false := by
  intro l hl
  rcases List.mem_flatten.mp hl with ⟨b, hb, hlb⟩
  rcases List.mem_map.mp hb with ⟨c, hc, rfl⟩
  simp only [catBlock, List.mem_cons, List.not_mem_nil, or_false] at hlb
  rcases hlb with rfl | rfl | rfl | rfl | rfl | rfl
  · exact (bracket2_tests c).1
  · exact (keyline_tests 'p' (lineOf "riority = -100") (by decide)
      (by decide)).1
  · exact (keyline_tests 'p' (lineOf "p = 3") (by decide) (by decide)).1
  · exact (keyline_tests 's' (lineOf "cript = ") (by decide) (by decide)).1
  · exact (keyline_tests 'd' (lineOf "ir = " ++ c) (by decide)
      (by decide)).1
  · exact (keyline_tests 'n' (lineOf "ewzbin = ") (by decide)
      (by decide)).1

/-- The rendered header of every listed category sits at some index of the
flattened run. -/
theorem catFlatten_header (cs : List Line) (c : Line) (hc : c ∈ cs) :
    ∃ k, k < ((cs.map catBlock).flatten).length ∧
      ((cs.map catBlock).flatten).getD k [] =
        lineOf "  [[" ++ c ++ lineOf "]]" := by
  apply mem_idx
  exact List.mem_flatten.mpr
    ⟨catBlock c, List.mem_map.mpr ⟨c, hc, rfl⟩, by simp [catBlock]⟩

/-- Branch evaluation of `ensure_sab_categories`: no section. -/
theorem ensureSabCategories_none_eval (lines : List Line)
    (cats : List Line)
    (hm : findSectionStart (lineOf "[categories]") lines = none) :
    ensureSabCategories lines cats =
      (lines ++ [[], lineOf "[categories]"] ++ (cats.map catBlock).flatten,
       true) := by
  unfold ensureSabCategories
  rw [hm]

/-- Branch evaluation of `ensure_sab_categories`: section present. -/
theorem ensureSabCategories_some_eval (lines : List Line)
    (cats : List Line) (i : Nat)
    (hm : findSectionStart (lineOf "[categories]") lines = some i) :
    ensureSabCategories lines cats =
      (if cats.filter (fun c => !(existingCatNames lines (i + 1)
            ((findNextSection lines (i + 1)).getD lines.length)).contains
              (lower c)) = []
       then (lines, false)
       else (lines.take
           ((findNextSection lines (i + 1)).getD lines.length) ++
         ((cats.filter (fun c => !(existingCatNames lines (i + 1)
            ((findNextSection lines (i + 1)).getD lines.length)).contains
              (lower c))).map catBlock).flatten ++
         lines.drop ((findNextSection lines (i + 1)).getD lines.length),
        true)) := by
  unfold ensureSabCategories
  rw [hm]

/-- When every wanted category name is readable somewhere in the section
body, the missing-list of the next run is empty. -/
theorem catsMissingNil (lines1 : List Line) (i e1 : Nat)
    (cats : List Line)
    (hcats : ∀ c ∈ cats, ∃ w j, i + 1 ≤ j ∧ j < e1 ∧ j < lines1.length ∧
      lines1.getD j [] = w ∧ subBlockName? w = some (lower c)) :
    cats.filter (fun c => !(existingCatNames lines1 (i + 1) e1).contains
      (lower c)) = [] := by
  rw [List.filter_eq_nil_iff]
  intro c hc
  rcases hcats c hc with ⟨w, j, hj1, hj2, hj3, hw, hname⟩
  have hmem : w ∈ (lines1.drop (i + 1)).take (e1 - (i + 1)) := by
    rw [← hw]
    exact mem_slice_of_idx lines1 (i + 1) e1 j hj1 hj2 hj3
  have hex : lower c ∈ existingCatNames lines1 (i + 1) e1 := by
    unfold existingCatNames
    exact List.mem_filterMap.mpr ⟨w, hmem, hname⟩
  have hcontains : (existingCatNames lines1 (i + 1) e1).contains
      (lower c) = true := by
    simpa using hex
  simp [hcontains]
  exact hex

/-- Idempotence of `ensure_sab_categories` for clean category names:
stripped, nonempty and free of `]`. -/
theorem catsIdem (lines : List Line) (cats : List Line)
    (hcats : ∀ c ∈ cats, strip c = c ∧ c ≠ [] ∧ ']' ∉ c) :
    ensureSabCategories (ensureSabCategories lines cats).1 cats =
      ((ensureSabCategories lines cats).1, false) := by
  rcases hm : findSectionStart (lineOf "[categories]") lines with _ | i
  · rw [ensureSabCategories_none_eval lines cats hm]
    dsimp only
    set F := (cats.map catBlock).flatten with hFdef
    set A := lines ++ [[], lineOf "[categories]"] with hAdef
    have hA : A.length = lines.length + 2 := by
      rw [hAdef]
      simp
    have hlen1 : (A ++ F).length = lines.length + 2 + F.length := by
      rw [List.length_append, hA]
    have hall : ∀ x ∈ lines,
        (lower (strip x) == lineOf "[categories]") = false := by
      have hm2 := hm
      unfold findSectionStart at hm2
      exact List.findIdx?_eq_none_iff.mp hm2
    have gL : ∀ j, j < lines.length →
        (A ++ F).getD j [] = lines.getD j [] := by
      intro j hj
      rw [getDL_left A F j (by omega), hAdef,
        getDL_left lines [[], lineOf "[categories]"] j hj]
    have g0 : (A ++ F).getD lines.length [] = [] := by
      rw [getDL_left A F lines.length (by omega), hAdef]
      have hr := getDL_right lines [[], lineOf "[categories]"] 0
      rw [Nat.add_zero] at hr
      rw [hr]
      rfl
    have g1 : (A ++ F).getD (lines.length + 1) [] =
        lineOf "[categories]" := by
      rw [getDL_left A F (lines.length + 1) (by omega), hAdef,
        getDL_right lines [[], lineOf "[categories]"] 1]
      rfl
    have gM : ∀ k, (A ++ F).getD (lines.length + 2 + k) [] =
        F.getD k [] := by
      intro k
      have hr := getDL_right A F k
      rw [hA] at hr
      exact hr
    have hsec1 : findSectionStart (lineOf "[categories]") (A ++ F) =
        some (lines.length + 1) := by
      apply findSectionStart_intro
      · omega
      · rw [g1]
        decide
      · intro j hj
        by_cases hje : j = lines.length
        · subst hje
          rw [g0]
          decide
        · rw [gL j (by omega)]
          exact hall _ (getD_mem lines j (by omega))
    have hnext1 : (findNextSection (A ++ F) (lines.length + 1 + 1)).getD
        (A ++ F).length = lines.length + 2 + F.length := by
      apply findNextSection_getD_intro
      · omega
      · omega
      · intro j hj1 hj2
        have hk : j - (lines.length + 2) < F.length := by omega
        rw [show j = lines.length + 2 + (j - (lines.length + 2)) by omega,
          gM]
        exact catFlatten_top cats _ (getD_mem F _ hk)
      · left
        omega
    rw [ensureSabCategories_some_eval (A ++ F) cats (lines.length + 1)
      hsec1, hnext1]
    rw [if_pos ?wits]
    case wits =>
      apply catsMissingNil
      intro c hc
      rcases catFlatten_header cats c hc with ⟨k, hk, hget⟩
      rw [← hFdef] at hk hget
      refine ⟨lineOf "  [[" ++ c ++ lineOf "]]", lines.length + 2 + k,
        by omega, by omega, by omega, ?_, ?_⟩
      · rw [gM, hget]
      · exact catHeader_name c (hcats c hc).1 (hcats c hc).2.1
          (hcats c hc).2.2
  · rw [ensureSabCategories_some_eval lines cats i hm]
    by_cases hmiss : cats.filter (fun c => !(existingCatNames lines (i + 1)
        ((findNextSection lines (i + 1)).getD lines.length)).contains
          (lower c)) = []
    · rw [if_pos hmiss]
      dsimp only
      rw [ensureSabCategories_some_eval lines cats i hm, if_pos hmiss]
    · rw [if_neg hmiss]
      dsimp only
      set e0 := (findNextSection lines (i + 1)).getD lines.length with he0
      set missing := cats.filter (fun c => !(existingCatNames lines (i + 1)
        e0).contains (lower c)) with hmissdef
      set FM := (missing.map catBlock).flatten with hFMdef
      obtain ⟨hi_len, htest, hpre0, hie0, he0len, hbody0, hstop0⟩ :=
        section_shape_of_scans (lineOf "[categories]") lines i e0 hm
          he0.symm
      have hlen1 : (lines.take e0 ++ FM ++ lines.drop e0).length =
          e0 + FM.length + (lines.length - e0) :=
        splice_length lines FM e0 e0 he0len
      have gL : ∀ j, j < e0 →
          (lines.take e0 ++ FM ++ lines.drop e0).getD j [] =
            lines.getD j [] :=
        fun j hj => splice_getD_left lines FM e0 e0 j he0len hj
      have gM : ∀ k, k < FM.length →
          (lines.take e0 ++ FM ++ lines.drop e0).getD (e0 + k) [] =
            FM.getD k [] :=
        fun k hk => splice_getD_mid lines FM e0 e0 k he0len hk
      have gR : ∀ k, (lines.take e0 ++ FM ++ lines.drop e0).getD
          (e0 + FM.length + k) [] = lines.getD (e0 + k) [] :=
        fun k => splice_getD_right lines FM e0 e0 k he0len
      have hsec1 : findSectionStart (lineOf "[categories]")
          (lines.take e0 ++ FM ++ lines.drop e0) = some i := by
        apply findSectionStart_intro
        · omega
        · rw [gL i hie0]
          exact htest
        · intro j hj
          rw [gL j (by omega)]
          exact hpre0 j hj
      have hnext1 : (findNextSection (lines.take e0 ++ FM ++ lines.drop e0)
          (i + 1)).getD (lines.take e0 ++ FM ++ lines.drop e0).length =
          e0 + FM.length := by
        apply findNextSection_getD_intro
        · omega
        · omega
        · intro j hj1 hj2
          by_cases hje : j < e0
          · rw [gL j hje]
            exact hbody0 j hj1 hje
          · have hk : j - e0 < FM.length := by omega
            rw [show j = e0 + (j - e0) by omega, gM _ hk]
            exact catFlatten_top missing _ (getD_mem FM _ hk)
        · rcases hstop0 with h7 | ⟨h7a, h7b⟩
          · left
            omega
          · right
            refine ⟨by omega, ?_⟩
            have hr := gR 0
            simp only [Nat.add_zero] at hr
            rw [hr]
            exact h7b
      rw [ensureSabCategories_some_eval
        (lines.take e0 ++ FM ++ lines.drop e0) cats i hsec1, hnext1]
      rw [if_pos ?wits2]
      case wits2 =>
        apply catsMissingNil
        intro c hc
        by_cases hp : (existingCatNames lines (i + 1) e0).contains
            (lower c) = true
        · have hex : lower c ∈ existingCatNames lines (i + 1) e0 := by
            simpa using hp
          unfold existingCatNames at hex
          rcases List.mem_filterMap.mp hex with ⟨w, hw, hname⟩
          rcases idx_of_mem_slice lines (i + 1) e0 w hw with
            ⟨j, hj1, hj2, hj3, hget⟩
          refine ⟨w, j, hj1, by omega, by omega, ?_, hname⟩
          rw [gL j hj2]
          exact hget
        · have hpf : (existingCatNames lines (i + 1) e0).contains
              (lower c) = false := by
            rcases hb : (existingCatNames lines (i + 1) e0).contains
                (lower c) with _ | _
            · rfl
            · exact absurd hb hp
          have hcm : c ∈ missing := by
            rw [hmissdef]
            exact List.mem_filter.mpr ⟨hc, by simp [hpf]; simpa using hpf⟩
          rcases catFlatten_header missing c hcm with ⟨k, hk, hget⟩
          rw [← hFMdef] at hk hget
          refine ⟨lineOf "  [[" ++ c ++ lineOf "]]", e0 + k, by omega,
            by omega, by omega, ?_, ?_⟩
          · rw [gM _ hk, hget]
          · exact catHeader_name c (hcats c hc).1 (hcats c hc).2.1
              (hcats c hc).2.2

/-- C4 counterexample: `ensure_sab_whitelist` is not idempotent.  On a
document with no `[misc]` section (here: the empty document) the first
run appends `host_whitelist = sabnzbd` — rendered from the module global
`SAB_WHITELIST` (config_stack.py:859), not from the wanted hosts — and
reports a change; the second run with the same wanted host `h` then finds
`h` missing from the stored list, merges it in, and reports a change
again instead of returning `False`. -/
theorem c4_idempotence_counterexample :
    (ensureSabWhitelist [] [lineOf "h"] [lineOf "sabnzbd"]).2 = true ∧
    (ensureSabWhitelist [] [lineOf "h"] [lineOf "sabnzbd"]).1 =
      [[], lineOf "[misc]", lineOf "host_whitelist = sabnzbd"] ∧
    (ensureSabWhitelist
      (ensureSabWhitelist [] [lineOf "h"] [lineOf "sabnzbd"]).1
      [lineOf "h"] [lineOf "sabnzbd"]).2 = true := by
  decide

/-- C4 (amended): of the four text-file patch operations, the three
section patchers are idempotent — for every starting document, a second
run with the same clean arguments computes the identical line list and
returns `False` (the unchanged verdict that skips backup and write):
`ensure_sab_folders` for stripped directory values, `ensure_sab_server`
for a nonempty host and a stripped server name, and
`ensure_sab_categories` for stripped, nonempty, `]`-free category names.
`ensure_sab_whitelist` is excluded: it is not idempotent, because its
section-creating branch writes the module default `SAB_WHITELIST` rather
than the wanted hosts, so a second run can merge the wanted hosts in and
write again (see the counterexample). -/
theorem c4_patch_idempotence_amended :
    (∀ (lines : List Line) (tempDir completeDir : Line),
      strip tempDir = tempDir → strip completeDir = completeDir →
      ensureSabFolders (ensureSabFolders lines tempDir completeDir).1
          tempDir completeDir =
        ((ensureSabFolders lines tempDir completeDir).1, false)) ∧
    (∀ (lines : List Line) (name host : Line) (port ssl : Int)
      (username password : Line) (connections priority : Int),
      host ≠ [] → strip name = name →
      ensureSabServer (ensureSabServer lines name host port ssl username
          password connections priority).1 name host port ssl username
          password connections priority =
        ((ensureSabServer lines name host port ssl username password
            connections priority).1, false)) ∧
    (∀ (lines : List Line) (categories : List Line),
      (∀ c ∈ categories, strip c = c ∧ c ≠ [] ∧ ']' ∉ c) →
      ensureSabCategories (ensureSabCategories lines categories).1
          categories =
        ((ensureSabCategories lines categories).1, false)) :=
  ⟨fun lines tempDir completeDir ht hcd =>
    foldersIdem lines tempDir completeDir ht hcd,
   fun lines name host port ssl username password connections priority
      hhost hname =>
    serverIdem lines name host port ssl username password connections
      priority hhost hname,
   fun lines categories hcats => catsIdem lines categories hcats⟩

/-- Witness for the amended C4: concrete second runs of the three
patchers return the first run's document unchanged with `False`. -/
theorem c4_patch_idempotence_amended_witness :
    ensureSabFolders (ensureSabFolders [lineOf "[misc]"] (lineOf "/t")
        (lineOf "/c")).1 (lineOf "/t") (lineOf "/c") =
      ((ensureSabFolders [lineOf "[misc]"] (lineOf "/t")
        (lineOf "/c")).1, false) ∧
    ensureSabServer (ensureSabServer [] (lineOf "s1") (lineOf "h") 119 0
        [] [] 8 0).1 (lineOf "s1") (lineOf "h") 119 0 [] [] 8 0 =
      ((ensureSabServer [] (lineOf "s1") (lineOf "h") 119 0 [] [] 8 0).1,
       false) ∧
    ensureSabCategories (ensureSabCategories [] [lineOf "tv"]).1
        [lineOf "tv"] =
      ((ensureSabCategories [] [lineOf "tv"]).1, false) :=
  ⟨c4_patch_idempotence_amended.1 [lineOf "[misc]"] (lineOf "/t")
      (lineOf "/c") (by decide) (by decide),
   c4_patch_idempotence_amended.2.1 [] (lineOf "s1") (lineOf "h") 119 0
      [] [] 8 0 (by decide) (by decide),
   c4_patch_idempotence_amended.2.2 [] [lineOf "tv"] (by decide)⟩
